import Mathlib

/-!
# Block cache and write-ahead log of the JOS file-system server

Shallow embedding of `fs/bc.c` and `fs/log.c`.

* The backing device is a map from block numbers to blocks, together with the
  history of the block writes issued to it.
* The disk-map window of the file-system environment's address space is a map
  from block numbers to optional cache slots: `none` is an absent page-table
  entry, `some` carries the page contents and the hardware `PTE_D` / `PTE_A`
  bits.
* A fatal `panic` is an `Except.error`; every function that can panic returns
  in `Except Fault`.
* Machine words are natural numbers reduced modulo `2 ^ 32` where the C code
  computes in `uint32_t`.
-/

namespace JosFs

/-! ## Constants of `inc/mmu.h`, `inc/fs.h` and `fs/fs.h` -/

/-- Modulus of `uint32_t` arithmetic. -/
abbrev U32 : Nat := 4294967296

/-- Truncation of a natural number to `uint32_t`. -/
abbrev u32 (x : Nat) : Nat := x % U32

/-- Page size, `PGSIZE` of `inc/mmu.h`. -/
abbrev PGSIZE : Nat := 4096

/-- Block size, `BLKSIZE` of `inc/fs.h` (one page). -/
abbrev BLKSIZE : Nat := PGSIZE

/-- Sectors per block, `BLKSECTS` of `fs/fs.h` (`BLKSIZE / SECTSIZE`, 512-byte sectors). -/
abbrev BLKSECTS : Nat := 8

/-- Start of the disk-map window, `DISKMAP` of `fs/fs.h`. -/
abbrev DISKMAP : Nat := 0x10000000

/-- Size of the disk-map window, `DISKSIZE` of `fs/fs.h`. -/
abbrev DISKSIZE : Nat := 0xC0000000

/-- Iteration bound of the `for` loops of `log.c`: the loop counter is compared
with a `uint32_t` read from memory, so a loop head is evaluated at most
`2 ^ 32` times. -/
abbrev LOOP_BOUND : Nat := U32

/-- The macro `ROUNDDOWN(a, n)` of `inc/types.h`. -/
def ROUNDDOWN (a n : Nat) : Nat := a - a % n

/-! ## Data model -/

/-- Contents of one block or page: `BLKSIZE / 4` words of 32 bits, indexed by
word offset. Only the offsets below 1024 are ever read or written one by one;
`memcpy` of `BLKSIZE` bytes and the device transfers move a block as a whole. -/
abbrev Block : Type := Nat → Nat

/-- A mapped page of the disk-map window: its contents and the `PTE_D` and
`PTE_A` bits of its page-table entry. -/
structure Slot where
  bytes : Block
  dirty : Bool
  accessed : Bool

/-- The fields of `struct Super` that the block cache and the log read. -/
structure Super where
  s_nblocks : Nat
  s_logstart : Nat
  s_lognblocks : Nat

/-- The three pointers of `struct LogHeader` in `log.c`, as virtual addresses. -/
structure LogHeader where
  pnblocks : Nat
  blocknos : Nat
  log_entries : Nat

/-- State of the file-system environment: the device, the history of the block
writes issued to it (oldest first), the disk-map window and the static
`log_header`. -/
structure State where
  disk : Nat → Block
  ide_writes : List (Nat × Block)
  cache : Nat → Option Slot
  log_header : LogHeader

/-- What surrounds `bc.c` and `log.c`: the globals `super` and `bitmap` of
`fs/fs.c` (either may still be `NULL`), and the return codes of the kernel and
driver calls, by the address or sector they are called on. `super` points at
the super block, which the file system reads at mount and never writes; it is
an immutable record here. `bitmap` is given by the predicate `block_is_free`
it encodes. -/
structure Env where
  super : Option Super
  bitmap : Option (Nat → Bool)
  r_page_alloc : Nat → Int
  r_ide_read : Nat → Int
  r_ide_write : Nat → Int
  r_page_map : Nat → Int

/-- The `panic` sites of `bc.c` and `log.c`. `loop_bound` is not a panic of the
program: it is returned when a loop model exceeds `LOOP_BOUND` iterations,
which never happens. -/
inductive Fault where
  | bad_block_number
  | blocknum_bad_addr
  | pgfault_outside_window
  | nonexistent_block
  | page_alloc_failed
  | ide_read_failed
  | pgfault_page_map_failed
  | free_block
  | flush_bad_va
  | ide_write_failed
  | flush_page_map_failed
  | log_addr_out_of_range
  | out_of_log_space
  | loop_bound
  | evict_page_map_failed
  deriving DecidableEq, Repr

/-! ## `fs/bc.c` -/

/-- The test `super && blockno >= super->s_nblocks` of `diskaddr` and `bc_pgfault`. -/
def beyond_super (env : Env) (blockno : Nat) : Bool :=
  match env.super with
  | some sb => decide (blockno ≥ sb.s_nblocks)
  | none => false

/-- Model of `diskaddr`: the virtual address of a disk block. -/
def diskaddr (env : Env) (blockno : Nat) : Except Fault Nat :=
  if blockno = 0 ∨ beyond_super env blockno = true then
    .error Fault.bad_block_number
  else
    .ok (u32 (DISKMAP + blockno * BLKSIZE))

/-- Model of `blocknum`, the reverse operation to `diskaddr`. -/
def blocknum (addr : Nat) : Except Fault Nat :=
  if addr < DISKMAP ∨ addr > DISKMAP + DISKSIZE then
    .error Fault.blocknum_bad_addr
  else
    .ok ((addr - DISKMAP) / BLKSIZE)

/-- Index of the page of `va` in the disk-map window (`PGNUM(va) - PGNUM(DISKMAP)`). -/
def blockof (va : Nat) : Nat := (va - DISKMAP) / BLKSIZE

/-- Word offset of `va` inside its page. -/
def wordof (va : Nat) : Nat := (va % BLKSIZE) / 4

/-- Model of `va_is_mapped`, for the addresses of the disk-map window; nothing
outside the window is modelled as mapped. -/
def va_is_mapped (s : State) (va : Nat) : Bool :=
  decide (DISKMAP ≤ va) && decide (va < DISKMAP + DISKSIZE) && (s.cache (blockof va)).isSome

/-- Model of `va_is_dirty`: the `PTE_D` bit of the page of `va`. -/
def va_is_dirty (s : State) (va : Nat) : Bool :=
  match s.cache (blockof va) with
  | some sl => sl.dirty
  | none => false

/-- Model of `va_is_accessed`: the `PTE_A` bit of the page of `va`. -/
def va_is_accessed (s : State) (va : Nat) : Bool :=
  match s.cache (blockof va) with
  | some sl => sl.accessed
  | none => false

/-- The contents a read of block `b` through the window yields: the page if it
is mapped, and otherwise what the fault handler would load from the device. -/
def mem (s : State) (b : Nat) : Block :=
  match s.cache b with
  | some sl => sl.bytes
  | none => s.disk b

/-- Whether block `b` is mapped with `PTE_D` set. -/
def dirtyMapped (s : State) (b : Nat) : Bool :=
  match s.cache b with
  | some sl => sl.dirty
  | none => false

/-- The driver call `ide_read(secno, dst, BLKSECTS)`: the block starting at sector `secno`. -/
def ide_read (s : State) (secno : Nat) : Block := s.disk (secno / BLKSECTS)

/-- The driver call `ide_write(secno, src, BLKSECTS)`: the block starting at
sector `secno` is replaced, and the write is recorded. -/
def ide_write (s : State) (secno : Nat) (blk : Block) : State :=
  { s with disk := Function.update s.disk (secno / BLKSECTS) blk
           ide_writes := s.ide_writes ++ [(secno / BLKSECTS, blk)] }

/-- The call `sys_page_map(0, va, 0, va, perm)` on a mapped page: the entry is
rewritten with the given permission bits, which clears `PTE_D` and `PTE_A`. -/
def page_remap (s : State) (b : Nat) : State :=
  match s.cache b with
  | some sl => { s with cache := Function.update s.cache b (some { sl with dirty := false, accessed := false }) }
  | none => s

/-- The call `sys_page_unmap(0, va)` on a page of the window. -/
def page_unmap (s : State) (b : Nat) : State :=
  { s with cache := Function.update s.cache b none }

/-- The test `bitmap && block_is_free(blockno)` of `bc_pgfault`. -/
def bitmap_marks_free (env : Env) (blockno : Nat) : Bool :=
  match env.bitmap with
  | some free => free blockno
  | none => false

/-- Model of `bc_pgfault`: load the faulting block from the device into a
fresh page and leave it mapped with `PTE_D` clear. The call of
`manage_eviction` is commented out in the source. -/
def bc_pgfault (env : Env) (s : State) (fault_va : Nat) : Except Fault State :=
  match blocknum fault_va with
  | .error e => .error e
  | .ok blockno =>
    if fault_va < DISKMAP ∨ fault_va ≥ DISKMAP + DISKSIZE then
      .error Fault.pgfault_outside_window
    else if beyond_super env blockno then
      .error Fault.nonexistent_block
    else if env.r_page_alloc (ROUNDDOWN fault_va PGSIZE) < 0 then
      .error Fault.page_alloc_failed
    else if env.r_ide_read (u32 (blockno * BLKSECTS)) < 0 then
      .error Fault.ide_read_failed
    else if env.r_page_map (ROUNDDOWN fault_va PGSIZE) < 0 then
      .error Fault.pgfault_page_map_failed
    else if bitmap_marks_free env blockno then
      .error Fault.free_block
    else
      .ok { s with cache := Function.update s.cache (blockof (ROUNDDOWN fault_va PGSIZE))
                      (some { bytes := ide_read s (u32 (blockno * BLKSECTS))
                              dirty := false
                              accessed := false }) }

/-- Model of `flush_block`: write the block containing `addr` to the device if
it is mapped and dirty, then clear `PTE_D`. -/
def flush_block (env : Env) (s : State) (addr : Nat) : Except Fault State :=
  match blocknum addr with
  | .error e => .error e
  | .ok blockno =>
    if addr < DISKMAP ∨ addr ≥ DISKMAP + DISKSIZE then
      .error Fault.flush_bad_va
    else if !va_is_mapped s (ROUNDDOWN addr BLKSIZE) || !va_is_dirty s (ROUNDDOWN addr BLKSIZE) then
      .ok s
    else if env.r_ide_write (u32 (blockno * BLKSECTS)) < 0 then
      .error Fault.ide_write_failed
    else if env.r_page_map (ROUNDDOWN addr BLKSIZE) < 0 then
      .error Fault.flush_page_map_failed
    else
      .ok (page_remap
            (ide_write s (u32 (blockno * BLKSECTS)) (mem s (blockof (ROUNDDOWN addr BLKSIZE))))
            (blockof (ROUNDDOWN addr BLKSIZE)))

/-! ## Memory accesses through the window

An access to an unmapped page traps into `bc_pgfault`, the page-fault handler
installed by `bc_init`, and is retried when the handler returns. A read sets
`PTE_A`; a write sets `PTE_A` and `PTE_D`. -/

/-- Make the page of `va` present: nothing to do if it is mapped, otherwise
the page fault runs `bc_pgfault`. -/
def touch (env : Env) (s : State) (va : Nat) : Except Fault State :=
  if va_is_mapped s va then .ok s else bc_pgfault env s va

/-- The hardware sets `PTE_A` on the page of block `b`. -/
def mark_accessed (s : State) (b : Nat) : State :=
  match s.cache b with
  | some sl => { s with cache := Function.update s.cache b (some { sl with accessed := true }) }
  | none => s

/-- The page of block `b` is written: it then holds `blk`, with `PTE_D` and `PTE_A` set. -/
def write_page (s : State) (b : Nat) (blk : Block) : State :=
  { s with cache := Function.update s.cache b (some { bytes := blk, dirty := true, accessed := true }) }

/-- A `uint32_t` read `*(uint32_t *) va`. -/
def load32 (env : Env) (s : State) (va : Nat) : Except Fault (Nat × State) :=
  match touch env s va with
  | .error e => .error e
  | .ok s1 => .ok (u32 (mem s1 (blockof va) (wordof va)), mark_accessed s1 (blockof va))

/-- A `uint32_t` write `*(uint32_t *) va = v`. -/
def store32 (env : Env) (s : State) (va : Nat) (v : Nat) : Except Fault State :=
  match touch env s va with
  | .error e => .error e
  | .ok s1 => .ok (write_page s1 (blockof va)
                    (Function.update (mem s1 (blockof va)) (wordof va) (u32 v)))

/-- The call `memcpy(dst, src, BLKSIZE)` for block-aligned `dst` and `src`, as
at every call site of `log.c`: the source page is read, then the destination
page is written. -/
def memcpy_block (env : Env) (s : State) (dst src : Nat) : Except Fault State :=
  match touch env s src with
  | .error e => .error e
  | .ok s1 =>
    match touch env (mark_accessed s1 (blockof src)) dst with
    | .error e => .error e
    | .ok s2 => .ok (write_page s2 (blockof dst) (mem s2 (blockof src)))

/-- Storing a whole block of content through the window at `va`, as the file
system does before it calls `log_write`, and as `check_bc` does with `strcpy`. -/
def store_block (env : Env) (s : State) (va : Nat) (blk : Block) : Except Fault State :=
  match touch env s va with
  | .error e => .error e
  | .ok s1 => .ok (write_page s1 (blockof va) blk)

/-! ## `fs/log.c` -/

/-- A dereference of the global `super`. While `super` is `NULL` the read
faults at a low address, and `bc_pgfault` panics in `blocknum`. -/
def deref_super (env : Env) : Except Fault Super :=
  match env.super with
  | some sb => .ok sb
  | none => .error Fault.blocknum_bad_addr

/-- Model of `flush_block(log_header.log_entries[i])` for `i` from the given
index on, the `for` loop of `flush_log`. -/
def flush_log_loop (env : Env) : Nat → Nat → State → Except Fault State
  | 0, _, _ => .error Fault.loop_bound
  | fuel + 1, i, s =>
    match load32 env s s.log_header.pnblocks with
    | .error e => .error e
    | .ok (n, s1) =>
      if i < n then
        match flush_block env s1 (u32 (s1.log_header.log_entries + i * BLKSIZE)) with
        | .error e => .error e
        | .ok s2 => flush_log_loop env fuel (i + 1) s2
      else
        .ok s1

/-- Model of `flush_log`: flush the payload slots, then the header block. -/
def flush_log (env : Env) (s : State) : Except Fault State :=
  match flush_log_loop env LOOP_BOUND 0 s with
  | .error e => .error e
  | .ok s1 => flush_block env s1 s1.log_header.pnblocks

/-- Model of the second `for` loop of `log_commit`: copy each logged block to
its home location and flush it. -/
def commit_loop (env : Env) : Nat → Nat → State → Except Fault State
  | 0, _, _ => .error Fault.loop_bound
  | fuel + 1, i, s =>
    match load32 env s s.log_header.pnblocks with
    | .error e => .error e
    | .ok (n, s1) =>
      if i < n then
        match load32 env s1 (u32 (s1.log_header.blocknos + 4 * i)) with
        | .error e => .error e
        | .ok (b, s2) =>
          match diskaddr env b with
          | .error e => .error e
          | .ok actual_loc =>
            match memcpy_block env s2 actual_loc (u32 (s2.log_header.log_entries + i * BLKSIZE)) with
            | .error e => .error e
            | .ok s3 =>
              match flush_block env s3 actual_loc with
              | .error e => .error e
              | .ok s4 => commit_loop env fuel (i + 1) s4
      else
        .ok s1

/-- Model of `log_commit`. -/
def log_commit (env : Env) (s : State) : Except Fault State :=
  match flush_log env s with
  | .error e => .error e
  | .ok s1 =>
    match commit_loop env LOOP_BOUND 0 s1 with
    | .error e => .error e
    | .ok s2 =>
      match store32 env s2 s2.log_header.pnblocks 0 with
      | .error e => .error e
      | .ok s3 => flush_block env s3 s3.log_header.pnblocks

/-- The pointers `log_init` stores into `log_header` for a log that starts at
address `logstart`. -/
def log_header_at (logstart : Nat) : LogHeader :=
  { pnblocks := logstart
    blocknos := u32 (logstart + 4)
    log_entries := u32 (logstart + BLKSIZE) }

/-- Model of `log_init`. -/
def log_init (env : Env) (s : State) : Except Fault State :=
  match deref_super env with
  | .error e => .error e
  | .ok sb =>
    match diskaddr env sb.s_logstart with
    | .error e => .error e
    | .ok logstart =>
      match load32 env { s with log_header := log_header_at logstart } logstart with
      | .error e => .error e
      | .ok (n, s1) => if n > 0 then log_commit env s1 else .ok s1

/-- Model of the search loop of `log_write`: `true` with the state reached
when the block was found in the log and its payload slot overwritten (the
function then returns), `false` with the state reached when the loop ran to
its end. -/
def log_write_scan (env : Env) (blockno addr : Nat) :
    Nat → Nat → State → Except Fault (Bool × State)
  | 0, _, _ => .error Fault.loop_bound
  | fuel + 1, i, s =>
    match load32 env s s.log_header.pnblocks with
    | .error e => .error e
    | .ok (n, s1) =>
      if i < n then
        match load32 env s1 (u32 (s1.log_header.blocknos + 4 * i)) with
        | .error e => .error e
        | .ok (b, s2) =>
          if blockno = b then
            match memcpy_block env s2 (u32 (s2.log_header.log_entries + i * BLKSIZE)) addr with
            | .error e => .error e
            | .ok s3 => .ok (true, s3)
          else
            log_write_scan env blockno addr fuel (i + 1) s2
      else
        .ok (false, s1)

/-- Model of the tail of `log_write`, after the search loop found nothing:
the capacity check and the append at index `*log_header.pnblocks`. -/
def log_write_append (env : Env) (blockno addr : Nat) (s : State) : Except Fault State :=
  match load32 env s s.log_header.pnblocks with
  | .error e => .error e
  | .ok (n, s1) =>
    match deref_super env with
    | .error e => .error e
    | .ok sb =>
      if n ≥ sb.s_lognblocks then
        .error Fault.out_of_log_space
      else
        match load32 env s1 s1.log_header.pnblocks with
        | .error e => .error e
        | .ok (n1, s2) =>
          match store32 env s2 (u32 (s2.log_header.blocknos + 4 * n1)) blockno with
          | .error e => .error e
          | .ok s3 =>
            match load32 env s3 s3.log_header.pnblocks with
            | .error e => .error e
            | .ok (n2, s4) =>
              match memcpy_block env s4 (u32 (s4.log_header.log_entries + n2 * BLKSIZE)) addr with
              | .error e => .error e
              | .ok s5 =>
                match load32 env s5 s5.log_header.pnblocks with
                | .error e => .error e
                | .ok (n3, s6) => store32 env s6 s6.log_header.pnblocks (n3 + 1)

/-- Model of `log_write`. -/
def log_write (env : Env) (s : State) (addr : Nat) : Except Fault State :=
  if addr < DISKMAP ∨ addr ≥ DISKMAP + DISKSIZE then
    .error Fault.log_addr_out_of_range
  else
    match blocknum (ROUNDDOWN addr BLKSIZE) with
    | .error e => .error e
    | .ok blockno =>
      match log_write_scan env blockno (ROUNDDOWN addr BLKSIZE) LOOP_BOUND 0 s with
      | .error e => .error e
      | .ok (true, s1) => .ok s1
      | .ok (false, s1) => log_write_append env blockno (ROUNDDOWN addr BLKSIZE) s1

/-! ## Observations on states -/

/-- The address is inside the disk-map window `[DISKMAP, DISKMAP + DISKSIZE)`. -/
def InWindow (va : Nat) : Prop := DISKMAP ≤ va ∧ va < DISKMAP + DISKSIZE

/-- Two states that no read can tell apart and that have the same device: same
device contents and write history, same contents seen through the window,
same dirty pages, same log pointers. They may differ in which clean pages are
mapped and in the `PTE_A` bits. -/
structure Same (s s' : State) : Prop where
  hdisk : s'.disk = s.disk
  hwrites : s'.ide_writes = s.ide_writes
  hmem : mem s' = mem s
  hdirty : dirtyMapped s' = dirtyMapped s
  hlog : s'.log_header = s.log_header

/-- The kernel and the driver never report an error. -/
structure Reliable (env : Env) : Prop where
  page_alloc : ∀ x, 0 ≤ env.r_page_alloc x
  ide_read : ∀ x, 0 ≤ env.r_ide_read x
  ide_write : ∀ x, 0 ≤ env.r_ide_write x
  page_map : ∀ x, 0 ≤ env.r_page_map x

/-- Block `b` passes the two sanity checks of `bc_pgfault`: it exists
according to the super block and the bitmap does not mark it free. -/
def Loadable (env : Env) (b : Nat) : Prop :=
  beyond_super env b = false ∧ bitmap_marks_free env b = false

/-- The value `*log_header.pnblocks` reads in state `s`. -/
def log_n (s : State) : Nat :=
  u32 (mem s (blockof s.log_header.pnblocks) (wordof s.log_header.pnblocks))

/-- The value `log_header.blocknos[i]` reads in state `s`. -/
def log_blockno (s : State) (i : Nat) : Nat :=
  u32 (mem s (blockof (u32 (s.log_header.blocknos + 4 * i)))
    (wordof (u32 (s.log_header.blocknos + 4 * i))))

/-- The contents of the payload slot `log_header.log_entries[i]` seen in state `s`. -/
def log_payload (s : State) (i : Nat) : Block :=
  mem s (blockof (u32 (s.log_header.log_entries + i * BLKSIZE)))

/-- The log pointers are those `log_init` computes from the super block, the
log region lies inside the disk-map window, and the header block has room for
one block number per payload slot. -/
structure LogAt (env : Env) (sb : Super) (s : State) : Prop where
  super_eq : env.super = some sb
  hdr : s.log_header = log_header_at (DISKMAP + sb.s_logstart * BLKSIZE)
  fits : sb.s_logstart + sb.s_lognblocks < DISKSIZE / BLKSIZE
  room : sb.s_lognblocks < BLKSIZE / 4

/-- The environment in which the log runs to completion: the kernel and the
driver report no error, the device fits in the disk-map window, and the blocks
of the log region exist on the device and are marked allocated. -/
structure Ready (env : Env) (sb : Super) : Prop where
  reliable : Reliable env
  logstart_pos : 0 < sb.s_logstart
  region : sb.s_logstart + sb.s_lognblocks < sb.s_nblocks
  window : sb.s_nblocks ≤ DISKSIZE / BLKSIZE
  allocated : ∀ b, sb.s_logstart ≤ b → b ≤ sb.s_logstart + sb.s_lognblocks →
    bitmap_marks_free env b = false

/-- The invariant of the log header: the count is within the capacity and the
recorded block numbers are pairwise distinct. -/
def LogInv (sb : Super) (s : State) : Prop :=
  log_n s ≤ sb.s_lognblocks ∧
    ∀ i j, i < j → j < log_n s → log_blockno s i ≠ log_blockno s j

/-- Block `b` lies outside the log region: it is neither the header block nor a payload slot. -/
def OutsideLog (sb : Super) (b : Nat) : Prop :=
  b < sb.s_logstart ∨ sb.s_logstart + sb.s_lognblocks < b

/-- Every clean or unmapped block reads through the window as it is on the device. -/
def Coherent (s : State) : Prop :=
  ∀ b, dirtyMapped s b = false → mem s b = s.disk b

/-- The device after the block writes `ws` are applied, in order, to the contents `d`. -/
def replay (ws : List (Nat × Block)) (d : Nat → Block) : Nat → Block :=
  ws.foldl (fun d w => Function.update d w.1 w.2) d

/-- The state in which the file-system environment restarts after a crash
that the writes `ws` issued after state `s` survived: the device holds them,
nothing is mapped and the static `log_header` is zero again. -/
def crash_after (s : State) (ws : List (Nat × Block)) : State :=
  { disk := replay ws s.disk
    ide_writes := s.ide_writes ++ ws
    cache := fun _ => none
    log_header := { pnblocks := 0, blocknos := 0, log_entries := 0 } }

/-- A sequence of `log_write` calls, one per address, stopping at the first that fails. -/
def log_writes (env : Env) : State → List Nat → Except Fault State
  | s, [] => .ok s
  | s, addr :: rest =>
    match log_write env s addr with
    | .error e => .error e
    | .ok s1 => log_writes env s1 rest

/-- The device writes of the first loop of `flush_log` for the payload slots
`i, i + 1, ..., i + len - 1` of a log whose header is block `L`: one write per
slot that is mapped and dirty (`d`), of what the window holds (`m`). -/
def payload_writes (d : Nat → Bool) (m : Nat → Block) (L : Nat) : Nat → Nat → List (Nat × Block)
  | _, 0 => []
  | i, len + 1 =>
    (if d (L + 1 + i) = true then [(L + 1 + i, m (L + 1 + i))] else [])
      ++ payload_writes d m L (i + 1) len

/-- The device writes of the copy loop of `log_commit` for the entries
`i, i + 1, ..., i + len - 1`: the home block `h j` receives payload slot `j`. -/
def home_writes (h : Nat → Nat) (m : Nat → Block) (L : Nat) : Nat → Nat → List (Nat × Block)
  | _, 0 => []
  | i, len + 1 => (h i, m (L + 1 + i)) :: home_writes h m L (i + 1) len

/-- What `log_commit` needs of the block numbers `h 0, ..., h (n - 1)` recorded
in the header: each is accepted by `diskaddr` and can be loaded, they are
pairwise distinct, none is the header block, and none is a payload slot that
is still to be copied. -/
structure Homes (env : Env) (sb : Super) (n : Nat) (h : Nat → Nat) : Prop where
  pos : ∀ j, j < n → 0 < h j
  loadable : ∀ j, j < n → Loadable env (h j)
  distinct : ∀ j k, j < k → k < n → h j ≠ h k
  not_header : ∀ j, j < n → h j ≠ sb.s_logstart
  not_later_slot : ∀ j k, j < k → k < n → h j ≠ sb.s_logstart + 1 + k

/-! ## Example configuration -/

/-- A super block reporting 1024 blocks, with the log starting at block 2 and 16 payload slots. -/
def exampleSuper : Super := { s_nblocks := 1024, s_logstart := 2, s_lognblocks := 16 }

/-- An environment mounted on `exampleSuper`, with no bitmap loaded and calls that never fail. -/
def exampleEnv : Env :=
  { super := some exampleSuper
    bitmap := none
    r_page_alloc := fun _ => 0
    r_ide_read := fun _ => 0
    r_ide_write := fun _ => 0
    r_page_map := fun _ => 0 }

/-- A zeroed device, nothing mapped, `log_header` as `log_init` leaves it: an empty log. -/
def emptyLog : State :=
  { disk := fun _ _ => 0
    ide_writes := []
    cache := fun _ => none
    log_header := log_header_at (DISKMAP + 2 * BLKSIZE) }

/-- A device whose log header records one entry, for block 20, whose payload
slot (block 3) holds the word 7 at every offset; nothing is mapped. This is
what a restart finds after a crash in the middle of a commit. -/
def pendingLog : State :=
  { disk := fun b w =>
      if b = 2 then (if w = 0 then 1 else if w = 1 then 20 else 0)
      else if b = 3 then 7 else 0
    ide_writes := []
    cache := fun _ => none
    log_header := log_header_at (DISKMAP + 2 * BLKSIZE) }

/-- The addresses of the sixteen blocks 20, 21, ..., 35. -/
def sixteenAddrs : List Nat := (List.range 16).map (fun i => DISKMAP + (20 + i) * BLKSIZE)

/-- The environment during `bc_init`: `super` and `bitmap` are still `NULL`, no call fails. -/
def bootEnv : Env :=
  { super := none
    bitmap := none
    r_page_alloc := fun _ => 0
    r_ide_read := fun _ => 0
    r_ide_write := fun _ => 0
    r_page_map := fun _ => 0 }

/-- The round trip of the log: `log_write(diskaddr(b))`, `log_commit()`, unmap
the slot of `b`, and load it again through `bc_pgfault`. -/
def log_round_trip (env : Env) (s : State) (b : Nat) : Except Fault State :=
  match diskaddr env b with
  | .error e => .error e
  | .ok addr =>
    match log_write env s addr with
    | .error e => .error e
    | .ok s1 =>
      match log_commit env s1 with
      | .error e => .error e
      | .ok s2 => bc_pgfault env (page_unmap s2 (blockof addr)) addr

/-- The empty example log with its header block (block 2) mapped and clean. -/
def emptyLogCached : State :=
  { emptyLog with
    cache := fun b =>
      if b = 2 then some { bytes := fun _ => 0, dirty := false, accessed := false } else none }

/-- A block write by the file system: store the new content into the cache
slot of block `b`, then `log_write` its address. -/
def fs_write (env : Env) (s : State) (b : Nat) (blk : Block) : Except Fault State :=
  match diskaddr env b with
  | .error e => .error e
  | .ok addr =>
    match store_block env s addr blk with
    | .error e => .error e
    | .ok s1 => log_write env s1 addr

/-- The end-to-end scenario: mount the log, write block 5 with `A`, block 7
with `B`, block 5 with `C`, and commit. The result is the state just before
the commit and the state after it. -/
def end_to_end (env : Env) (s : State) (A B C : Block) : Except Fault (State × State) :=
  match log_init env s with
  | .error e => .error e
  | .ok s0 =>
    match fs_write env s0 5 A with
    | .error e => .error e
    | .ok s1 =>
      match fs_write env s1 7 B with
      | .error e => .error e
      | .ok s2 =>
        match fs_write env s2 5 C with
        | .error e => .error e
        | .ok s3 =>
          match log_commit env s3 with
          | .error e => .error e
          | .ok s4 => .ok (s3, s4)

/-- The example file system with a loaded free-space bitmap that marks block 20 free (and every
other block in use). -/
def freeEnv : Env :=
  { exampleEnv with bitmap := some (fun b => decide (b = 20)) }

/-- The empty example device with block 20 mapped, written (word 79 at every offset) and not
yet flushed, and block 21 mapped and clean. -/
def dirtyExample : State :=
  { emptyLog with
    cache := fun b =>
      if b = 20 then some { bytes := fun _ => 79, dirty := true, accessed := true }
      else if b = 21 then some { bytes := fun _ => 0, dirty := false, accessed := true }
      else none }

/-! ## `manage_eviction` of `fs/bc.c` -/

/-- The capacity `MEMBLKSZ` of the tracked-block array. -/
abbrev MEMBLKSZ : Nat := 50

/-- The test `curblock >= MEMBLKTHRESH`, with `MEMBLKTHRESH` the double `0.9 * MEMBLKSZ`
(that is 45.0): it holds from 45 tracked blocks on. -/
def over_threshold (curblock : Nat) : Bool := decide (10 * curblock ≥ 9 * MEMBLKSZ)

/-- The test `curblock > (MEMBLKTHRESH / 2)`, a comparison with the double 22.5: it holds from
23 tracked blocks on. -/
def over_half_threshold (curblock : Nat) : Bool := decide (20 * curblock > 9 * MEMBLKSZ)

/-- The value of a 32-bit pattern read as an `int`. -/
def int32 (n : Nat) : Int :=
  if n % U32 < 2147483648 then ((n % U32 : Nat) : Int) else ((n % U32 : Nat) : Int) - 4294967296

/-- The static locals of `manage_eviction`: `memblocks[0 .. curblock)` are the block numbers it
tracks. The array has `MEMBLKSZ` entries; every return of the function leaves `curblock` below
45, so the indices used stay inside it. -/
structure Tracked where
  memblocks : Nat → Nat
  curblock : Nat

/-- How a run of `manage_eviction` (or of its inner `for` loop) ends: it returns (the loop is
left), it panics, or it is still going when the iteration budget of the model is used up. The
`while` loop of `manage_eviction` has no bound of its own. -/
inductive Ending where
  | returned
  | panicked (f : Fault)
  | running
  deriving DecidableEq, Repr

/-- The three assignments `t = m[j]; m[j] = m[i]; m[i] = t`. -/
def swap_entries (m : Nat → Nat) (j i : Nat) : Nat → Nat :=
  Function.update (Function.update m j (m i)) i (m j)

/-- The `for` loop of `manage_eviction`, from index `i`, one iteration per unit of `fuel`. A
dirty block is swapped towards the end of the array while `dirty_swap > i` (and the block
swapped in is skipped by the `i++` of `continue`); otherwise the loop is left by `break`. A clean
block is remapped with `sys_page_map(0, va, 0, va, PTE_SYSCALL)`, which clears its accessed
flag and fails on an unmapped page; if it had not been accessed it is unmapped and the last
tracked block takes its place (`i--` then `i++`: the same index is examined again).
`sys_page_unmap` of `kern/syscall.c` returns 0 for every page-aligned address of the calling
environment, so its panic is not reachable. -/
def evict_scan (env : Env) : Nat → Nat → Int → Tracked → State → Ending × Int × Tracked × State
  | 0, _, dirty_swap, t, s => (Ending.running, dirty_swap, t, s)
  | fuel + 1, i, dirty_swap, t, s =>
    if i < t.curblock ∧ over_half_threshold t.curblock = true then
      match diskaddr env (t.memblocks i) with
      | .error e => (Ending.panicked e, dirty_swap, t, s)
      | .ok va =>
        if va_is_dirty s va = true then
          if dirty_swap > (i : Int) then
            evict_scan env fuel (i + 1) (dirty_swap - 1)
              { memblocks := swap_entries t.memblocks dirty_swap.toNat i,
                curblock := t.curblock } s
          else (Ending.returned, dirty_swap, t, s)
        else if (s.cache (blockof va)).isSome = false ∨ env.r_page_map va < 0 then
          (Ending.panicked Fault.evict_page_map_failed, dirty_swap, t, s)
        else if va_is_accessed s va = true then
          evict_scan env fuel (i + 1) dirty_swap t (page_remap s (blockof va))
        else
          evict_scan env fuel i dirty_swap
            { memblocks := Function.update t.memblocks i (t.memblocks (t.curblock - 1)),
              curblock := t.curblock - 1 }
            (page_unmap (page_remap s (blockof va)) (blockof va))
    else (Ending.returned, dirty_swap, t, s)

/-- The `while (curblock >= MEMBLKTHRESH)` loop of `manage_eviction`, at most `rounds` passes
of the `for` loop. A pass examines an index or drops a tracked block at every iteration, so
`curblock + 1` iterations are enough for it. `dirty_swap` is carried from pass to pass. -/
def evict_rounds (env : Env) : Nat → Int → Tracked → State → Ending × Tracked × State
  | 0, _, t, s =>
    if over_threshold t.curblock = true then (Ending.running, t, s) else (Ending.returned, t, s)
  | rounds + 1, dirty_swap, t, s =>
    if over_threshold t.curblock = true then
      match evict_scan env (t.curblock + 1) 0 dirty_swap t s with
      | (Ending.returned, ds, t1, s1) => evict_rounds env rounds ds t1 s1
      | (e, _, t1, s1) => (e, t1, s1)
    else (Ending.returned, t, s)

/-- Model of `manage_eviction(newblockno)`: the block is appended to the tracked blocks,
`dirty_swap` starts at the index of the new block, and blocks are evicted while 45 or more are
tracked. -/
def manage_eviction (env : Env) (rounds : Nat) (t : Tracked) (s : State) (newblockno : Nat) :
    Ending × Tracked × State :=
  evict_rounds env rounds (int32 (u32 (t.curblock + 1) + 4294967295))
    { memblocks := Function.update t.memblocks t.curblock newblockno,
      curblock := u32 (t.curblock + 1) } s

/-- What `manage_eviction` must leave alone: the device, its write history, and every slot
whose dirty flag is set. -/
def KeepsDirty (s s' : State) : Prop :=
  s'.disk = s.disk ∧ s'.ide_writes = s.ide_writes ∧
    ∀ c sl, s.cache c = some sl → sl.dirty = true → s'.cache c = some sl

/-- Forty-four tracked blocks: blocks 20, 21, ..., 63 in this order. -/
def trackedExample : Tracked :=
  { memblocks := fun i => 20 + i
    curblock := 44 }

/-- The empty example device with blocks 20 to 64 mapped: block 20 written and not flushed,
the others clean and not accessed since they were loaded. -/
def evictExample : State :=
  { emptyLog with
    cache := fun b =>
      if b = 20 then some { bytes := fun _ => 79, dirty := true, accessed := true }
      else if 21 ≤ b ∧ b ≤ 64 then some { bytes := fun _ => 0, dirty := false, accessed := false }
      else none }

/-- The empty example log on a device whose block 4 (the second payload slot of the log) still
holds old data: the word 5 at offset 0 and zeros elsewhere. Nothing is mapped. -/
def staleLog : State :=
  { emptyLog with disk := fun b w => if b = 4 ∧ w = 0 then 5 else 0 }

/-- The call returned and its result passes the test `p`. -/
def returns_with {α : Type} (x : Except Fault α) (p : α → Bool) : Bool :=
  match x with
  | .ok a => p a
  | .error _ => false

/-- The call panicked, at the panic site `f`. -/
def panics_with {α : Type} (x : Except Fault α) (f : Fault) : Bool :=
  match x with
  | .error e => decide (e = f)
  | .ok _ => false


/-- The empty example device with blocks 20 to 64 mapped: block 22 written and not flushed,
the others clean, and of these blocks 20 and 63 accessed since they were loaded. -/
def strayExample : State :=
  { emptyLog with
    cache := fun b =>
      if b = 22 then some { bytes := fun _ => 79, dirty := true, accessed := true }
      else if b = 20 ∨ b = 63 then some { bytes := fun _ => 0, dirty := false, accessed := true }
      else if 20 ≤ b ∧ b ≤ 64 then some { bytes := fun _ => 0, dirty := false, accessed := false }
      else none }


/-- An uncommitted transaction of two blocks on the zeroed example device, as two calls of
`log_write` leave it: the header page (block 2) is mapped and dirty and records the blocks 20
and 21; the payload slots (blocks 3 and 4) are mapped and dirty and hold copies of the two
blocks, which are mapped and dirty themselves (the word 7, respectively 8, at every offset). -/
def stagedLog : State :=
  { emptyLog with
    cache := fun b =>
      if b = 2 then
        some { bytes := fun w => if w = 0 then 2 else if w = 1 then 20 else if w = 2 then 21 else 0,
               dirty := true, accessed := true }
      else if b = 3 ∨ b = 20 then some { bytes := fun _ => 7, dirty := true, accessed := true }
      else if b = 4 ∨ b = 21 then some { bytes := fun _ => 8, dirty := true, accessed := true }
      else none }


/-- A super block whose log has 2000 payload slots, more than the `BLKSIZE / 4 - 1` block
numbers that fit in the header block after the count. -/
def bigSuper : Super := { s_nblocks := 4096, s_logstart := 2, s_lognblocks := 2000 }

/-- The example environment mounted on `bigSuper`. -/
def bigEnv : Env := { exampleEnv with super := some bigSuper }

/-- A device whose log, on `bigSuper`, records the 1024 blocks 100, 101, ..., 1123: the header
block (block 2) holds the count and `blocknos[0 .. 1023)`; `blocknos[1023]` is the first word
of block 3, which is also the first payload slot. Block 100 holds the word 105 at offset 0.
Nothing is mapped. -/
def bigLog : State :=
  { disk := fun b w =>
      if b = 2 then (if w = 0 then 1024 else 99 + w)
      else if b = 3 then (if w = 0 then 1123 else 0)
      else if b = 100 then (if w = 0 then 105 else 0)
      else 0
    ide_writes := []
    cache := fun _ => none
    log_header := log_header_at (DISKMAP + 2 * BLKSIZE) }


/-- Every block that is mapped in `s` is mapped in `s'`: nothing was unmapped in between. -/
def StaysMapped (s s' : State) : Prop :=
  ∀ c, (s.cache c).isSome = true → (s'.cache c).isSome = true

end JosFs

/-!
# Page and IPC system calls of the JOS kernel

Shallow embedding of `sys_page_alloc`, `sys_page_map`, `sys_page_unmap` and
`sys_ipc_try_send` of `kern/syscall.c`, with the two argument checks
`ALIGNED_USER_ADDR` and `VALID_USER_PERM` they share, and of `duppage` of `lib/fork.c`,
which calls them.

* An environment is the record of the `struct Env` fields these calls read or write; its page
  directory is a map from virtual page numbers to optional page-table entries.
* The kernel state is the `envs` array and the index of `curenv`.
* `envid2env` of `kern/env.c` and `page_alloc`, `page_insert`, `page_lookup`, `page_remove` of
  `kern/pmap.c` are parameters of the model (`Pmap`).
* A system call returns its `int` result together with the kernel state it leaves.
-/

namespace JosKern

/-! ## Constants of `inc/mmu.h`, `inc/memlayout.h`, `inc/error.h` -/

/-- Page size, `PGSIZE` of `inc/mmu.h`. -/
abbrev PGSIZE : Nat := JosFs.PGSIZE

/-- Top of the user-accessible address space, `UTOP` of `inc/memlayout.h`. -/
abbrev UTOP : Nat := 0xeec00000

/-- Present bit of a page-table entry. -/
abbrev PTE_P : Nat := 0x001

/-- Writeable bit of a page-table entry. -/
abbrev PTE_W : Nat := 0x002

/-- User bit of a page-table entry. -/
abbrev PTE_U : Nat := 0x004

/-- The bits of a page-table entry left to software. -/
abbrev PTE_AVAIL : Nat := 0xE00

/-- The bits a system call may set: `PTE_AVAIL | PTE_P | PTE_W | PTE_U`. -/
abbrev PTE_SYSCALL : Nat := PTE_AVAIL ||| PTE_P ||| PTE_W ||| PTE_U

/-- Error code `E_BAD_ENV`. -/
abbrev E_BAD_ENV : Int := 2

/-- Error code `E_INVAL`. -/
abbrev E_INVAL : Int := 3

/-- Error code `E_NO_MEM`. -/
abbrev E_NO_MEM : Int := 4

/-- Error code `E_IPC_NOT_RECV`. -/
abbrev E_IPC_NOT_RECV : Int := 7

/-- The operator `~` on a 32-bit pattern. -/
def not32 (x : Nat) : Nat := 4294967295 ^^^ x

/-- The macro `ALIGNED_USER_ADDR(va)`:
`((uintptr_t)va % PGSIZE == 0 || (uintptr_t)va < UTOP)`. -/
def ALIGNED_USER_ADDR (va : Nat) : Bool :=
  decide (va % PGSIZE = 0) || decide (va < UTOP)

/-- The macro `VALID_USER_PERM(perm)`:
`(!(perm & ~PTE_SYSCALL) && ((perm & PTE_U) || (perm & PTE_P)))`. -/
def VALID_USER_PERM (perm : Nat) : Bool :=
  decide (perm &&& not32 PTE_SYSCALL = 0) &&
    (decide (perm &&& PTE_U ≠ 0) || decide (perm &&& PTE_P ≠ 0))

/-! ## Data model -/

/-- The values of `env_status` (`inc/env.h`). -/
inductive EnvStatus where
  | ENV_FREE
  | ENV_DYING
  | ENV_RUNNABLE
  | ENV_RUNNING
  | ENV_NOT_RUNNABLE
  deriving DecidableEq, Repr

/-- A present page-table entry: the physical page and the permission bits. -/
structure Pte where
  page : Nat
  perm : Nat
  deriving DecidableEq, Repr

/-- A page directory with its page tables: virtual page number to entry. -/
abbrev Pgdir : Type := Nat → Option Pte

/-- The fields of `struct Env` that the page and IPC system calls use; `reg_eax` is
`env_tf.tf_regs.reg_eax`, the saved return-value register. -/
structure Env where
  env_id : Nat
  env_status : EnvStatus
  reg_eax : Nat
  env_pgdir : Pgdir
  env_ipc_recving : Bool
  env_ipc_dstva : Nat
  env_ipc_value : Nat
  env_ipc_from : Nat
  env_ipc_perm : Nat

/-- Kernel state: the array `envs` and the index in it of `curenv`. -/
structure Kernel where
  envs : Nat → Env
  curenv : Nat

/-- The functions of `kern/env.c` and `kern/pmap.c` that the system calls use.
`envid2env k envid checkperm` is the index of the environment found, or `none` where the C
function returns `-E_BAD_ENV`. `page_alloc` is the physical page obtained, or `none` for `NULL`.
`page_insert pgdir page va perm` is the page directory after the insertion, or `none` where the
C function returns `-E_NO_MEM` (nothing is inserted then). `page_lookup` is the entry mapping
`va`, or `none` for `NULL`. `page_remove` is the page directory after the removal. -/
structure Pmap where
  envid2env : Kernel → Nat → Bool → Option Nat
  page_alloc : Kernel → Option Nat
  page_insert : Pgdir → Nat → Nat → Nat → Option Pgdir
  page_lookup : Pgdir → Nat → Option Pte
  page_remove : Pgdir → Nat → Pgdir

/-- The kernel state with the page directory of environment `e` replaced. -/
def set_pgdir (k : Kernel) (e : Nat) (pgdir : Pgdir) : Kernel :=
  { k with envs := Function.update k.envs e { k.envs e with env_pgdir := pgdir } }

/-! ## `kern/syscall.c` -/

/-- Model of `sys_page_alloc(envid, va, perm)`. -/
def sys_page_alloc (pm : Pmap) (k : Kernel) (envid va perm : Nat) : Int × Kernel :=
  match pm.envid2env k envid true with
  | none => (-E_BAD_ENV, k)
  | some e =>
    if ALIGNED_USER_ADDR va = false then (-E_INVAL, k)
    else if VALID_USER_PERM perm = false then (-E_INVAL, k)
    else
      match pm.page_alloc k with
      | none => (-E_NO_MEM, k)
      | some page =>
        match pm.page_insert (k.envs e).env_pgdir page va perm with
        | none => (-E_NO_MEM, k)
        | some pgdir => (0, set_pgdir k e pgdir)

/-- Model of `sys_page_map(srcenvid, srcva, dstenvid, dstva, perm)`. -/
def sys_page_map (pm : Pmap) (k : Kernel) (srcenvid srcva dstenvid dstva perm : Nat) :
    Int × Kernel :=
  match pm.envid2env k srcenvid true with
  | none => (-E_BAD_ENV, k)
  | some srcenv =>
    match pm.envid2env k dstenvid true with
    | none => (-E_BAD_ENV, k)
    | some dstenv =>
      if ALIGNED_USER_ADDR srcva = false ∨ ALIGNED_USER_ADDR dstva = false then (-E_INVAL, k)
      else if VALID_USER_PERM perm = false then (-E_INVAL, k)
      else
        match pm.page_lookup (k.envs srcenv).env_pgdir srcva with
        | none => (-E_INVAL, k)
        | some pte =>
          if perm &&& PTE_W ≠ 0 ∧ pte.perm &&& PTE_W = 0 then (-E_INVAL, k)
          else
            match pm.page_insert (k.envs dstenv).env_pgdir pte.page dstva perm with
            | none => (-E_NO_MEM, k)
            | some pgdir => (0, set_pgdir k dstenv pgdir)

/-- Model of `sys_page_unmap(envid, va)`. -/
def sys_page_unmap (pm : Pmap) (k : Kernel) (envid va : Nat) : Int × Kernel :=
  match pm.envid2env k envid true with
  | none => (-E_BAD_ENV, k)
  | some e =>
    if ALIGNED_USER_ADDR va = false then (-E_INVAL, k)
    else (0, set_pgdir k e (pm.page_remove (k.envs e).env_pgdir va))

/-- The kernel state after the final assignments of `sys_ipc_try_send` to the receiving
environment `recv`: `env_ipc_perm`, `env_ipc_recving`, `env_ipc_value`, `env_ipc_from`, the
saved `eax` and `env_status`. -/
def ipc_deliver (k : Kernel) (recv value perm : Nat) : Kernel :=
  { k with envs := Function.update k.envs recv
              { k.envs recv with
                env_ipc_perm := perm,
                env_ipc_recving := false,
                env_ipc_value := value,
                env_ipc_from := (k.envs k.curenv).env_id,
                reg_eax := 0,
                env_status := EnvStatus.ENV_RUNNABLE } }

/-- Model of `sys_ipc_try_send(envid, value, srcva, perm)`. -/
def sys_ipc_try_send (pm : Pmap) (k : Kernel) (envid value srcva perm : Nat) : Int × Kernel :=
  match pm.envid2env k envid false with
  | none => (-E_BAD_ENV, k)
  | some recv =>
    if (k.envs recv).env_ipc_recving = false then (-E_IPC_NOT_RECV, k)
    else if srcva < UTOP ∧ (k.envs recv).env_ipc_dstva < UTOP then
      if ALIGNED_USER_ADDR srcva = false then (-E_INVAL, k)
      else if VALID_USER_PERM perm = false then (-E_INVAL, k)
      else
        match pm.page_lookup (k.envs k.curenv).env_pgdir srcva with
        | none => (-E_INVAL, k)
        | some pte =>
          if perm &&& PTE_W ≠ 0 ∧ pte.perm &&& PTE_W = 0 then (-E_INVAL, k)
          else
            match pm.page_insert (k.envs recv).env_pgdir pte.page
                (k.envs recv).env_ipc_dstva perm with
            | none => (-E_NO_MEM, k)
            | some pgdir => (0, ipc_deliver (set_pgdir k recv pgdir) recv value perm)
    else (0, ipc_deliver k recv value 0)

/-! ## An example kernel -/

/-- An instance of the functions of `kern/env.c` and `kern/pmap.c` with enough memory:
environment id 0 is the current environment, ids `0x1000 + i` name slot `i` for `i < 2`;
`page_alloc` hands out physical page 7; `page_insert` installs the entry with `PTE_P` added. -/
def examplePmap : Pmap :=
  { envid2env := fun k envid _ =>
      if envid = 0 then some k.curenv
      else if envid = 4096 then some 0
      else if envid = 4097 then some 1
      else none,
    page_alloc := fun _ => some 7,
    page_insert := fun pgdir page va perm =>
      some (Function.update pgdir (va / PGSIZE) (some { page := page, perm := perm ||| PTE_P })),
    page_lookup := fun pgdir va => pgdir (va / PGSIZE),
    page_remove := fun pgdir va => Function.update pgdir (va / PGSIZE) none }

/-- Two environments: slot 0 is running and has one writable page mapped at `0x800000`; slot 1
is blocked in `sys_ipc_recv`, willing to receive a page at `0xA00000`. -/
def exampleKernel : Kernel :=
  { envs := fun i =>
      { env_id := 4096 + i,
        env_status := if i = 1 then EnvStatus.ENV_NOT_RUNNABLE else EnvStatus.ENV_RUNNING,
        reg_eax := 99,
        env_pgdir := fun pn =>
          if i = 0 ∧ pn = 2048 then some { page := 3, perm := PTE_P ||| PTE_U ||| PTE_W }
          else none,
        env_ipc_recving := decide (i = 1),
        env_ipc_dstva := 10485760,
        env_ipc_value := 0,
        env_ipc_from := 0,
        env_ipc_perm := 0 },
    curenv := 0 }

/-! ## `lib/fork.c` -/

/-- Copy-on-write mark of a page-table entry, `PTE_COW` of `lib/fork.c`, one of the `PTE_AVAIL`
bits. -/
abbrev PTE_COW : Nat := 0x800

/-- Top of the user exception stack, `UXSTACKTOP` of `inc/memlayout.h` (it is `UTOP`). -/
abbrev UXSTACKTOP : Nat := UTOP

/-- Start of the read-only window on the current page table, `UVPT` of `inc/memlayout.h`. -/
abbrev UVPT : Nat := 0xef400000

/-- Bytes mapped by one page-directory entry, `PTSIZE` of `inc/mmu.h`: the size of the `UVPT`
window, which ends at `ULIM`. -/
abbrev PTSIZE : Nat := 4194304

/-- The flag bits of the entry `uvpt[pn]` of the current environment's page table. `duppage`
masks the word it reads with `PTE_W`, `PTE_COW` and `PTE_SYSCALL`, so the address bits of the
entry play no part. An entry that is not present reads as 0 here, which is what the hardware
gives when the page table holding it exists; a page directory of this model does not tell
which page tables exist, and the theorems about `duppage` speak of present entries only. -/
def uvpt (k : Kernel) (pn : Nat) : Nat :=
  match (k.envs k.curenv).env_pgdir pn with
  | some pte => pte.perm
  | none => 0

/-- The read `*pte` of `duppage`, with `pte = (pte_t *) (UVPT | (pn * 4))` and the product
taken in 32 bits. Inside the `UVPT` window the word read is the entry
`uvpt[(pte - UVPT) / 4]`; an address at or above `UVPT + PTSIZE` is kernel memory, the read
faults and `duppage` does not go on (`none`). -/
def read_pte (k : Kernel) (pn : Nat) : Option Nat :=
  if UVPT ||| ((pn * 4) % 4294967296) < UVPT + PTSIZE then
    some (uvpt k (((UVPT ||| ((pn * 4) % 4294967296)) - UVPT) / 4))
  else none

/-- The permission `duppage` computes from the entry word `w` of a writable or copy-on-write
page: `perm = w & PTE_SYSCALL; perm &= ~PTE_W; perm |= PTE_COW`. -/
def cow_perm (w : Nat) : Nat := ((w &&& PTE_SYSCALL) &&& not32 PTE_W) ||| PTE_COW

/-- Model of `duppage(envid, pn)`, run by the current environment (the parent); the system
calls of the user library enter the kernel functions of the same name. `page_va` is the
32-bit product `pn * PGSIZE`. The result is `none` when the read of `*pte` faults. -/
def duppage (pm : Pmap) (k : Kernel) (envid pn : Nat) : Option (Int × Kernel) :=
  let page_va := (pn * PGSIZE) % 4294967296
  if page_va = UXSTACKTOP - PGSIZE then
    some (sys_page_alloc pm k envid (UXSTACKTOP - PGSIZE) (PTE_W ||| PTE_U))
  else
    match read_pte k pn with
    | none => none
    | some w =>
      if w &&& PTE_W ≠ 0 ∨ w &&& PTE_COW ≠ 0 then
        match sys_page_map pm k 0 page_va envid page_va (cow_perm w) with
        | (r, k1) =>
          if r < 0 then some (r, k1)
          else
            match sys_page_map pm k1 0 page_va 0 page_va (cow_perm w) with
            | (r2, k2) => if r2 < 0 then some (r2, k2) else some (0, k2)
      else
        match sys_page_map pm k 0 page_va envid page_va (w &&& PTE_SYSCALL) with
        | (r, k1) => if r < 0 then some (r, k1) else some (0, k1)

/-- The page-table functions behave as the comments of `kern/syscall.c` describe them, on page
directories seen as maps from page numbers to entries: `page_lookup` finds the entry of the
page containing `va`, and `page_insert`, when it does not fail for lack of memory, installs
the page there with the permission bits given and `PTE_P`. -/
structure PagesAsMaps (pm : Pmap) : Prop where
  lookup : ∀ pgdir va, pm.page_lookup pgdir va = pgdir (va / PGSIZE)
  insert : ∀ pgdir page va perm pgdir1, pm.page_insert pgdir page va perm = some pgdir1 →
    pgdir1 = Function.update pgdir (va / PGSIZE) (some { page := page, perm := perm ||| PTE_P })

/-- The example kernel with, in the running environment, a read-only page mapped at `0x801000`
and a copy-on-write page at `0x802000`, next to the writable page at `0x800000`. -/
def forkKernel : Kernel :=
  { envs := fun i =>
      { env_id := 4096 + i,
        env_status := if i = 1 then EnvStatus.ENV_NOT_RUNNABLE else EnvStatus.ENV_RUNNING,
        reg_eax := 0,
        env_pgdir := fun pn =>
          if i = 0 ∧ pn = 2048 then some { page := 3, perm := PTE_P ||| PTE_U ||| PTE_W }
          else if i = 0 ∧ pn = 2049 then some { page := 4, perm := PTE_P ||| PTE_U }
          else if i = 0 ∧ pn = 2050 then
            some { page := 5, perm := PTE_P ||| PTE_U ||| PTE_COW }
          else none,
        env_ipc_recving := false,
        env_ipc_dstva := 0,
        env_ipc_value := 0,
        env_ipc_from := 0,
        env_ipc_perm := 0 },
    curenv := 0 }

/-- As `examplePmap`, but short of memory for page tables: `page_insert` fails on a page
directory that already maps page 2048 (in `forkKernel`, that of the running environment). -/
def tightPmap : Pmap :=
  { examplePmap with
    page_insert := fun pgdir page va perm =>
      if (pgdir 2048).isSome = true then none
      else some (Function.update pgdir (va / PGSIZE)
        (some { page := page, perm := perm ||| PTE_P })) }

end JosKern


namespace JosFs

/-! ## Address arithmetic -/

theorem blocknum_of_inWindow {va : Nat} (h : InWindow va) : blocknum va = .ok (blockof va) := by
  obtain ⟨h1, h2⟩ := h
  have hc : ¬ (va < DISKMAP ∨ va > DISKMAP + DISKSIZE) := by
    simp only [DISKMAP, DISKSIZE] at *; omega
  simp [blocknum, blockof, hc]

theorem blocknum_ok_blockof {va b : Nat} (h : blocknum va = .ok b) : b = blockof va := by
  unfold blocknum at h
  split at h
  · cases h
  · cases h; rfl

theorem blockof_rounddown {va : Nat} (h : DISKMAP ≤ va) :
    blockof (ROUNDDOWN va BLKSIZE) = blockof va := by
  simp only [blockof, ROUNDDOWN, DISKMAP, BLKSIZE, PGSIZE] at *
  omega

theorem inWindow_rounddown {va : Nat} (h : InWindow va) : InWindow (ROUNDDOWN va BLKSIZE) := by
  simp only [InWindow, ROUNDDOWN, DISKMAP, DISKSIZE, BLKSIZE, PGSIZE] at *
  omega

theorem blockof_lt_of_inWindow {va : Nat} (h : InWindow va) : blockof va < 786432 := by
  simp only [InWindow, blockof, DISKMAP, DISKSIZE, BLKSIZE, PGSIZE] at *
  omega

theorem sector_block {b : Nat} (h : b < 786432) : u32 (b * BLKSECTS) / BLKSECTS = b := by
  simp only [u32, U32, BLKSECTS]
  omega

/-! ## The primitives, read backwards: what a successful call did -/

theorem same_refl (s : State) : Same s s := ⟨rfl, rfl, rfl, rfl, rfl⟩

theorem same_trans {s1 s2 s3 : State} (h12 : Same s1 s2) (h23 : Same s2 s3) : Same s1 s3 :=
  ⟨h23.hdisk.trans h12.hdisk, h23.hwrites.trans h12.hwrites, h23.hmem.trans h12.hmem,
    h23.hdirty.trans h12.hdirty, h23.hlog.trans h12.hlog⟩

theorem va_is_mapped_iff (s : State) (va : Nat) :
    va_is_mapped s va = true ↔ InWindow va ∧ (s.cache (blockof va)).isSome = true := by
  simp [va_is_mapped, InWindow, and_assoc]

/-! ### State updates at a generic block number -/

theorem mem_update_cache (s : State) (b : Nat) (sl : Slot) :
    mem { s with cache := Function.update s.cache b (some sl) }
      = Function.update (mem s) b sl.bytes := by
  funext c
  by_cases hc : c = b
  · subst hc; simp [mem]
  · simp [mem, Function.update_noteq hc]

theorem dirty_update_cache (s : State) (b : Nat) (sl : Slot) :
    dirtyMapped { s with cache := Function.update s.cache b (some sl) }
      = Function.update (dirtyMapped s) b sl.dirty := by
  funext c
  by_cases hc : c = b
  · subst hc; simp [dirtyMapped]
  · simp [dirtyMapped, Function.update_noteq hc]

theorem mem_of_none {s : State} {b : Nat} (h : s.cache b = none) : mem s b = s.disk b := by
  simp [mem, h]

theorem dirty_of_none {s : State} {b : Nat} (h : s.cache b = none) : dirtyMapped s b = false := by
  simp [dirtyMapped, h]

theorem same_faultin (s : State) (b : Nat) (h : s.cache b = none) :
    Same s { s with cache := Function.update s.cache b
                      (some { bytes := s.disk b, dirty := false, accessed := false }) } := by
  refine ⟨rfl, rfl, ?_, ?_, rfl⟩
  · rw [mem_update_cache, ← mem_of_none h, Function.update_eq_self]
  · rw [dirty_update_cache, ← dirty_of_none h, Function.update_eq_self]

theorem isSome_faultin (s : State) (b : Nat) (sl : Slot) :
    (({ s with cache := Function.update s.cache b (some sl) } : State).cache b).isSome = true := by
  simp

theorem same_mark_accessed (s : State) (b : Nat) : Same s (mark_accessed s b) := by
  unfold mark_accessed
  cases h : s.cache b with
  | none => exact ⟨rfl, rfl, rfl, rfl, rfl⟩
  | some sl =>
    refine ⟨rfl, rfl, ?_, ?_, rfl⟩
    · rw [mem_update_cache]
      have : mem s b = sl.bytes := by simp [mem, h]
      rw [← this, Function.update_eq_self]
    · rw [dirty_update_cache]
      have : dirtyMapped s b = sl.dirty := by simp [dirtyMapped, h]
      rw [← this, Function.update_eq_self]

theorem isSome_mark_accessed (s : State) (b c : Nat) (h : (s.cache c).isSome = true) :
    ((mark_accessed s b).cache c).isSome = true := by
  unfold mark_accessed
  cases hb : s.cache b with
  | none => simpa using h
  | some sl =>
    by_cases hc : c = b
    · subst hc; simp
    · simpa [Function.update_noteq hc] using h

theorem write_page_disk (s : State) (b : Nat) (blk : Block) :
    (write_page s b blk).disk = s.disk := by
  unfold write_page; rfl

theorem write_page_writes (s : State) (b : Nat) (blk : Block) :
    (write_page s b blk).ide_writes = s.ide_writes := by
  unfold write_page; rfl

theorem write_page_log (s : State) (b : Nat) (blk : Block) :
    (write_page s b blk).log_header = s.log_header := by
  unfold write_page; rfl

theorem write_page_mem (s : State) (b : Nat) (blk : Block) :
    mem (write_page s b blk) = Function.update (mem s) b blk := by
  unfold write_page; rw [mem_update_cache]

theorem write_page_dirty (s : State) (b : Nat) (blk : Block) :
    dirtyMapped (write_page s b blk) = Function.update (dirtyMapped s) b true := by
  unfold write_page; rw [dirty_update_cache]

theorem write_page_isSome (s : State) (b : Nat) (blk : Block) :
    ((write_page s b blk).cache b).isSome = true := by
  unfold write_page; simp

/-- What `flush_block` does to a mapped dirty page, at a generic sector and block. -/
theorem flush_effect (s : State) (sec b : Nat) (hsec : sec / BLKSECTS = b)
    (hm : (s.cache b).isSome = true) :
    (page_remap (ide_write s sec (mem s b)) b).disk = Function.update s.disk b (mem s b) ∧
    (page_remap (ide_write s sec (mem s b)) b).ide_writes = s.ide_writes ++ [(b, mem s b)] ∧
    mem (page_remap (ide_write s sec (mem s b)) b) = mem s ∧
    dirtyMapped (page_remap (ide_write s sec (mem s b)) b)
      = Function.update (dirtyMapped s) b false ∧
    (page_remap (ide_write s sec (mem s b)) b).log_header = s.log_header ∧
    ((page_remap (ide_write s sec (mem s b)) b).cache b).isSome = true := by
  subst hsec
  cases hc : s.cache (sec / BLKSECTS) with
  | none => simp [hc] at hm
  | some sl =>
    have hmem : mem s (sec / BLKSECTS) = sl.bytes := by simp [mem, hc]
    refine ⟨?_, ?_, ?_, ?_, ?_, ?_⟩
    · simp [page_remap, ide_write, hc]
    · simp [page_remap, ide_write, hc]
    · funext c
      by_cases hcb : c = sec / BLKSECTS
      · subst hcb; simp [page_remap, ide_write, hc, mem]
      · simp [page_remap, ide_write, hc, mem, Function.update_noteq hcb]
    · funext c
      by_cases hcb : c = sec / BLKSECTS
      · subst hcb; simp [page_remap, ide_write, hc, dirtyMapped]
      · simp [page_remap, ide_write, hc, dirtyMapped, Function.update_noteq hcb]
    · simp [page_remap, ide_write, hc]
    · simp [page_remap, ide_write, hc]

theorem dirtyMapped_eq (s : State) (b : Nat) :
    dirtyMapped s b = ((s.cache b).isSome && (match s.cache b with
      | some sl => sl.dirty
      | none => false)) := by
  unfold dirtyMapped
  cases s.cache b <;> simp

/-! ### The primitives -/

theorem bc_pgfault_inv {env : Env} {s s' : State} {va : Nat}
    (h : bc_pgfault env s va = .ok s') :
    InWindow va ∧ Loadable env (blockof va) ∧
      s' = { s with cache := Function.update s.cache (blockof va)
                      (some { bytes := s.disk (blockof va), dirty := false, accessed := false }) } := by
  unfold bc_pgfault at h
  split at h
  · cases h
  · rename_i blockno hb
    have hbn := blocknum_ok_blockof hb
    subst hbn
    split at h
    · cases h
    · rename_i hw
      have hwin : InWindow va := by
        simp only [InWindow, DISKMAP, DISKSIZE] at *; omega
      split at h
      · cases h
      · split at h
        · cases h
        · split at h
          · cases h
          · split at h
            · cases h
            · split at h
              · cases h
              · rename_i hbs _ _ _ hfree
                refine ⟨hwin, ⟨by simpa using hbs, by simpa using hfree⟩, ?_⟩
                cases h
                have h1 : blockof (ROUNDDOWN va PGSIZE) = blockof va := blockof_rounddown hwin.1
                have h2 : ide_read s (u32 (blockof va * BLKSECTS)) = s.disk (blockof va) := by
                  unfold ide_read
                  rw [sector_block (blockof_lt_of_inWindow hwin)]
                rw [h1, h2]

theorem touch_inv {env : Env} {s s' : State} {va : Nat} (h : touch env s va = .ok s') :
    InWindow va ∧ Same s s' ∧ (s'.cache (blockof va)).isSome = true := by
  unfold touch at h
  split at h
  · rename_i hm
    cases h
    rw [va_is_mapped_iff] at hm
    exact ⟨hm.1, same_refl _, hm.2⟩
  · rename_i hm
    obtain ⟨hwin, _, hs⟩ := bc_pgfault_inv h
    have hnone : s.cache (blockof va) = none := by
      rw [va_is_mapped_iff] at hm
      cases hc : s.cache (blockof va) with
      | none => rfl
      | some sl => exact absurd ⟨hwin, by rw [hc]; rfl⟩ hm
    rw [hs]
    exact ⟨hwin, same_faultin s (blockof va) hnone, isSome_faultin s (blockof va) _⟩

theorem load32_inv {env : Env} {s s' : State} {va v : Nat}
    (h : load32 env s va = .ok (v, s')) :
    InWindow va ∧ Same s s' ∧ v = u32 (mem s (blockof va) (wordof va)) := by
  unfold load32 at h
  split at h
  · cases h
  · rename_i s1 ht
    obtain ⟨hwin, hs1, _⟩ := touch_inv ht
    cases h
    exact ⟨hwin, same_trans hs1 (same_mark_accessed s1 (blockof va)), by rw [hs1.hmem]⟩

theorem store32_inv {env : Env} {s s' : State} {va v : Nat}
    (h : store32 env s va v = .ok s') :
    InWindow va ∧ s'.disk = s.disk ∧ s'.ide_writes = s.ide_writes ∧
      s'.log_header = s.log_header ∧
      mem s' = Function.update (mem s) (blockof va)
                (Function.update (mem s (blockof va)) (wordof va) (u32 v)) ∧
      dirtyMapped s' = Function.update (dirtyMapped s) (blockof va) true := by
  unfold store32 at h
  split at h
  · cases h
  · rename_i s1 ht
    obtain ⟨hwin, hs1, _⟩ := touch_inv ht
    cases h
    refine ⟨hwin, ?_, ?_, ?_, ?_, ?_⟩
    · rw [write_page_disk, hs1.hdisk]
    · rw [write_page_writes, hs1.hwrites]
    · rw [write_page_log, hs1.hlog]
    · rw [write_page_mem, hs1.hmem]
    · rw [write_page_dirty, hs1.hdirty]

theorem store_block_inv {env : Env} {s s' : State} {va : Nat} {blk : Block}
    (h : store_block env s va blk = .ok s') :
    InWindow va ∧ s'.disk = s.disk ∧ s'.ide_writes = s.ide_writes ∧
      s'.log_header = s.log_header ∧
      mem s' = Function.update (mem s) (blockof va) blk ∧
      dirtyMapped s' = Function.update (dirtyMapped s) (blockof va) true ∧
      (s'.cache (blockof va)).isSome = true := by
  unfold store_block at h
  split at h
  · cases h
  · rename_i s1 ht
    obtain ⟨hwin, hs1, _⟩ := touch_inv ht
    cases h
    refine ⟨hwin, ?_, ?_, ?_, ?_, ?_, write_page_isSome _ _ _⟩
    · rw [write_page_disk, hs1.hdisk]
    · rw [write_page_writes, hs1.hwrites]
    · rw [write_page_log, hs1.hlog]
    · rw [write_page_mem, hs1.hmem]
    · rw [write_page_dirty, hs1.hdirty]

theorem memcpy_block_inv {env : Env} {s s' : State} {dst src : Nat}
    (h : memcpy_block env s dst src = .ok s') :
    InWindow dst ∧ InWindow src ∧ s'.disk = s.disk ∧ s'.ide_writes = s.ide_writes ∧
      s'.log_header = s.log_header ∧
      mem s' = Function.update (mem s) (blockof dst) (mem s (blockof src)) ∧
      dirtyMapped s' = Function.update (dirtyMapped s) (blockof dst) true := by
  unfold memcpy_block at h
  split at h
  · cases h
  · rename_i s1 ht1
    obtain ⟨hwin1, hs1, _⟩ := touch_inv ht1
    split at h
    · cases h
    · rename_i s2 ht2
      obtain ⟨hwin2, hs2, _⟩ := touch_inv ht2
      have h12 : Same s s2 := same_trans (same_trans hs1 (same_mark_accessed s1 (blockof src))) hs2
      cases h
      refine ⟨hwin2, hwin1, ?_, ?_, ?_, ?_, ?_⟩
      · rw [write_page_disk, h12.hdisk]
      · rw [write_page_writes, h12.hwrites]
      · rw [write_page_log, h12.hlog]
      · rw [write_page_mem, h12.hmem]
      · rw [write_page_dirty, h12.hdirty]

theorem flush_block_inv {env : Env} {s s' : State} {addr : Nat}
    (h : flush_block env s addr = .ok s') :
    InWindow addr ∧ mem s' = mem s ∧ s'.log_header = s.log_header ∧
      dirtyMapped s' = Function.update (dirtyMapped s) (blockof addr) false ∧
      s'.disk = (if dirtyMapped s (blockof addr) = true
                  then Function.update s.disk (blockof addr) (mem s (blockof addr))
                  else s.disk) ∧
      s'.ide_writes = (if dirtyMapped s (blockof addr) = true
                  then s.ide_writes ++ [(blockof addr, mem s (blockof addr))]
                  else s.ide_writes) := by
  unfold flush_block at h
  split at h
  · cases h
  · rename_i blockno hb
    have hbn := blocknum_ok_blockof hb
    subst hbn
    split at h
    · cases h
    · rename_i hw
      have hwin : InWindow addr := by
        simp only [InWindow, DISKMAP, DISKSIZE] at *; omega
      have hrd : blockof (ROUNDDOWN addr BLKSIZE) = blockof addr := blockof_rounddown hwin.1
      have hwr := inWindow_rounddown hwin
      rw [hrd] at h
      have hmd : (!va_is_mapped s (ROUNDDOWN addr BLKSIZE) || !va_is_dirty s (ROUNDDOWN addr BLKSIZE))
          = !dirtyMapped s (blockof addr) := by
        have h1 : va_is_mapped s (ROUNDDOWN addr BLKSIZE) = (s.cache (blockof addr)).isSome := by
          have := va_is_mapped_iff s (ROUNDDOWN addr BLKSIZE)
          rw [hrd] at this
          cases hv : va_is_mapped s (ROUNDDOWN addr BLKSIZE) with
          | true => exact (this.1 hv).2.symm
          | false =>
            cases hc : (s.cache (blockof addr)).isSome with
            | false => rfl
            | true => rw [this.2 ⟨hwr, hc⟩] at hv; cases hv
        have h2 : va_is_dirty s (ROUNDDOWN addr BLKSIZE) = (match s.cache (blockof addr) with
            | some sl => sl.dirty
            | none => false) := by
          unfold va_is_dirty; rw [hrd]
        rw [h1, h2, dirtyMapped_eq]
        cases (s.cache (blockof addr)).isSome <;> simp
      rw [hmd] at h
      split at h
      · rename_i hd
        cases h
        have hd' : dirtyMapped s (blockof addr) = false := by simpa using hd
        refine ⟨hwin, rfl, rfl, ?_, ?_, ?_⟩
        · rw [← hd', Function.update_eq_self]
        · rw [hd']; rfl
        · rw [hd']; rfl
      · rename_i hd
        have hd' : dirtyMapped s (blockof addr) = true := by simpa using hd
        have hsome : (s.cache (blockof addr)).isSome = true := by
          rw [dirtyMapped_eq] at hd'
          cases hc : (s.cache (blockof addr)).isSome with
          | true => rfl
          | false => rw [hc] at hd'; cases hd'
        split at h
        · cases h
        · split at h
          · cases h
          · cases h
            obtain ⟨e1, e2, e3, e4, e5, _⟩ := flush_effect s (u32 (blockof addr * BLKSECTS))
              (blockof addr) (sector_block (blockof_lt_of_inWindow hwin)) hsome
            refine ⟨hwin, e3, e5, e4, ?_, ?_⟩
            · rw [e1, hd']; rfl
            · rw [e2, hd']; rfl

/-! ### The primitives, read forwards: when a call succeeds -/

theorem touch_ok {env : Env} (s : State) {va : Nat} (hr : Reliable env) (hw : InWindow va)
    (hl : Loadable env (blockof va)) : ∃ s', touch env s va = .ok s' := by
  unfold touch
  split
  · exact ⟨s, rfl⟩
  · unfold bc_pgfault
    rw [blocknum_of_inWindow hw]
    have hc : ¬ (va < DISKMAP ∨ va ≥ DISKMAP + DISKSIZE) := by
      simp only [InWindow, DISKMAP, DISKSIZE] at *; omega
    have h1 := hr.page_alloc (ROUNDDOWN va PGSIZE)
    have h2 := hr.ide_read (u32 (blockof va * BLKSECTS))
    have h3 := hr.page_map (ROUNDDOWN va PGSIZE)
    simp only [hc, hl.1, hl.2, if_false, not_lt.mpr h1, not_lt.mpr h2, not_lt.mpr h3]
    exact ⟨_, rfl⟩

theorem load32_ok {env : Env} (s : State) {va : Nat} (hr : Reliable env) (hw : InWindow va)
    (hl : Loadable env (blockof va)) :
    ∃ s', load32 env s va = .ok (u32 (mem s (blockof va) (wordof va)), s') ∧ Same s s' := by
  obtain ⟨s1, h1⟩ := touch_ok s hr hw hl
  have h : load32 env s va =
      .ok (u32 (mem s1 (blockof va) (wordof va)), mark_accessed s1 (blockof va)) := by
    unfold load32; rw [h1]
  obtain ⟨_, hsame, hv⟩ := load32_inv h
  rw [hv] at h
  exact ⟨_, h, hsame⟩

theorem store32_ok {env : Env} (s : State) {va : Nat} (v : Nat) (hr : Reliable env)
    (hw : InWindow va) (hl : Loadable env (blockof va)) :
    ∃ s', store32 env s va v = .ok s' := by
  obtain ⟨s1, h1⟩ := touch_ok s hr hw hl
  exact ⟨_, by unfold store32; rw [h1]⟩

theorem store_block_ok {env : Env} (s : State) {va : Nat} (blk : Block) (hr : Reliable env)
    (hw : InWindow va) (hl : Loadable env (blockof va)) :
    ∃ s', store_block env s va blk = .ok s' := by
  obtain ⟨s1, h1⟩ := touch_ok s hr hw hl
  exact ⟨_, by unfold store_block; rw [h1]⟩

theorem memcpy_block_ok {env : Env} (s : State) {dst src : Nat} (hr : Reliable env)
    (hwd : InWindow dst) (hld : Loadable env (blockof dst))
    (hws : InWindow src) (hls : Loadable env (blockof src)) :
    ∃ s', memcpy_block env s dst src = .ok s' := by
  obtain ⟨s1, h1⟩ := touch_ok s hr hws hls
  obtain ⟨s2, h2⟩ := touch_ok (mark_accessed s1 (blockof src)) hr hwd hld
  exact ⟨_, by unfold memcpy_block; rw [h1]; simp only []; rw [h2]⟩

theorem flush_block_ok {env : Env} (s : State) {addr : Nat} (hr : Reliable env)
    (hw : InWindow addr) : ∃ s', flush_block env s addr = .ok s' := by
  unfold flush_block
  rw [blocknum_of_inWindow hw]
  have hc : ¬ (addr < DISKMAP ∨ addr ≥ DISKMAP + DISKSIZE) := by
    simp only [InWindow, DISKMAP, DISKSIZE] at *; omega
  have h1 := hr.ide_write (u32 (blockof addr * BLKSECTS))
  have h2 := hr.page_map (ROUNDDOWN addr BLKSIZE)
  simp only [hc, if_false, not_lt.mpr h1, not_lt.mpr h2]
  split
  · exact ⟨_, rfl⟩
  · exact ⟨_, rfl⟩

/-! ## Addresses of the log region -/

theorem addr_block (b : Nat) (h : b < 786432) :
    InWindow (u32 (DISKMAP + b * BLKSIZE)) ∧ blockof (u32 (DISKMAP + b * BLKSIZE)) = b ∧
      u32 (DISKMAP + b * BLKSIZE) = DISKMAP + b * BLKSIZE ∧
      ROUNDDOWN (DISKMAP + b * BLKSIZE) BLKSIZE = DISKMAP + b * BLKSIZE := by
  simp only [InWindow, blockof, ROUNDDOWN, u32, U32, DISKMAP, DISKSIZE, BLKSIZE, PGSIZE]
  omega

theorem addr_pnblocks (L : Nat) (h : L < 786432) :
    InWindow (log_header_at (DISKMAP + L * BLKSIZE)).pnblocks ∧
      blockof (log_header_at (DISKMAP + L * BLKSIZE)).pnblocks = L ∧
      wordof (log_header_at (DISKMAP + L * BLKSIZE)).pnblocks = 0 := by
  simp only [log_header_at, InWindow, blockof, wordof, u32, U32, DISKMAP, DISKSIZE, BLKSIZE, PGSIZE]
  omega

theorem addr_blocknos (L i : Nat) (h : L < 786432) (hi : i < 1023) :
    InWindow (u32 ((log_header_at (DISKMAP + L * BLKSIZE)).blocknos + 4 * i)) ∧
      blockof (u32 ((log_header_at (DISKMAP + L * BLKSIZE)).blocknos + 4 * i)) = L ∧
      wordof (u32 ((log_header_at (DISKMAP + L * BLKSIZE)).blocknos + 4 * i)) = i + 1 := by
  simp only [log_header_at, InWindow, blockof, wordof, u32, U32, DISKMAP, DISKSIZE, BLKSIZE, PGSIZE]
  omega

theorem addr_entry (L i : Nat) (h : L + 1 + i < 786432) :
    InWindow (u32 ((log_header_at (DISKMAP + L * BLKSIZE)).log_entries + i * BLKSIZE)) ∧
      blockof (u32 ((log_header_at (DISKMAP + L * BLKSIZE)).log_entries + i * BLKSIZE))
        = L + 1 + i := by
  simp only [log_header_at, InWindow, blockof, u32, U32, DISKMAP, DISKSIZE, BLKSIZE, PGSIZE]
  omega

theorem LogAt.bounds {env : Env} {sb : Super} {s : State} (h : LogAt env sb s) :
    sb.s_logstart + sb.s_lognblocks < 786432 ∧ sb.s_lognblocks < 1024 := by
  have h1 := h.fits
  have h2 := h.room
  simp only [DISKSIZE, BLKSIZE, PGSIZE] at h1 h2
  omega

theorem LogAt.of_same {env : Env} {sb : Super} {s s' : State} (h : LogAt env sb s)
    (hl : s'.log_header = s.log_header) : LogAt env sb s' :=
  ⟨h.super_eq, hl.trans h.hdr, h.fits, h.room⟩

theorem log_n_eq {env : Env} {sb : Super} {s : State} (h : LogAt env sb s) :
    log_n s = u32 (mem s sb.s_logstart 0) := by
  obtain ⟨_, h2, h3⟩ := addr_pnblocks sb.s_logstart (by have := h.bounds; omega)
  unfold log_n
  rw [h.hdr, h2, h3]

theorem log_blockno_eq {env : Env} {sb : Super} {s : State} (h : LogAt env sb s) {i : Nat}
    (hi : i < 1023) : log_blockno s i = u32 (mem s sb.s_logstart (i + 1)) := by
  obtain ⟨_, h2, h3⟩ := addr_blocknos sb.s_logstart i (by have := h.bounds; omega) hi
  unfold log_blockno
  rw [h.hdr, h2, h3]

theorem log_payload_eq {env : Env} {sb : Super} {s : State} (h : LogAt env sb s) {i : Nat}
    (hi : i < sb.s_lognblocks) : log_payload s i = mem s (sb.s_logstart + 1 + i) := by
  obtain ⟨_, h2⟩ := addr_entry sb.s_logstart i (by have := h.bounds; omega)
  unfold log_payload
  rw [h.hdr, h2]

theorem log_n_lt (s : State) : log_n s < U32 := by
  unfold log_n
  exact Nat.mod_lt _ (by decide)

theorem log_n_congr {s s' : State} (hl : s'.log_header = s.log_header)
    (hm : mem s' (blockof s.log_header.pnblocks) = mem s (blockof s.log_header.pnblocks)) :
    log_n s' = log_n s := by
  unfold log_n
  rw [hl, hm]

theorem log_blockno_congr {s s' : State} (i : Nat) (hl : s'.log_header = s.log_header)
    (hm : mem s' (blockof (u32 (s.log_header.blocknos + 4 * i)))
      = mem s (blockof (u32 (s.log_header.blocknos + 4 * i)))) :
    log_blockno s' i = log_blockno s i := by
  unfold log_blockno
  rw [hl, hm]

theorem Same.log_n {s s' : State} (h : Same s s') : log_n s' = log_n s :=
  log_n_congr h.hlog (by rw [h.hmem])

theorem Same.log_blockno {s s' : State} (h : Same s s') (i : Nat) :
    log_blockno s' i = log_blockno s i :=
  log_blockno_congr i h.hlog (by rw [h.hmem])

theorem Same.log_payload {s s' : State} (h : Same s s') (i : Nat) :
    log_payload s' i = log_payload s i := by
  unfold JosFs.log_payload
  rw [h.hlog, h.hmem]

theorem diskaddr_inv {env : Env} {b a : Nat} (h : diskaddr env b = .ok a) :
    0 < b ∧ beyond_super env b = false ∧ a = u32 (DISKMAP + b * BLKSIZE) := by
  unfold diskaddr at h
  split at h
  · cases h
  · rename_i hc
    cases h
    refine ⟨?_, ?_, rfl⟩
    · omega
    · cases hb : beyond_super env b with
      | false => rfl
      | true => exact absurd (Or.inr hb) hc

theorem diskaddr_ok {env : Env} {b : Nat} (h0 : 0 < b) (hb : beyond_super env b = false) :
    diskaddr env b = .ok (u32 (DISKMAP + b * BLKSIZE)) := by
  unfold diskaddr
  have : ¬ (b = 0 ∨ beyond_super env b = true) := by
    rw [hb]; simp; omega
  rw [if_neg this]

theorem beyond_super_eq {env : Env} {sb : Super} (h : env.super = some sb) (b : Nat) :
    beyond_super env b = decide (b ≥ sb.s_nblocks) := by
  unfold beyond_super; rw [h]

/-! ## `log_write` -/

theorem load_pnblocks_inv {env : Env} {s s1 : State} {n : Nat}
    (h : load32 env s s.log_header.pnblocks = .ok (n, s1)) : Same s s1 ∧ n = log_n s := by
  obtain ⟨_, hs, hv⟩ := load32_inv h
  exact ⟨hs, hv⟩

theorem load_blockno_inv {env : Env} {s s1 : State} {i v : Nat}
    (h : load32 env s (u32 (s.log_header.blocknos + 4 * i)) = .ok (v, s1)) :
    Same s s1 ∧ v = log_blockno s i := by
  obtain ⟨_, hs, hv⟩ := load32_inv h
  exact ⟨hs, hv⟩

theorem log_write_scan_inv {env : Env} {sb : Super} {b addr : Nat} :
    ∀ (fuel i : Nat) (s s' : State) (found : Bool), LogAt env sb s →
      log_n s ≤ sb.s_lognblocks →
      log_write_scan env b addr fuel i s = .ok (found, s') →
      (found = true → ∃ j, i ≤ j ∧ j < log_n s ∧ log_blockno s j = b ∧
          (∀ k, i ≤ k → k < j → log_blockno s k ≠ b) ∧ InWindow addr ∧
          s'.disk = s.disk ∧ s'.ide_writes = s.ide_writes ∧ s'.log_header = s.log_header ∧
          mem s' = Function.update (mem s) (sb.s_logstart + 1 + j) (mem s (blockof addr)) ∧
          dirtyMapped s' = Function.update (dirtyMapped s) (sb.s_logstart + 1 + j) true) ∧
      (found = false → (∀ k, i ≤ k → k < log_n s → log_blockno s k ≠ b) ∧ Same s s') := by
  intro fuel
  induction fuel with
  | zero =>
    intro i s s' found _ _ h
    unfold log_write_scan at h
    cases h
  | succ fuel ih =>
    intro i s s' found hL hn h
    unfold log_write_scan at h
    split at h
    · cases h
    · rename_i n s1 h1
      obtain ⟨hs1, hnv⟩ := load_pnblocks_inv h1
      subst hnv
      split at h
      · rename_i hlt
        split at h
        · cases h
        · rename_i bi s2 h2
          obtain ⟨hs2, hbi⟩ := load_blockno_inv h2
          rw [hs1.log_blockno] at hbi
          subst hbi
          have h12 := same_trans hs1 hs2
          split at h
          · rename_i hb
            split at h
            · cases h
            · rename_i s3 h3
              cases h
              obtain ⟨_, hwa, e1, e2, e3, e4, e5⟩ := memcpy_block_inv h3
              have hL2 : LogAt env sb s2 := hL.of_same h12.hlog
              have hblk := (addr_entry sb.s_logstart i (by have := hL.bounds; omega)).2
              rw [hL2.hdr, hblk] at e4 e5
              refine ⟨fun _ => ⟨i, le_refl _, hlt, hb.symm, ?_, hwa, ?_, ?_, ?_, ?_, ?_⟩,
                fun hf => by cases hf⟩
              · intro k hk1 hk2; omega
              · rw [e1, h12.hdisk]
              · rw [e2, h12.hwrites]
              · rw [e3, h12.hlog]
              · rw [e4, h12.hmem]
              · rw [e5, h12.hdirty]
          · rename_i hb
            have hL2 : LogAt env sb s2 := hL.of_same h12.hlog
            have hn2 : log_n s2 ≤ sb.s_lognblocks := by rw [h12.log_n]; exact hn
            obtain ⟨ih1, ih2⟩ := ih (i + 1) s2 s' found hL2 hn2 h
            constructor
            · intro hf
              obtain ⟨j, hj1, hj2, hj3, hj4, hw, e1, e2, e3, e4, e5⟩ := ih1 hf
              rw [h12.log_n] at hj2
              rw [h12.log_blockno] at hj3
              refine ⟨j, by omega, hj2, hj3, ?_, hw, ?_, ?_, ?_, ?_, ?_⟩
              · intro k hk1 hk2
                by_cases hki : k = i
                · subst hki; exact fun hc => hb hc.symm
                · have := hj4 k (by omega) hk2
                  rwa [h12.log_blockno] at this
              · rw [e1, h12.hdisk]
              · rw [e2, h12.hwrites]
              · rw [e3, h12.hlog]
              · rw [e4, h12.hmem]
              · rw [e5, h12.hdirty]
            · intro hf
              obtain ⟨hk, hsame⟩ := ih2 hf
              refine ⟨?_, same_trans h12 hsame⟩
              intro k hk1 hk2
              by_cases hki : k = i
              · subst hki; exact fun hc => hb hc.symm
              · have := hk k (by omega) (by rw [h12.log_n]; exact hk2)
                rwa [h12.log_blockno] at this
      · rename_i hlt
        cases h
        exact ⟨(fun hf => by cases hf), fun _ => ⟨(fun k hk1 hk2 => by omega), hs1⟩⟩

theorem deref_super_eq {env : Env} {sb : Super} (h : env.super = some sb) :
    deref_super env = .ok sb := by
  unfold deref_super; rw [h]

theorem log_write_append_inv {env : Env} {sb : Super} {b addr : Nat} {s s' : State}
    (hL : LogAt env sb s) (hb : b < 786432)
    (h : log_write_append env b addr s = .ok s') :
    log_n s < sb.s_lognblocks ∧ InWindow addr ∧
      s'.disk = s.disk ∧ s'.ide_writes = s.ide_writes ∧ s'.log_header = s.log_header ∧
      mem s' sb.s_logstart
        = Function.update (Function.update (mem s sb.s_logstart) (log_n s + 1) b) 0 (log_n s + 1) ∧
      mem s' (sb.s_logstart + 1 + log_n s)
        = (if blockof addr = sb.s_logstart
            then Function.update (mem s sb.s_logstart) (log_n s + 1) b
            else mem s (blockof addr)) ∧
      (∀ c, c ≠ sb.s_logstart → c ≠ sb.s_logstart + 1 + log_n s → mem s' c = mem s c) ∧
      (∀ c, dirtyMapped s' c
        = (decide (c = sb.s_logstart) || decide (c = sb.s_logstart + 1 + log_n s)
            || dirtyMapped s c)) := by
  have hlt := hL.bounds
  unfold log_write_append at h
  split at h
  · cases h
  · rename_i n s1 h1
    obtain ⟨hs1, hnv⟩ := load_pnblocks_inv h1
    subst hnv
    rw [deref_super_eq hL.super_eq] at h
    simp only [] at h
    split at h
    · cases h
    · rename_i hcap
      have hcap' : log_n s < sb.s_lognblocks := by omega
      split at h
      · cases h
      · rename_i n1 s2 h2
        obtain ⟨hs2, hn1⟩ := load_pnblocks_inv h2
        rw [hs1.log_n] at hn1
        subst hn1
        have h02 := same_trans hs1 hs2
        have hL2 : LogAt env sb s2 := hL.of_same h02.hlog
        split at h
        · cases h
        · rename_i s3 h3
          obtain ⟨_, d3, w3, l3, m3, q3⟩ := store32_inv h3
          obtain ⟨_, ab, aw⟩ := addr_blocknos sb.s_logstart (log_n s) (by omega) (by omega)
          rw [hL2.hdr, ab, aw, h02.hmem] at m3
          rw [hL2.hdr, ab, h02.hdirty] at q3
          have hub : u32 b = b := Nat.mod_eq_of_lt (by show b < 4294967296; omega)
          rw [hub] at m3
          have hL3 : LogAt env sb s3 := hL2.of_same l3
          have hn3 : log_n s3 = log_n s := by
            rw [log_n_eq hL3, log_n_eq hL, m3, Function.update_same,
              Function.update_noteq (by omega)]
          split at h
          · cases h
          · rename_i n2 s4 h4
            obtain ⟨hs4, hn2⟩ := load_pnblocks_inv h4
            rw [hn3] at hn2
            subst hn2
            have hL4 : LogAt env sb s4 := hL3.of_same hs4.hlog
            split at h
            · cases h
            · rename_i s5 h5
              obtain ⟨_, hwa, d5, w5, l5, m5, q5⟩ := memcpy_block_inv h5
              obtain ⟨_, eb⟩ := addr_entry sb.s_logstart (log_n s) (by omega)
              rw [hL4.hdr, eb, hs4.hmem] at m5
              rw [hL4.hdr, eb, hs4.hdirty] at q5
              have hL5 : LogAt env sb s5 := hL4.of_same l5
              have hn5 : log_n s5 = log_n s := by
                rw [log_n_eq hL5, m5, Function.update_noteq (by omega), ← log_n_eq hL3, hn3]
              split at h
              · cases h
              · rename_i n3 s6 h6
                obtain ⟨hs6, hn6⟩ := load_pnblocks_inv h6
                rw [hn5] at hn6
                subst hn6
                have hL6 : LogAt env sb s6 := hL5.of_same hs6.hlog
                obtain ⟨_, d7, w7, l7, m7, q7⟩ := store32_inv h
                obtain ⟨_, pb, pw⟩ := addr_pnblocks sb.s_logstart (by omega)
                rw [hL6.hdr, pb, pw, hs6.hmem] at m7
                rw [hL6.hdr, pb, hs6.hdirty] at q7
                have hu1 : u32 (log_n s + 1) = log_n s + 1 :=
                  Nat.mod_eq_of_lt (by show log_n s + 1 < 4294967296; omega)
                rw [hu1] at m7
                refine ⟨hcap', hwa, ?_, ?_, ?_, ?_, ?_, ?_, ?_⟩
                · rw [d7, hs6.hdisk, d5, hs4.hdisk, d3, h02.hdisk]
                · rw [w7, hs6.hwrites, w5, hs4.hwrites, w3, h02.hwrites]
                · rw [l7, hs6.hlog, l5, hs4.hlog, l3, h02.hlog]
                · rw [m7, Function.update_same, m5, Function.update_noteq (by omega), m3,
                    Function.update_same]
                · rw [m7, Function.update_noteq (by omega), m5, Function.update_same, m3]
                  by_cases hbl : blockof addr = sb.s_logstart
                  · rw [if_pos hbl, hbl, Function.update_same]
                  · rw [if_neg hbl, Function.update_noteq hbl]
                · intro c hc1 hc2
                  rw [m7, Function.update_noteq hc1, m5, Function.update_noteq hc2, m3,
                    Function.update_noteq hc1]
                · intro c
                  rw [q7, q5, q3]
                  by_cases hc1 : c = sb.s_logstart
                  · subst hc1; simp
                  · by_cases hc2 : c = sb.s_logstart + 1 + log_n s
                    · subst hc2; simp [Function.update_noteq hc1]
                    · simp [Function.update_noteq hc1, Function.update_noteq hc2, hc1, hc2]

/-- What a successful `log_write` did: either the block was found at its first
index `j` and payload slot `j` was overwritten, or it was appended at index
`log_n s`. -/
theorem log_write_inv {env : Env} {sb : Super} {addr : Nat} {s s' : State}
    (hL : LogAt env sb s) (hn : log_n s ≤ sb.s_lognblocks)
    (h : log_write env s addr = .ok s') :
    InWindow addr ∧ s'.disk = s.disk ∧ s'.ide_writes = s.ide_writes ∧
      s'.log_header = s.log_header ∧
      ((∃ j, j < log_n s ∧ log_blockno s j = blockof addr ∧
          (∀ k, k < j → log_blockno s k ≠ blockof addr) ∧
          mem s' = Function.update (mem s) (sb.s_logstart + 1 + j) (mem s (blockof addr)) ∧
          dirtyMapped s' = Function.update (dirtyMapped s) (sb.s_logstart + 1 + j) true) ∨
       ((∀ k, k < log_n s → log_blockno s k ≠ blockof addr) ∧
          log_n s < sb.s_lognblocks ∧
          mem s' sb.s_logstart
            = Function.update (Function.update (mem s sb.s_logstart) (log_n s + 1) (blockof addr))
                0 (log_n s + 1) ∧
          mem s' (sb.s_logstart + 1 + log_n s)
            = (if blockof addr = sb.s_logstart
                then Function.update (mem s sb.s_logstart) (log_n s + 1) (blockof addr)
                else mem s (blockof addr)) ∧
          (∀ c, c ≠ sb.s_logstart → c ≠ sb.s_logstart + 1 + log_n s → mem s' c = mem s c) ∧
          (∀ c, dirtyMapped s' c
            = (decide (c = sb.s_logstart) || decide (c = sb.s_logstart + 1 + log_n s)
                || dirtyMapped s c)))) := by
  unfold log_write at h
  split at h
  · cases h
  · rename_i hw
    have hwin : InWindow addr := by
      simp only [InWindow, DISKMAP, DISKSIZE] at *; omega
    have hwr := inWindow_rounddown hwin
    have hbr : blockof (ROUNDDOWN addr BLKSIZE) = blockof addr := blockof_rounddown hwin.1
    rw [blocknum_of_inWindow hwr, hbr] at h
    simp only [] at h
    split at h
    · cases h
    · rename_i s1 hscan
      cases h
      obtain ⟨hf, _⟩ := log_write_scan_inv _ _ _ _ _ hL hn hscan
      obtain ⟨j, _, hj2, hj3, hj4, _, e1, e2, e3, e4, e5⟩ := hf rfl
      rw [hbr] at e4
      exact ⟨hwin, e1, e2, e3, Or.inl ⟨j, hj2, hj3, fun k hk => hj4 k (Nat.zero_le _) hk, e4, e5⟩⟩
    · rename_i s1 hscan
      obtain ⟨_, hnf⟩ := log_write_scan_inv _ _ _ _ _ hL hn hscan
      obtain ⟨hk, hsame⟩ := hnf rfl
      have hL1 : LogAt env sb s1 := hL.of_same hsame.hlog
      obtain ⟨a1, _, a3, a4, a5, a6, a7, a8, a9⟩ :=
        log_write_append_inv hL1 (blockof_lt_of_inWindow hwin) h
      rw [hsame.log_n] at a1 a6 a7 a8 a9
      rw [hsame.hmem] at a6 a7
      rw [hbr] at a7
      refine ⟨hwin, ?_, ?_, ?_, Or.inr ⟨fun k hk' => hk k (Nat.zero_le _) hk', a1, a6, a7, ?_, ?_⟩⟩
      · rw [a3, hsame.hdisk]
      · rw [a4, hsame.hwrites]
      · rw [a5, hsame.hlog]
      · intro c hc1 hc2
        rw [a8 c hc1 hc2, hsame.hmem]
      · intro c
        rw [a9 c, hsame.hdirty]

theorem Ready.loadable {env : Env} {sb : Super} (hR : Ready env sb)
    (hs : env.super = some sb) {b : Nat} (h1 : sb.s_logstart ≤ b)
    (h2 : b ≤ sb.s_logstart + sb.s_lognblocks) : Loadable env b := by
  refine ⟨?_, hR.allocated b h1 h2⟩
  rw [beyond_super_eq hs]
  have := hR.region
  simp only [decide_eq_false_iff_not, ge_iff_le, not_le]
  omega

theorem LogAt.pn_ok {env : Env} {sb : Super} {s : State} (hL : LogAt env sb s)
    (hR : Ready env sb) :
    InWindow s.log_header.pnblocks ∧ Loadable env (blockof s.log_header.pnblocks) := by
  obtain ⟨h1, h2, _⟩ := addr_pnblocks sb.s_logstart (by have := hL.bounds; omega)
  rw [hL.hdr, h2]
  exact ⟨h1, hR.loadable hL.super_eq (le_refl _) (by omega)⟩

theorem LogAt.blocknos_ok {env : Env} {sb : Super} {s : State} (hL : LogAt env sb s)
    (hR : Ready env sb) {i : Nat} (hi : i < 1023) :
    InWindow (u32 (s.log_header.blocknos + 4 * i)) ∧
      Loadable env (blockof (u32 (s.log_header.blocknos + 4 * i))) := by
  obtain ⟨h1, h2, _⟩ := addr_blocknos sb.s_logstart i (by have := hL.bounds; omega) hi
  rw [hL.hdr, h2]
  exact ⟨h1, hR.loadable hL.super_eq (le_refl _) (by omega)⟩

theorem LogAt.entry_ok {env : Env} {sb : Super} {s : State} (hL : LogAt env sb s)
    (hR : Ready env sb) {i : Nat} (hi : i < sb.s_lognblocks) :
    InWindow (u32 (s.log_header.log_entries + i * BLKSIZE)) ∧
      Loadable env (blockof (u32 (s.log_header.log_entries + i * BLKSIZE))) := by
  obtain ⟨h1, h2⟩ := addr_entry sb.s_logstart i (by have := hL.bounds; omega)
  rw [hL.hdr, h2]
  exact ⟨h1, hR.loadable hL.super_eq (by omega) (by omega)⟩

theorem load_pnblocks_ok {env : Env} {sb : Super} (s : State) (hL : LogAt env sb s)
    (hR : Ready env sb) :
    ∃ s1, load32 env s s.log_header.pnblocks = .ok (log_n s, s1) ∧ Same s s1 := by
  obtain ⟨hw, hl⟩ := hL.pn_ok hR
  exact load32_ok s hR.reliable hw hl

theorem load_blockno_ok {env : Env} {sb : Super} (s : State) (hL : LogAt env sb s)
    (hR : Ready env sb) {i : Nat} (hi : i < 1023) :
    ∃ s1, load32 env s (u32 (s.log_header.blocknos + 4 * i)) = .ok (log_blockno s i, s1) ∧
      Same s s1 := by
  obtain ⟨hw, hl⟩ := hL.blocknos_ok hR hi
  exact load32_ok s hR.reliable hw hl

theorem log_write_scan_ok {env : Env} {sb : Super} {b addr : Nat} (hR : Ready env sb)
    (hwa : InWindow addr) :
    ∀ (fuel i : Nat) (s : State), LogAt env sb s → log_n s ≤ sb.s_lognblocks →
      (Loadable env (blockof addr) ∨ ∀ k, k < log_n s → log_blockno s k ≠ b) →
      log_n s ≤ fuel + i → ∃ r, log_write_scan env b addr (fuel + 1) i s = .ok r := by
  intro fuel
  induction fuel with
  | zero =>
    intro i s hL hn _ hf
    obtain ⟨s1, h1, _⟩ := load_pnblocks_ok s hL hR
    unfold log_write_scan
    rw [h1]
    simp only []
    rw [if_neg (by omega)]
    exact ⟨_, rfl⟩
  | succ fuel ih =>
    intro i s hL hn hla hf
    have hlt := hL.bounds
    obtain ⟨s1, h1, hs1⟩ := load_pnblocks_ok s hL hR
    unfold log_write_scan
    rw [h1]
    simp only []
    by_cases hi : i < log_n s
    · rw [if_pos hi]
      have hL1 := hL.of_same hs1.hlog
      obtain ⟨s2, h2, hs2⟩ := load_blockno_ok s1 hL1 hR (show i < 1023 by omega)
      rw [h2]
      simp only []
      have hL2 := hL1.of_same hs2.hlog
      by_cases hb : b = log_blockno s1 i
      · rw [if_pos hb]
        have hla' : Loadable env (blockof addr) := by
          rcases hla with hla | hla
          · exact hla
          · exact absurd (hb.trans (hs1.log_blockno i)).symm (hla i hi)
        obtain ⟨hwe, hle⟩ := hL2.entry_ok hR (show i < sb.s_lognblocks by omega)
        obtain ⟨s3, h3⟩ := memcpy_block_ok s2 hR.reliable hwe hle hwa hla'
        rw [h3]
        exact ⟨_, rfl⟩
      · rw [if_neg hb]
        have h02 := same_trans hs1 hs2
        refine ih (i + 1) s2 hL2 (by rw [h02.log_n]; exact hn) ?_ (by rw [h02.log_n]; omega)
        rcases hla with hla | hla
        · exact Or.inl hla
        · refine Or.inr (fun k hk => ?_)
          rw [h02.log_blockno]
          exact hla k (by rw [← h02.log_n]; exact hk)
    · rw [if_neg hi]
      exact ⟨_, rfl⟩

theorem log_write_append_ok {env : Env} {sb : Super} {b addr : Nat} {s : State}
    (hR : Ready env sb) (hL : LogAt env sb s)
    (hn : log_n s < sb.s_lognblocks) (hwa : InWindow addr) (hla : Loadable env (blockof addr)) :
    ∃ s', log_write_append env b addr s = .ok s' := by
  have hlt := hL.bounds
  obtain ⟨s1, h1, hs1⟩ := load_pnblocks_ok s hL hR
  have hL1 := hL.of_same hs1.hlog
  obtain ⟨s2, h2, hs2⟩ := load_pnblocks_ok s1 hL1 hR
  have hL2 := hL1.of_same hs2.hlog
  have hn2 : log_n s2 = log_n s := by rw [hs2.log_n, hs1.log_n]
  obtain ⟨hwb, hlb⟩ := hL2.blocknos_ok hR (show log_n s1 < 1023 by rw [hs1.log_n]; omega)
  obtain ⟨s3, h3⟩ := store32_ok s2 b hR.reliable hwb hlb
  obtain ⟨_, _, _, l3, m3, _⟩ := store32_inv h3
  obtain ⟨_, ab, aw⟩ := addr_blocknos sb.s_logstart (log_n s1) (by omega)
    (by rw [hs1.log_n]; omega)
  rw [hL2.hdr, ab, aw] at m3
  have hL3 := hL2.of_same l3
  have hn3 : log_n s3 = log_n s := by
    rw [log_n_eq hL3, m3, Function.update_same, Function.update_noteq (by omega),
      ← log_n_eq hL2, hn2]
  obtain ⟨s4, h4, hs4⟩ := load_pnblocks_ok s3 hL3 hR
  have hL4 := hL3.of_same hs4.hlog
  obtain ⟨hwe, hle⟩ := hL4.entry_ok hR (show log_n s3 < sb.s_lognblocks by rw [hn3]; exact hn)
  obtain ⟨s5, h5⟩ := memcpy_block_ok s4 hR.reliable hwe hle hwa hla
  obtain ⟨_, _, _, _, l5, _, _⟩ := memcpy_block_inv h5
  have hL5 := hL4.of_same l5
  obtain ⟨s6, h6, hs6⟩ := load_pnblocks_ok s5 hL5 hR
  have hL6 := hL5.of_same hs6.hlog
  obtain ⟨hwp, hlp⟩ := hL6.pn_ok hR
  obtain ⟨s7, h7⟩ := store32_ok s6 (log_n s5 + 1) hR.reliable hwp hlp
  refine ⟨s7, ?_⟩
  unfold log_write_append
  rw [h1]
  simp only []
  rw [deref_super_eq hL.super_eq]
  simp only []
  rw [if_neg (by omega), h2]
  simp only []
  rw [h3]
  simp only []
  rw [h4]
  simp only []
  rw [h5]
  simp only []
  rw [h6]
  simp only []
  exact h7

/-! ### Which calls fail with the out-of-log-space error -/

theorem blocknum_err {va : Nat} {e : Fault} (h : blocknum va = .error e) :
    e = Fault.blocknum_bad_addr := by
  unfold blocknum at h
  split at h
  · cases h; rfl
  · cases h

theorem bc_pgfault_err {env : Env} {s : State} {va : Nat} {e : Fault}
    (h : bc_pgfault env s va = .error e) : e ≠ Fault.out_of_log_space := by
  unfold bc_pgfault at h
  split at h
  · rename_i e1 h1
    cases h
    rw [blocknum_err h1]
    decide
  · split at h
    · cases h; decide
    · split at h
      · cases h; decide
      · split at h
        · cases h; decide
        · split at h
          · cases h; decide
          · split at h
            · cases h; decide
            · split at h
              · cases h; decide
              · cases h

theorem touch_err {env : Env} {s : State} {va : Nat} {e : Fault}
    (h : touch env s va = .error e) : e ≠ Fault.out_of_log_space := by
  unfold touch at h
  split at h
  · cases h
  · exact bc_pgfault_err h

theorem load32_err {env : Env} {s : State} {va : Nat} {e : Fault}
    (h : load32 env s va = .error e) : e ≠ Fault.out_of_log_space := by
  unfold load32 at h
  split at h
  · rename_i e1 h1
    cases h
    exact touch_err h1
  · cases h

theorem store32_err {env : Env} {s : State} {va v : Nat} {e : Fault}
    (h : store32 env s va v = .error e) : e ≠ Fault.out_of_log_space := by
  unfold store32 at h
  split at h
  · rename_i e1 h1
    cases h
    exact touch_err h1
  · cases h

theorem memcpy_block_err {env : Env} {s : State} {dst src : Nat} {e : Fault}
    (h : memcpy_block env s dst src = .error e) : e ≠ Fault.out_of_log_space := by
  unfold memcpy_block at h
  split at h
  · rename_i e1 h1
    cases h
    exact touch_err h1
  · split at h
    · rename_i e1 h1
      cases h
      exact touch_err h1
    · cases h

theorem log_write_scan_err {env : Env} {b addr : Nat} :
    ∀ (fuel i : Nat) (s : State) (e : Fault),
      log_write_scan env b addr (fuel + 1) i s = .error e → log_n s ≤ fuel + i →
      e ≠ Fault.out_of_log_space := by
  intro fuel
  induction fuel with
  | zero =>
    intro i s e h hf
    unfold log_write_scan at h
    split at h
    · rename_i e1 h1
      cases h
      exact load32_err h1
    · rename_i n s1 h1
      obtain ⟨_, hnv⟩ := load_pnblocks_inv h1
      subst hnv
      rw [if_neg (by omega)] at h
      cases h
  | succ fuel ih =>
    intro i s e h hf
    unfold log_write_scan at h
    split at h
    · rename_i e1 h1
      cases h
      exact load32_err h1
    · rename_i n s1 h1
      obtain ⟨hs1, hnv⟩ := load_pnblocks_inv h1
      subst hnv
      split at h
      · split at h
        · rename_i e1 h2
          cases h
          exact load32_err h2
        · rename_i bi s2 h2
          obtain ⟨hs2, _⟩ := load_blockno_inv h2
          split at h
          · split at h
            · rename_i e1 h3
              cases h
              exact memcpy_block_err h3
            · cases h
          · exact ih (i + 1) s2 e h (by rw [hs2.log_n, hs1.log_n]; omega)
      · cases h

theorem log_write_append_full_inv {env : Env} {sb : Super} {b addr : Nat} {s : State}
    (hL : LogAt env sb s)
    (h : log_write_append env b addr s = .error Fault.out_of_log_space) :
    sb.s_lognblocks ≤ log_n s := by
  unfold log_write_append at h
  split at h
  · rename_i e1 h1
    cases h
    exact absurd rfl (load32_err h1)
  · rename_i n s1 h1
    obtain ⟨hs1, hnv⟩ := load_pnblocks_inv h1
    subst hnv
    rw [deref_super_eq hL.super_eq] at h
    simp only [] at h
    split at h
    · rename_i hc; exact hc
    · split at h
      · rename_i e1 h2
        cases h
        exact absurd rfl (load32_err h2)
      · split at h
        · rename_i e1 h3
          cases h
          exact absurd rfl (store32_err h3)
        · split at h
          · rename_i e1 h4
            cases h
            exact absurd rfl (load32_err h4)
          · split at h
            · rename_i e1 h5
              cases h
              exact absurd rfl (memcpy_block_err h5)
            · split at h
              · rename_i e1 h6
                cases h
                exact absurd rfl (load32_err h6)
              · exact absurd rfl (store32_err h)

/-- The out-of-log-space panic, read backwards. -/
theorem log_write_full_inv {env : Env} {sb : Super} {addr : Nat} {s : State}
    (hL : LogAt env sb s) (hn : log_n s ≤ sb.s_lognblocks)
    (h : log_write env s addr = .error Fault.out_of_log_space) :
    (∀ k, k < log_n s → log_blockno s k ≠ blockof addr) ∧ sb.s_lognblocks ≤ log_n s := by
  unfold log_write at h
  split at h
  · cases h
  · rename_i hw
    have hwin : InWindow addr := by
      simp only [InWindow, DISKMAP, DISKSIZE] at *; omega
    have hwr := inWindow_rounddown hwin
    have hbr : blockof (ROUNDDOWN addr BLKSIZE) = blockof addr := blockof_rounddown hwin.1
    rw [blocknum_of_inWindow hwr, hbr] at h
    simp only [] at h
    split at h
    · rename_i e1 hscan
      cases h
      exact absurd rfl (log_write_scan_err 4294967295 0 s _ hscan
        (by have := log_n_lt s; simp only [U32] at this; omega))
    · cases h
    · rename_i s1 hscan
      obtain ⟨_, hnf⟩ := log_write_scan_inv _ _ _ _ _ hL hn hscan
      obtain ⟨hk, hsame⟩ := hnf rfl
      have hL1 : LogAt env sb s1 := hL.of_same hsame.hlog
      have := log_write_append_full_inv hL1 h
      rw [hsame.log_n] at this
      exact ⟨fun k hk' => hk k (Nat.zero_le _) hk', this⟩

/-- The out-of-log-space panic, read forwards. -/
theorem log_write_full {env : Env} {sb : Super} {addr : Nat} {s : State}
    (hL : LogAt env sb s) (hR : Ready env sb) (hn : log_n s ≤ sb.s_lognblocks)
    (hw : InWindow addr)
    (hnf : ∀ k, k < log_n s → log_blockno s k ≠ blockof addr)
    (hfull : sb.s_lognblocks ≤ log_n s) :
    log_write env s addr = .error Fault.out_of_log_space := by
  have hwr := inWindow_rounddown hw
  have hbr : blockof (ROUNDDOWN addr BLKSIZE) = blockof addr := blockof_rounddown hw.1
  have hc : ¬ (addr < DISKMAP ∨ addr ≥ DISKMAP + DISKSIZE) := by
    simp only [InWindow, DISKMAP, DISKSIZE] at *; omega
  obtain ⟨r, hr⟩ := log_write_scan_ok (b := blockof addr) hR hwr 4294967295 0 s hL hn
    (Or.inr hnf) (by have := log_n_lt s; simp only [U32] at this; omega)
  unfold log_write
  rw [if_neg hc, blocknum_of_inWindow hwr, hbr]
  simp only []
  rw [hr]
  obtain ⟨found, s1⟩ := r
  obtain ⟨hf, hnf'⟩ := log_write_scan_inv _ _ _ _ _ hL hn hr
  cases found with
  | true =>
    obtain ⟨j, _, hj2, hj3, _⟩ := hf rfl
    exact absurd hj3 (hnf j hj2)
  | false =>
    obtain ⟨_, hsame⟩ := hnf' rfl
    have hL1 : LogAt env sb s1 := hL.of_same hsame.hlog
    obtain ⟨s2, h2, _⟩ := load_pnblocks_ok s1 hL1 hR
    simp only []
    unfold log_write_append
    rw [h2]
    simp only []
    rw [deref_super_eq hL.super_eq]
    simp only []
    rw [if_pos (by rw [hsame.log_n]; exact hfull)]

/-- When the block is in the log, or the log has room, `log_write` returns. -/
theorem log_write_ok {env : Env} {sb : Super} {addr : Nat} {s : State}
    (hL : LogAt env sb s) (hR : Ready env sb) (hn : log_n s ≤ sb.s_lognblocks)
    (hw : InWindow addr) (hla : Loadable env (blockof addr))
    (hroom : (∃ k, k < log_n s ∧ log_blockno s k = blockof addr) ∨ log_n s < sb.s_lognblocks) :
    ∃ s', log_write env s addr = .ok s' := by
  have hwr := inWindow_rounddown hw
  have hbr : blockof (ROUNDDOWN addr BLKSIZE) = blockof addr := blockof_rounddown hw.1
  have hc : ¬ (addr < DISKMAP ∨ addr ≥ DISKMAP + DISKSIZE) := by
    simp only [InWindow, DISKMAP, DISKSIZE] at *; omega
  have hla' : Loadable env (blockof (ROUNDDOWN addr BLKSIZE)) := by rw [hbr]; exact hla
  obtain ⟨r, hr⟩ := log_write_scan_ok (b := blockof addr) hR hwr 4294967295 0 s hL hn
    (Or.inl hla') (by have := log_n_lt s; simp only [U32] at this; omega)
  unfold log_write
  rw [if_neg hc, blocknum_of_inWindow hwr, hbr]
  simp only []
  rw [hr]
  obtain ⟨found, s1⟩ := r
  obtain ⟨_, hnf'⟩ := log_write_scan_inv _ _ _ _ _ hL hn hr
  cases found with
  | true => exact ⟨s1, rfl⟩
  | false =>
    obtain ⟨hk, hsame⟩ := hnf' rfl
    have hL1 : LogAt env sb s1 := hL.of_same hsame.hlog
    have hroom' : log_n s < sb.s_lognblocks := by
      rcases hroom with ⟨k, hk1, hk2⟩ | h
      · exact absurd hk2 (hk k (Nat.zero_le _) hk1)
      · exact h
    simp only []
    exact log_write_append_ok hR hL1 (by rw [hsame.log_n]; exact hroom') hwr hla'

/-! ### The log as seen through `log_n`, `log_blockno` and `log_payload` -/

/-- A change of the window that leaves the header block alone leaves the count
and the recorded block numbers alone. -/
theorem header_frame {env : Env} {sb : Super} {s s' : State} (hL : LogAt env sb s)
    (hl : s'.log_header = s.log_header)
    (hm : mem s' sb.s_logstart = mem s sb.s_logstart) :
    log_n s' = log_n s ∧ ∀ i, i < 1023 → log_blockno s' i = log_blockno s i := by
  have hL' := hL.of_same hl
  refine ⟨by rw [log_n_eq hL', log_n_eq hL, hm], fun i hi => ?_⟩
  rw [log_blockno_eq hL' hi, log_blockno_eq hL hi, hm]

/-- A change of the window that leaves a payload slot alone. -/
theorem payload_frame {env : Env} {sb : Super} {s s' : State} (hL : LogAt env sb s)
    (hl : s'.log_header = s.log_header) {i : Nat} (hi : i < sb.s_lognblocks)
    (hm : mem s' (sb.s_logstart + 1 + i) = mem s (sb.s_logstart + 1 + i)) :
    log_payload s' i = log_payload s i := by
  rw [log_payload_eq (hL.of_same hl) hi, log_payload_eq hL hi, hm]

/-- The effect of a successful `log_write` on the log. -/
theorem log_write_spec {env : Env} {sb : Super} {addr : Nat} {s s' : State}
    (hL : LogAt env sb s) (hn : log_n s ≤ sb.s_lognblocks)
    (h : log_write env s addr = .ok s') :
    LogAt env sb s' ∧
      ((∃ j, j < log_n s ∧ log_blockno s j = blockof addr ∧
          (∀ k, k < j → log_blockno s k ≠ blockof addr) ∧
          log_n s' = log_n s ∧
          (∀ i, i < 1023 → log_blockno s' i = log_blockno s i) ∧
          log_payload s' j = mem s (blockof addr) ∧
          (∀ i, i < sb.s_lognblocks → i ≠ j → log_payload s' i = log_payload s i)) ∨
       ((∀ k, k < log_n s → log_blockno s k ≠ blockof addr) ∧
          log_n s < sb.s_lognblocks ∧
          log_n s' = log_n s + 1 ∧
          log_blockno s' (log_n s) = blockof addr ∧
          (∀ i, i < 1023 → i ≠ log_n s → log_blockno s' i = log_blockno s i) ∧
          log_payload s' (log_n s)
            = (if blockof addr = sb.s_logstart
                then Function.update (mem s sb.s_logstart) (log_n s + 1) (blockof addr)
                else mem s (blockof addr)) ∧
          (∀ i, i < sb.s_lognblocks → i ≠ log_n s → log_payload s' i = log_payload s i))) := by
  have hlt := hL.bounds
  obtain ⟨hw, _, _, hl, hcase⟩ := log_write_inv hL hn h
  have hL' := hL.of_same hl
  refine ⟨hL', ?_⟩
  rcases hcase with ⟨j, hj1, hj2, hj3, hm, _⟩ | ⟨hk, hroom, m1, m2, m3, _⟩
  · left
    have hmL : mem s' sb.s_logstart = mem s sb.s_logstart := by
      rw [hm, Function.update_noteq (by omega)]
    obtain ⟨f1, f2⟩ := header_frame hL hl hmL
    refine ⟨j, hj1, hj2, hj3, f1, f2, ?_, ?_⟩
    · rw [log_payload_eq hL' (by omega), hm, Function.update_same]
    · intro i hi hij
      exact payload_frame hL hl hi (by rw [hm, Function.update_noteq (by omega)])
  · right
    have hb := blockof_lt_of_inWindow hw
    refine ⟨hk, hroom, ?_, ?_, ?_, ?_, ?_⟩
    · rw [log_n_eq hL', m1, Function.update_same]
      exact Nat.mod_eq_of_lt (by show log_n s + 1 < 4294967296; omega)
    · rw [log_blockno_eq hL' (by omega), m1, Function.update_noteq (by omega),
        Function.update_same]
      exact Nat.mod_eq_of_lt (by show blockof addr < 4294967296; omega)
    · intro i hi hin
      rw [log_blockno_eq hL' hi, log_blockno_eq hL hi, m1, Function.update_noteq (by omega),
        Function.update_noteq (by omega)]
    · rw [log_payload_eq hL' hroom, m2]
    · intro i hi hin
      exact payload_frame hL hl hi (m3 _ (by omega) (by omega))

/-- The header invariant is preserved by `log_write`. -/
theorem log_write_inv_preserved {env : Env} {sb : Super} {addr : Nat} {s s' : State}
    (hL : LogAt env sb s) (hI : LogInv sb s) (h : log_write env s addr = .ok s') :
    LogInv sb s' := by
  have hlt := hL.bounds
  obtain ⟨hn, hd⟩ := hI
  obtain ⟨_, hcase⟩ := log_write_spec hL hn h
  rcases hcase with ⟨j, _, _, _, f1, f2, _, _⟩ | ⟨hnf, hroom, f1, f2, f3, _, _⟩
  · refine ⟨by rw [f1]; exact hn, fun i k hik hk => ?_⟩
    rw [f1] at hk
    rw [f2 i (by omega), f2 k (by omega)]
    exact hd i k hik hk
  · refine ⟨by rw [f1]; omega, fun i k hik hk => ?_⟩
    rw [f1] at hk
    by_cases hkn : k = log_n s
    · subst hkn
      rw [f2, f3 i (by omega) (by omega)]
      exact hnf i hik
    · rw [f3 i (by omega) (by omega), f3 k (by omega) hkn]
      exact hd i k hik (by omega)

/-! ## `flush_log` -/

theorem replay_append (ws1 ws2 : List (Nat × Block)) (d : Nat → Block) :
    replay (ws1 ++ ws2) d = replay ws2 (replay ws1 d) := by
  unfold replay
  rw [List.foldl_append]

theorem replay_nil (d : Nat → Block) : replay [] d = d := rfl

theorem replay_cons (w : Nat × Block) (ws : List (Nat × Block)) (d : Nat → Block) :
    replay (w :: ws) d = replay ws (Function.update d w.1 w.2) := rfl

theorem payload_writes_congr {d d' : Nat → Bool} {m m' : Nat → Block} (L : Nat) :
    ∀ (len i : Nat), (∀ j, i ≤ j → j < i + len → d' (L + 1 + j) = d (L + 1 + j)) →
      (∀ j, i ≤ j → j < i + len → m' (L + 1 + j) = m (L + 1 + j)) →
      payload_writes d' m' L i len = payload_writes d m L i len := by
  intro len
  induction len with
  | zero => intro i _ _; rfl
  | succ len ih =>
    intro i hd hm
    unfold payload_writes
    rw [hd i (le_refl _) (by omega), hm i (le_refl _) (by omega),
      ih (i + 1) (fun j h1 h2 => hd j (by omega) (by omega))
        (fun j h1 h2 => hm j (by omega) (by omega))]

theorem flush_entry_run {env : Env} {sb : Super} (s : State) (hL : LogAt env sb s)
    (hR : Ready env sb) {i : Nat} (hi : i < sb.s_lognblocks) :
    ∃ s', flush_block env s (u32 (s.log_header.log_entries + i * BLKSIZE)) = .ok s' ∧
      mem s' = mem s ∧ s'.log_header = s.log_header ∧
      dirtyMapped s' = Function.update (dirtyMapped s) (sb.s_logstart + 1 + i) false ∧
      s'.ide_writes = s.ide_writes ++
        (if dirtyMapped s (sb.s_logstart + 1 + i) = true
          then [(sb.s_logstart + 1 + i, mem s (sb.s_logstart + 1 + i))] else []) ∧
      s'.disk = replay
        (if dirtyMapped s (sb.s_logstart + 1 + i) = true
          then [(sb.s_logstart + 1 + i, mem s (sb.s_logstart + 1 + i))] else []) s.disk := by
  obtain ⟨hw, _⟩ := hL.entry_ok hR hi
  obtain ⟨s', h⟩ := flush_block_ok s hR.reliable hw
  obtain ⟨_, e1, e2, e3, e4, e5⟩ := flush_block_inv h
  obtain ⟨_, eb⟩ := addr_entry sb.s_logstart i (by have := hL.bounds; omega)
  rw [hL.hdr, eb] at e3 e4 e5
  refine ⟨s', h, e1, e2, e3, ?_, ?_⟩
  · rw [e5]; split <;> simp
  · rw [e4]; split <;> rfl

theorem flush_header_run {env : Env} {sb : Super} (s : State) (hL : LogAt env sb s)
    (hR : Ready env sb) :
    ∃ s', flush_block env s s.log_header.pnblocks = .ok s' ∧
      mem s' = mem s ∧ s'.log_header = s.log_header ∧
      dirtyMapped s' = Function.update (dirtyMapped s) sb.s_logstart false ∧
      s'.ide_writes = s.ide_writes ++
        (if dirtyMapped s sb.s_logstart = true
          then [(sb.s_logstart, mem s sb.s_logstart)] else []) ∧
      s'.disk = replay
        (if dirtyMapped s sb.s_logstart = true
          then [(sb.s_logstart, mem s sb.s_logstart)] else []) s.disk := by
  obtain ⟨hw, _⟩ := hL.pn_ok hR
  obtain ⟨s', h⟩ := flush_block_ok s hR.reliable hw
  obtain ⟨_, e1, e2, e3, e4, e5⟩ := flush_block_inv h
  obtain ⟨_, eb, _⟩ := addr_pnblocks sb.s_logstart (by have := hL.bounds; omega)
  rw [hL.hdr, eb] at e3 e4 e5
  refine ⟨s', h, e1, e2, e3, ?_, ?_⟩
  · rw [e5]; split <;> simp
  · rw [e4]; split <;> rfl

theorem flush_log_loop_run {env : Env} {sb : Super} (hR : Ready env sb) :
    ∀ (len fuel i : Nat) (s : State), LogAt env sb s → log_n s ≤ sb.s_lognblocks →
      i + len = log_n s → len ≤ fuel →
      ∃ s', flush_log_loop env (fuel + 1) i s = .ok s' ∧
        mem s' = mem s ∧ s'.log_header = s.log_header ∧
        (∀ b, dirtyMapped s' b
          = if sb.s_logstart + 1 + i ≤ b ∧ b < sb.s_logstart + 1 + log_n s then false
            else dirtyMapped s b) ∧
        s'.ide_writes = s.ide_writes
          ++ payload_writes (dirtyMapped s) (mem s) sb.s_logstart i len ∧
        s'.disk = replay (payload_writes (dirtyMapped s) (mem s) sb.s_logstart i len) s.disk := by
  intro len
  induction len with
  | zero =>
    intro fuel i s hL hn hi hf
    obtain ⟨s1, h1, hs1⟩ := load_pnblocks_ok s hL hR
    refine ⟨s1, ?_, hs1.hmem, hs1.hlog, ?_, ?_, ?_⟩
    · unfold flush_log_loop
      rw [h1]
      simp only []
      rw [if_neg (by omega)]
    · intro b
      rw [if_neg (by omega), hs1.hdirty]
    · rw [hs1.hwrites]; simp [payload_writes]
    · rw [hs1.hdisk]; rfl
  | succ len ih =>
    intro fuel i s hL hn hi hf
    obtain ⟨fuel, rfl⟩ : ∃ f, fuel = f + 1 := ⟨fuel - 1, by omega⟩
    obtain ⟨s1, h1, hs1⟩ := load_pnblocks_ok s hL hR
    have hL1 := hL.of_same hs1.hlog
    obtain ⟨s2, h2, m2, l2, q2, w2, d2⟩ := flush_entry_run s1 hL1 hR (show i < sb.s_lognblocks by omega)
    have hL2 := hL1.of_same l2
    have hn2 : log_n s2 = log_n s := by
      rw [← hs1.log_n]
      exact log_n_congr l2 (by rw [m2])
    obtain ⟨s3, h3, m3, l3, q3, w3, d3⟩ := ih fuel (i + 1) s2 hL2 (by rw [hn2]; exact hn)
      (by rw [hn2]; omega) (by omega)
    have hpw : payload_writes (dirtyMapped s2) (mem s2) sb.s_logstart (i + 1) len
        = payload_writes (dirtyMapped s) (mem s) sb.s_logstart (i + 1) len := by
      apply payload_writes_congr
      · intro j hj1 hj2
        rw [q2, Function.update_noteq (by omega), hs1.hdirty]
      · intro j _ _
        rw [m2, hs1.hmem]
    rw [hpw] at w3 d3
    rw [hs1.hmem, hs1.hdirty] at w2 d2
    refine ⟨s3, ?_, ?_, ?_, ?_, ?_, ?_⟩
    · unfold flush_log_loop
      rw [h1]
      simp only []
      rw [if_pos (by omega), h2]
      simp only []
      exact h3
    · rw [m3, m2, hs1.hmem]
    · rw [l3, l2, hs1.hlog]
    · intro b
      rw [q3 b, hn2, q2, hs1.hdirty]
      by_cases hb : b = sb.s_logstart + 1 + i
      · subst hb
        rw [if_neg (by omega), Function.update_same, if_pos (by omega)]
      · rw [Function.update_noteq hb]
        by_cases hc : sb.s_logstart + 1 + (i + 1) ≤ b ∧ b < sb.s_logstart + 1 + log_n s
        · rw [if_pos hc, if_pos (by omega)]
        · rw [if_neg hc, if_neg (by omega)]
    · rw [w3, w2, hs1.hwrites, List.append_assoc]
      rfl
    · rw [d3, d2, hs1.hdisk, ← replay_append]
      rfl

theorem flush_log_run {env : Env} {sb : Super} (hR : Ready env sb) (s : State)
    (hL : LogAt env sb s) (hn : log_n s ≤ sb.s_lognblocks) :
    ∃ s', flush_log env s = .ok s' ∧
      mem s' = mem s ∧ s'.log_header = s.log_header ∧
      (∀ b, dirtyMapped s' b
        = if sb.s_logstart ≤ b ∧ b < sb.s_logstart + 1 + log_n s then false
          else dirtyMapped s b) ∧
      s'.ide_writes = s.ide_writes
        ++ (payload_writes (dirtyMapped s) (mem s) sb.s_logstart 0 (log_n s)
          ++ (if dirtyMapped s sb.s_logstart = true
                then [(sb.s_logstart, mem s sb.s_logstart)] else [])) ∧
      s'.disk = replay
        (payload_writes (dirtyMapped s) (mem s) sb.s_logstart 0 (log_n s)
          ++ (if dirtyMapped s sb.s_logstart = true
                then [(sb.s_logstart, mem s sb.s_logstart)] else [])) s.disk := by
  obtain ⟨s1, h1, m1, l1, q1, w1, d1⟩ := flush_log_loop_run hR (log_n s) 4294967295 0 s hL hn
    (by omega) (by have := log_n_lt s; simp only [U32] at this; omega)
  have hL1 := hL.of_same l1
  obtain ⟨s2, h2, m2, l2, q2, w2, d2⟩ := flush_header_run s1 hL1 hR
  have hqL : dirtyMapped s1 sb.s_logstart = dirtyMapped s sb.s_logstart := by
    rw [q1, if_neg (by omega)]
  rw [hqL, m1] at w2 d2
  refine ⟨s2, ?_, ?_, ?_, ?_, ?_, ?_⟩
  · unfold flush_log
    have : flush_log_loop env LOOP_BOUND 0 s = .ok s1 := h1
    rw [this]
    exact h2
  · rw [m2, m1]
  · rw [l2, l1]
  · intro b
    rw [q2]
    by_cases hb : b = sb.s_logstart
    · subst hb
      rw [Function.update_same, if_pos (by omega)]
    · rw [Function.update_noteq hb, q1 b]
      by_cases hc : sb.s_logstart + 1 + 0 ≤ b ∧ b < sb.s_logstart + 1 + log_n s
      · rw [if_pos hc, if_pos (by omega)]
      · rw [if_neg hc, if_neg (by omega)]
  · rw [w2, w1, List.append_assoc]
  · rw [d2, d1, ← replay_append]

/-! ## `log_commit` -/

theorem home_writes_congr {m m' : Nat → Block} (h : Nat → Nat) (L : Nat) :
    ∀ (len i : Nat), (∀ j, i ≤ j → j < i + len → m' (L + 1 + j) = m (L + 1 + j)) →
      home_writes h m' L i len = home_writes h m L i len := by
  intro len
  induction len with
  | zero => intro i _; rfl
  | succ len ih =>
    intro i hm
    unfold home_writes
    rw [hm i (le_refl _) (by omega), ih (i + 1) (fun j h1 h2 => hm j (by omega) (by omega))]

/-- One iteration of the copy loop of `log_commit`, from the read of the block
number to the flush of the home block. -/
theorem commit_entry_run {env : Env} {sb : Super} (hR : Ready env sb) (s : State)
    (hL : LogAt env sb s) {i : Nat} (hi : i < sb.s_lognblocks)
    (hpos : 0 < log_blockno s i) (hld : Loadable env (log_blockno s i)) :
    ∃ s2 s3 s4, load32 env s (u32 (s.log_header.blocknos + 4 * i)) = .ok (log_blockno s i, s2) ∧
      diskaddr env (log_blockno s i) = .ok (u32 (DISKMAP + log_blockno s i * BLKSIZE)) ∧
      memcpy_block env s2 (u32 (DISKMAP + log_blockno s i * BLKSIZE))
        (u32 (s2.log_header.log_entries + i * BLKSIZE)) = .ok s3 ∧
      flush_block env s3 (u32 (DISKMAP + log_blockno s i * BLKSIZE)) = .ok s4 ∧
      s4.log_header = s.log_header ∧
      mem s4 = Function.update (mem s) (log_blockno s i) (mem s (sb.s_logstart + 1 + i)) ∧
      dirtyMapped s4 = Function.update (dirtyMapped s) (log_blockno s i) false ∧
      s4.ide_writes = s.ide_writes ++ [(log_blockno s i, mem s (sb.s_logstart + 1 + i))] ∧
      s4.disk = Function.update s.disk (log_blockno s i) (mem s (sb.s_logstart + 1 + i)) := by
  have hlt := hL.bounds
  have hb : log_blockno s i < 786432 := by
    have h1 := hld.1
    rw [beyond_super_eq hL.super_eq] at h1
    have h2 := hR.window
    simp only [DISKSIZE, BLKSIZE, PGSIZE] at h2
    simp only [decide_eq_false_iff_not, ge_iff_le, not_le] at h1
    omega
  obtain ⟨s2, h2, hs2⟩ := load_blockno_ok s hL hR (show i < 1023 by omega)
  have hL2 := hL.of_same hs2.hlog
  obtain ⟨hwa, hba, _, _⟩ := addr_block (log_blockno s i) hb
  obtain ⟨hwe, hle⟩ := hL2.entry_ok hR hi
  obtain ⟨s3, h3⟩ := memcpy_block_ok s2 hR.reliable hwa (by rw [hba]; exact hld) hwe hle
  obtain ⟨_, _, d3, w3, l3, m3, q3⟩ := memcpy_block_inv h3
  obtain ⟨_, eb⟩ := addr_entry sb.s_logstart i (by omega)
  rw [hba, hL2.hdr, eb, hs2.hmem] at m3
  rw [hba, hs2.hdirty] at q3
  obtain ⟨s4, h4⟩ := flush_block_ok s3 hR.reliable hwa
  obtain ⟨_, m4, l4, q4, d4, w4⟩ := flush_block_inv h4
  rw [hba] at q4 d4 w4
  have hd3 : dirtyMapped s3 (log_blockno s i) = true := by rw [q3, Function.update_same]
  rw [hd3] at d4 w4
  simp only [if_true] at d4 w4
  have hm3 : mem s3 (log_blockno s i) = mem s (sb.s_logstart + 1 + i) := by
    rw [m3, Function.update_same]
  rw [hm3] at d4 w4
  refine ⟨s2, s3, s4, h2, diskaddr_ok hpos hld.1, h3, h4, ?_, ?_, ?_, ?_, ?_⟩
  · rw [l4, l3, hs2.hlog]
  · rw [m4, m3]
  · rw [q4, q3, Function.update_idem]
  · rw [w4, w3, hs2.hwrites]
  · rw [d4, d3, hs2.hdisk]

theorem commit_loop_run {env : Env} {sb : Super} (hR : Ready env sb) {h : Nat → Nat} {n : Nat}
    (hH : Homes env sb n h) (hcap : n ≤ sb.s_lognblocks) :
    ∀ (len fuel i : Nat) (s : State), LogAt env sb s → log_n s = n →
      (∀ j, j < n → log_blockno s j = h j) → i + len = n → len ≤ fuel →
      ∃ s', commit_loop env (fuel + 1) i s = .ok s' ∧ s'.log_header = s.log_header ∧
        (∀ j, i ≤ j → j < n →
          mem s' (h j) = mem s (sb.s_logstart + 1 + j) ∧
          s'.disk (h j) = mem s (sb.s_logstart + 1 + j) ∧
          dirtyMapped s' (h j) = false) ∧
        (∀ b, (∀ j, i ≤ j → j < n → h j ≠ b) →
          mem s' b = mem s b ∧ s'.disk b = s.disk b ∧ dirtyMapped s' b = dirtyMapped s b) ∧
        s'.ide_writes = s.ide_writes ++ home_writes h (mem s) sb.s_logstart i len ∧
        s'.disk = replay (home_writes h (mem s) sb.s_logstart i len) s.disk := by
  intro len
  induction len with
  | zero =>
    intro fuel i s hL hn hb hi hf
    obtain ⟨s1, h1, hs1⟩ := load_pnblocks_ok s hL hR
    refine ⟨s1, ?_, hs1.hlog, ?_, ?_, ?_, ?_⟩
    · unfold commit_loop
      rw [h1]
      simp only []
      rw [if_neg (by omega)]
    · intro j hj1 hj2; omega
    · intro b _
      rw [hs1.hmem, hs1.hdisk, hs1.hdirty]
      exact ⟨rfl, rfl, rfl⟩
    · rw [hs1.hwrites]; simp [home_writes]
    · rw [hs1.hdisk]; rfl
  | succ len ih =>
    intro fuel i s hL hn hb hi hf
    have hlt := hL.bounds
    obtain ⟨fuel, rfl⟩ : ∃ f, fuel = f + 1 := ⟨fuel - 1, by omega⟩
    obtain ⟨s1, h1, hs1⟩ := load_pnblocks_ok s hL hR
    have hL1 := hL.of_same hs1.hlog
    have hin : i < n := by omega
    have hbi : log_blockno s1 i = h i := by rw [hs1.log_blockno]; exact hb i hin
    obtain ⟨s2, s3, s4, e2, e3, e4, e5, l4, m4, q4, w4, d4⟩ :=
      commit_entry_run hR s1 hL1 (show i < sb.s_lognblocks by omega)
        (by rw [hbi]; exact hH.pos i hin) (by rw [hbi]; exact hH.loadable i hin)
    rw [hbi] at e2 e3 e4 e5 m4 q4 w4 d4
    rw [hs1.hmem] at m4 w4 d4
    rw [hs1.hdirty] at q4
    rw [hs1.hwrites] at w4
    rw [hs1.hdisk] at d4
    have l04 : s4.log_header = s.log_header := l4.trans hs1.hlog
    have hL4 := hL.of_same l04
    have hmL : mem s4 sb.s_logstart = mem s sb.s_logstart := by
      rw [m4, Function.update_noteq (fun hc => hH.not_header i hin hc.symm)]
    obtain ⟨f1, f2⟩ := header_frame hL l04 hmL
    obtain ⟨s', r1, r2, r3, r4, r5, r6⟩ := ih fuel (i + 1) s4 hL4 (by rw [f1]; exact hn)
      (fun j hj => by rw [f2 j (by omega)]; exact hb j hj) (by omega) (by omega)
    have hslot : ∀ j, i + 1 ≤ j → j < n →
        mem s4 (sb.s_logstart + 1 + j) = mem s (sb.s_logstart + 1 + j) := by
      intro j hj1 hj2
      rw [m4, Function.update_noteq (fun hc => hH.not_later_slot i j (by omega) hj2 hc.symm)]
    have hhw : home_writes h (mem s4) sb.s_logstart (i + 1) len
        = home_writes h (mem s) sb.s_logstart (i + 1) len :=
      home_writes_congr h sb.s_logstart len (i + 1)
        (fun j hj1 hj2 => hslot j hj1 (by omega))
    rw [hhw] at r5 r6
    refine ⟨s', ?_, ?_, ?_, ?_, ?_, ?_⟩
    · unfold commit_loop
      rw [h1]
      simp only []
      rw [if_pos (by omega), e2]
      simp only []
      rw [e3]
      simp only []
      rw [e4]
      simp only []
      rw [e5]
      simp only []
      exact r1
    · rw [r2, l04]
    · intro j hj1 hj2
      by_cases hji : j = i
      · subst hji
        obtain ⟨g1, g2, g3⟩ := r4 (h j) (fun k hk1 hk2 hc => hH.distinct j k (by omega) hk2 hc.symm)
        rw [g1, g2, g3, m4, d4, q4, Function.update_same, Function.update_same,
          Function.update_same]
        exact ⟨rfl, rfl, rfl⟩
      · obtain ⟨g1, g2, g3⟩ := r3 j (by omega) hj2
        rw [g1, g2, hslot j (by omega) hj2]
        exact ⟨rfl, rfl, g3⟩
    · intro b hbn
      obtain ⟨g1, g2, g3⟩ := r4 b (fun j hj1 hj2 => hbn j (by omega) hj2)
      have hne : b ≠ h i := fun hc => hbn i (le_refl _) hin hc.symm
      rw [g1, g2, g3, m4, d4, q4, Function.update_noteq hne, Function.update_noteq hne,
        Function.update_noteq hne]
      exact ⟨rfl, rfl, rfl⟩
    · rw [r5, w4, List.append_assoc]
      rfl
    · rw [r6, d4]
      rfl

/-- A complete run of `log_commit`: it returns, and this is what it leaves. -/
theorem log_commit_run {env : Env} {sb : Super} (hR : Ready env sb) (s : State)
    (hL : LogAt env sb s) (hn : log_n s ≤ sb.s_lognblocks)
    (hH : Homes env sb (log_n s) (log_blockno s)) :
    ∃ s1 s', flush_log env s = .ok s1 ∧ log_commit env s = .ok s' ∧
      s'.log_header = s.log_header ∧
      mem s' sb.s_logstart = Function.update (mem s sb.s_logstart) 0 0 ∧
      s'.disk sb.s_logstart = Function.update (mem s sb.s_logstart) 0 0 ∧
      (∀ j, j < log_n s →
        mem s' (log_blockno s j) = mem s (sb.s_logstart + 1 + j) ∧
        s'.disk (log_blockno s j) = mem s (sb.s_logstart + 1 + j)) ∧
      (∀ b, b ≠ sb.s_logstart → (∀ j, j < log_n s → log_blockno s j ≠ b) →
        mem s' b = mem s b ∧ s'.disk b = s1.disk b) ∧
      s1.ide_writes = s.ide_writes
        ++ (payload_writes (dirtyMapped s) (mem s) sb.s_logstart 0 (log_n s)
          ++ (if dirtyMapped s sb.s_logstart = true
                then [(sb.s_logstart, mem s sb.s_logstart)] else [])) ∧
      s1.disk = replay
        (payload_writes (dirtyMapped s) (mem s) sb.s_logstart 0 (log_n s)
          ++ (if dirtyMapped s sb.s_logstart = true
                then [(sb.s_logstart, mem s sb.s_logstart)] else [])) s.disk ∧
      s'.ide_writes = s1.ide_writes
        ++ (home_writes (log_blockno s) (mem s) sb.s_logstart 0 (log_n s)
          ++ [(sb.s_logstart, Function.update (mem s sb.s_logstart) 0 0)]) ∧
      s'.disk = replay
        (home_writes (log_blockno s) (mem s) sb.s_logstart 0 (log_n s)
          ++ [(sb.s_logstart, Function.update (mem s sb.s_logstart) 0 0)]) s1.disk := by
  have hlt := hL.bounds
  obtain ⟨s1, h1, m1, l1, q1, w1, d1⟩ := flush_log_run hR s hL hn
  have hL1 := hL.of_same l1
  obtain ⟨f1, f2⟩ := header_frame hL l1 (by rw [m1])
  obtain ⟨s2, h2, l2, c1, c2, w2, d2⟩ := commit_loop_run hR hH hn (log_n s) 4294967295 0 s1 hL1
    f1 (fun j hj => f2 j (by omega)) (by omega)
    (by have := log_n_lt s; simp only [U32] at this; omega)
  rw [m1] at w2 d2
  have hL2 := hL1.of_same l2
  obtain ⟨hwp, hlp⟩ := hL2.pn_ok hR
  obtain ⟨s3, h3⟩ := store32_ok s2 0 hR.reliable hwp hlp
  obtain ⟨_, d3, w3, l3, m3, q3⟩ := store32_inv h3
  obtain ⟨_, pb, pw⟩ := addr_pnblocks sb.s_logstart (by omega)
  rw [hL2.hdr, pb, pw] at m3
  rw [hL2.hdr, pb] at q3
  have hfr := c2 sb.s_logstart (fun j _ hj => hH.not_header j hj)
  rw [hfr.1, m1] at m3
  have hu0 : u32 0 = 0 := rfl
  rw [hu0] at m3
  have hL3 := hL2.of_same l3
  obtain ⟨s4, h4, m4, l4, q4, w4, d4⟩ := flush_header_run s3 hL3 hR
  have hd3 : dirtyMapped s3 sb.s_logstart = true := by rw [q3, Function.update_same]
  have hm3 : mem s3 sb.s_logstart = Function.update (mem s sb.s_logstart) 0 0 := by
    rw [m3, Function.update_same]
  rw [hd3, hm3] at w4 d4
  simp only [if_true] at w4 d4
  refine ⟨s1, s4, h1, ?_, ?_, ?_, ?_, ?_, ?_, w1, d1, ?_, ?_⟩
  · unfold log_commit
    rw [h1]
    simp only []
    have : commit_loop env LOOP_BOUND 0 s1 = .ok s2 := h2
    rw [this]
    simp only []
    rw [h3]
    exact h4
  · rw [l4, l3, l2, l1]
  · rw [m4, hm3]
  · rw [d4]
    exact Function.update_same _ _ _
  · intro j hj
    obtain ⟨g1, g2, _⟩ := c1 j (Nat.zero_le _) hj
    have hne : log_blockno s j ≠ sb.s_logstart := hH.not_header j hj
    rw [m1] at g1 g2
    constructor
    · rw [m4, m3, Function.update_noteq hne, g1]
    · rw [d4]
      show Function.update s3.disk _ _ _ = _
      rw [Function.update_noteq hne, d3, g2]
  · intro b hb1 hb2
    obtain ⟨g1, g2, _⟩ := c2 b (fun j _ hj => hb2 j hj)
    constructor
    · rw [m4, m3, Function.update_noteq hb1, g1, m1]
    · rw [d4]
      show Function.update s3.disk _ _ _ = _
      rw [Function.update_noteq hb1, d3, g2]
  · rw [w4, w3, w2, List.append_assoc]
  · rw [d4, d3, d2, ← replay_append]

theorem homes_of_outside {env : Env} {sb : Super} {n : Nat} {h : Nat → Nat}
    (hpos : ∀ j, j < n → 0 < h j) (hld : ∀ j, j < n → Loadable env (h j))
    (hd : ∀ j k, j < k → k < n → h j ≠ h k) (ho : ∀ j, j < n → OutsideLog sb (h j))
    (hn : n ≤ sb.s_lognblocks) : Homes env sb n h := by
  refine ⟨hpos, hld, hd, ?_, ?_⟩
  · intro j hj hc
    have := ho j hj
    unfold OutsideLog at this
    omega
  · intro j k hjk hk hc
    have := ho j (by omega)
    unfold OutsideLog at this
    omega

/-! ## The example configuration is well formed -/

theorem exampleEnv_ready : Ready exampleEnv exampleSuper :=
  ⟨⟨fun _ => le_refl _, fun _ => le_refl _, fun _ => le_refl _, fun _ => le_refl _⟩,
    by decide, by decide, by decide, fun _ _ _ => rfl⟩

theorem exampleEnv_loadable {b : Nat} (h : b < 1024) : Loadable exampleEnv b := by
  refine ⟨?_, rfl⟩
  rw [@beyond_super_eq exampleEnv exampleSuper rfl]
  simp only [exampleSuper, decide_eq_false_iff_not, ge_iff_le, not_le]
  exact h

theorem emptyLog_logAt : LogAt exampleEnv exampleSuper emptyLog :=
  ⟨rfl, rfl, by decide, by decide⟩

theorem pendingLog_logAt : LogAt exampleEnv exampleSuper pendingLog :=
  ⟨rfl, rfl, by decide, by decide⟩

theorem emptyLog_n : log_n emptyLog = 0 := by decide

theorem pendingLog_n : log_n pendingLog = 1 := by decide

theorem pendingLog_blockno : log_blockno pendingLog 0 = 20 := by decide

theorem inWindow_example {b : Nat} (h : b < 1024) : InWindow (DISKMAP + b * BLKSIZE) := by
  simp only [InWindow, DISKMAP, DISKSIZE, BLKSIZE, PGSIZE]
  omega

theorem blockof_example {b : Nat} (h : b < 1024) : blockof (DISKMAP + b * BLKSIZE) = b := by
  simp only [blockof, DISKMAP, BLKSIZE, PGSIZE]
  omega

/-! ## Claims -/

/-- A returned `log_commit` leaves the count at zero, whatever the state it started from. -/
theorem log_commit_resets {env : Env} {s s' : State} (h : log_commit env s = .ok s') :
    log_n s' = 0 := by
  unfold log_commit at h
  split at h
  · cases h
  · split at h
    · cases h
    · rename_i s2 _
      split at h
      · cases h
      · rename_i s3 h3
        obtain ⟨_, _, _, l3, m3, _⟩ := store32_inv h3
        obtain ⟨_, m4, l4, _, _, _⟩ := flush_block_inv h
        unfold log_n
        rw [l4, l3, m4, m3, Function.update_same, Function.update_same]
        rfl

/-- An empty log satisfies the header invariant. -/
theorem logInv_of_empty (sb : Super) {s : State} (h0 : log_n s = 0) : LogInv sb s := by
  refine ⟨by rw [h0]; exact Nat.zero_le _, fun i j _ hj => ?_⟩
  rw [h0] at hj
  exact absurd hj (Nat.not_lt_zero _)

theorem emptyLog_inv : LogInv exampleSuper emptyLog := logInv_of_empty _ emptyLog_n

theorem ok_of_eval {α : Type} {x : Except Fault α} {p : α → Bool}
    (h : returns_with x p = true) : ∃ a, x = .ok a ∧ p a = true := by
  cases x with
  | error e => cases h
  | ok a => exact ⟨a, rfl, h⟩

theorem err_of_eval {α : Type} {x : Except Fault α} {f : Fault}
    (h : panics_with x f = true) : x = .error f := by
  cases x with
  | error e =>
    have : e = f := by simpa [panics_with] using h
    rw [this]
  | ok a => cases h

theorem bigLog_blockno {i : Nat} (hi : i < 1024) : log_blockno bigLog i = 100 + i := by
  by_cases h : i < 1023
  · obtain ⟨_, h2, h3⟩ := addr_blocknos 2 i (by decide) h
    have hdr : bigLog.log_header = log_header_at (DISKMAP + 2 * BLKSIZE) := rfl
    have hm : mem bigLog 2 (i + 1) = 99 + (i + 1) := by
      have e : mem bigLog 2 (i + 1) = (if i + 1 = 0 then 1024 else 99 + (i + 1)) := rfl
      rw [e, if_neg (by omega)]
    unfold log_blockno
    rw [hdr, h2, h3, hm]
    simp only [u32, U32]
    omega
  · have h1 : i = 1023 := by omega
    subst h1
    decide

theorem bigLog_inv : LogInv bigSuper bigLog := by
  have hn : log_n bigLog = 1024 := by decide
  refine ⟨by rw [hn]; decide, fun i j hij hj => ?_⟩
  rw [hn] at hj
  rw [bigLog_blockno (by omega), bigLog_blockno hj]
  omega

/-- C6, counterexample: a log of 2000 payload slots (`bigSuper`), laid out as `log_init` lays it
out, that records the 1024 distinct blocks 100 to 1123. The count is within the capacity and
the block numbers are pairwise distinct. `log_write` of block 100 finds it at index 0 and
copies the block into payload slot 0, whose first word is `blocknos[1023]`: the call returns,
and afterwards `blocknos[1023]` is 105, as is `blocknos[5]`. -/
theorem log_write_breaks_invariant :
    bigSuper.s_lognblocks = 2000 ∧ bigEnv.super = some bigSuper ∧
    bigLog.log_header = log_header_at (DISKMAP + bigSuper.s_logstart * BLKSIZE) ∧
    log_n bigLog = 1024 ∧ LogInv bigSuper bigLog ∧
    ∃ s', log_write bigEnv bigLog (DISKMAP + 100 * BLKSIZE) = .ok s' ∧
      log_n s' = 1024 ∧ log_blockno s' 5 = 105 ∧ log_blockno s' 1023 = 105 ∧
      ¬ LogInv bigSuper s' := by
  refine ⟨rfl, rfl, rfl, by decide, bigLog_inv, ?_⟩
  have hev : returns_with (log_write bigEnv bigLog (DISKMAP + 100 * BLKSIZE))
      (fun s' => decide (log_n s' = 1024) && decide (log_blockno s' 5 = 105) &&
        decide (log_blockno s' 1023 = 105)) = true := by decide
  obtain ⟨s', h, hp⟩ := ok_of_eval hev
  simp only [Bool.and_eq_true, decide_eq_true_eq] at hp
  refine ⟨s', h, hp.1.1, hp.1.2, hp.2, fun hI => ?_⟩
  exact hI.2 5 1023 (by decide) (by rw [hp.1.1]; decide) (by rw [hp.1.2, hp.2])

/-- C6, amended. For a log laid out as `log_init` lays it out (`log_header` computed from the
super block's `s_logstart`), whose region lies inside the disk-map window and whose capacity
`s_lognblocks` is below `BLKSIZE / 4`, so that the header block has room for a block number per
payload slot: the predicate "the count is at most the capacity and the recorded block numbers
are pairwise distinct" holds of every empty log, is preserved by every `log_write` call that
returns, and holds after every `log_commit` call that returns. -/
theorem log_invariant (env : Env) (sb : Super) (hsuper : env.super = some sb)
    (hfits : sb.s_logstart + sb.s_lognblocks < DISKSIZE / BLKSIZE)
    (hroom : sb.s_lognblocks < BLKSIZE / 4) :
    (∀ s, log_n s = 0 → LogInv sb s) ∧
    (∀ s s' addr, s.log_header = log_header_at (DISKMAP + sb.s_logstart * BLKSIZE) →
      LogInv sb s → log_write env s addr = .ok s' → LogInv sb s') ∧
    (∀ s s', LogInv sb s → log_commit env s = .ok s' → LogInv sb s') := by
  exact ⟨fun s h0 => logInv_of_empty sb h0,
    fun s s' addr hdr hI h => log_write_inv_preserved ⟨hsuper, hdr, hfits, hroom⟩ hI h,
    fun s s' _ h => logInv_of_empty sb (log_commit_resets h)⟩

/-- C6 at the empty example log: the invariant holds, one `log_write` of block 5
returns and keeps it, and `log_commit` returns and keeps it. -/
theorem log_invariant_witness :
    (exampleEnv.super = some exampleSuper ∧
      exampleSuper.s_logstart + exampleSuper.s_lognblocks < DISKSIZE / BLKSIZE ∧
      exampleSuper.s_lognblocks < BLKSIZE / 4) ∧
    LogInv exampleSuper emptyLog ∧
    (∃ s', log_write exampleEnv emptyLog (DISKMAP + 5 * BLKSIZE) = .ok s' ∧
      LogInv exampleSuper s') ∧
    (∃ s', log_commit exampleEnv emptyLog = .ok s' ∧ LogInv exampleSuper s') := by
  have hC := log_invariant exampleEnv exampleSuper rfl (by decide) (by decide)
  have hI := hC.1 emptyLog emptyLog_n
  refine ⟨⟨rfl, by decide, by decide⟩, hI, ?_, ?_⟩
  · obtain ⟨s', h⟩ := log_write_ok emptyLog_logAt exampleEnv_ready hI.1
      (inWindow_example (b := 5) (by decide))
      (by rw [blockof_example (b := 5) (by decide)]; exact exampleEnv_loadable (by decide))
      (Or.inr (by rw [emptyLog_n]; decide))
    exact ⟨s', h, hC.2.1 _ _ _ rfl hI h⟩
  · have hH : Homes exampleEnv exampleSuper (log_n emptyLog) (log_blockno emptyLog) := by
      rw [emptyLog_n]
      exact ⟨fun j hj => absurd hj (Nat.not_lt_zero _), fun j hj => absurd hj (Nat.not_lt_zero _),
        fun j k _ hk => absurd hk (Nat.not_lt_zero _), fun j hj => absurd hj (Nat.not_lt_zero _),
        fun j k _ hk => absurd hk (Nat.not_lt_zero _)⟩
    obtain ⟨_, s', _, h, _⟩ := log_commit_run exampleEnv_ready emptyLog emptyLog_logAt hI.1 hH
    exact ⟨s', h, hC.2.2 _ _ hI h⟩

/-- C2. On a log whose count is within the capacity and whose recorded block
numbers are pairwise distinct, accepted by `diskaddr`, allocated and outside
the log region, `log_commit` returns; afterwards every recorded home block
holds on the device what its payload slot held before the call, and the
header count is zero both in the window and on the device. -/
theorem log_commit_installs {env : Env} {sb : Super} (s : State)
    (hL : LogAt env sb s) (hR : Ready env sb) (hn : log_n s ≤ sb.s_lognblocks)
    (hdist : ∀ i j, i < j → j < log_n s → log_blockno s i ≠ log_blockno s j)
    (hvalid : ∀ i, i < log_n s → 0 < log_blockno s i ∧ log_blockno s i < sb.s_nblocks)
    (halloc : ∀ i, i < log_n s → bitmap_marks_free env (log_blockno s i) = false)
    (hout : ∀ i, i < log_n s → OutsideLog sb (log_blockno s i)) :
    ∃ s', log_commit env s = .ok s' ∧
      (∀ i, i < log_n s → s'.disk (log_blockno s i) = log_payload s i) ∧
      log_n s' = 0 ∧ s'.disk sb.s_logstart 0 = 0 := by
  have hld : ∀ i, i < log_n s → Loadable env (log_blockno s i) := by
    intro i hi
    refine ⟨?_, halloc i hi⟩
    rw [beyond_super_eq hL.super_eq]
    have := (hvalid i hi).2
    simp only [decide_eq_false_iff_not, ge_iff_le, not_le]
    exact this
  have hH := homes_of_outside (fun j hj => (hvalid j hj).1) hld hdist hout hn
  obtain ⟨_, s', _, h, _, _, dL, homes, _⟩ := log_commit_run hR s hL hn hH
  refine ⟨s', h, fun i hi => ?_, log_commit_resets h, ?_⟩
  · rw [(homes i hi).2, log_payload_eq hL (by omega)]
  · rw [dL, Function.update_same]

/-- C2 at the pending example log: one entry, for block 20. -/
theorem log_commit_installs_witness :
    ∃ s', log_commit exampleEnv pendingLog = .ok s' ∧
      (∀ i, i < log_n pendingLog →
        s'.disk (log_blockno pendingLog i) = log_payload pendingLog i) ∧
      log_n s' = 0 ∧ s'.disk exampleSuper.s_logstart 0 = 0 := by
  have h0 : ∀ i, i < log_n pendingLog → i = 0 := by
    intro i hi; rw [pendingLog_n] at hi; omega
  refine log_commit_installs pendingLog pendingLog_logAt exampleEnv_ready
    (by rw [pendingLog_n]; decide) ?_ ?_ ?_ ?_
  · intro i j hij hj
    have := h0 j hj
    omega
  · intro i hi
    rw [h0 i hi, pendingLog_blockno]
    decide
  · intro i _
    rfl
  · intro i hi
    rw [h0 i hi, pendingLog_blockno]
    exact Or.inr (by decide)

/-- A `log_write` of a block that the log already records at index `i`. -/
theorem log_write_found {env : Env} {sb : Super} (hR : Ready env sb) (s : State)
    (addr i : Nat) (hL : LogAt env sb s) (hI : LogInv sb s) (hw : InWindow addr)
    (hla : Loadable env (blockof addr)) (hi : i < log_n s)
    (hb : log_blockno s i = blockof addr) :
    ∃ s', log_write env s addr = .ok s' ∧ log_n s' = log_n s ∧
      (∀ k, k < sb.s_lognblocks → log_blockno s' k = log_blockno s k) ∧
      log_payload s' i = mem s (blockof addr) ∧
      (∀ k, k < sb.s_lognblocks → k ≠ i → log_payload s' k = log_payload s k) ∧
      (∀ k, k < log_n s' → (log_blockno s' k = blockof addr ↔ k = i)) := by
  have hlt := hL.bounds
  obtain ⟨hn, hd⟩ := hI
  obtain ⟨s', h⟩ := log_write_ok hL hR hn hw hla (Or.inl ⟨i, hi, hb⟩)
  obtain ⟨_, hcase⟩ := log_write_spec hL hn h
  refine ⟨s', h, ?_⟩
  rcases hcase with ⟨j, hj1, hj2, _, f1, f2, f3, f4⟩ | ⟨hnf, _⟩
  · have hji : j = i := by
      rcases Nat.lt_trichotomy j i with hlt' | heq | hgt
      · exact absurd (hj2.trans hb.symm) (hd j i hlt' hi)
      · exact heq
      · exact absurd (hb.trans hj2.symm) (hd i j hgt hj1)
    subst hji
    refine ⟨f1, fun k hk => f2 k (by omega), f3, f4, fun k hk => ?_⟩
    rw [f1] at hk
    rw [f2 k (by omega)]
    constructor
    · intro hkb
      rcases Nat.lt_trichotomy k j with hlt' | heq | hgt
      · exact absurd (hkb.trans hb.symm) (hd k j hlt' hi)
      · exact heq
      · exact absurd (hb.trans hkb.symm) (hd j k hgt hk)
    · intro hkj; rw [hkj]; exact hb
  · exact absurd hb (hnf i hi)

/-- After a `log_write` that returned, the block is recorded in the log. -/
theorem log_write_records {env : Env} {sb : Super} {addr : Nat} {s s' : State}
    (hL : LogAt env sb s) (hn : log_n s ≤ sb.s_lognblocks)
    (h : log_write env s addr = .ok s') :
    ∃ i, i < log_n s' ∧ log_blockno s' i = blockof addr := by
  have hlt := hL.bounds
  obtain ⟨_, hcase⟩ := log_write_spec hL hn h
  rcases hcase with ⟨j, hj1, hj2, _, f1, f2, _, _⟩ | ⟨_, _, f1, f2, _⟩
  · exact ⟨j, by rw [f1]; exact hj1, by rw [f2 j (by omega)]; exact hj2⟩
  · exact ⟨log_n s, by rw [f1]; omega, f2⟩

/-- A store into a block other than the header block leaves the log header as it was. -/
theorem store_block_keeps_header {env : Env} {sb : Super} {addr : Nat} {C : Block}
    {s s' : State} (hL : LogAt env sb s) (hI : LogInv sb s)
    (hne : blockof addr ≠ sb.s_logstart) (h : store_block env s addr C = .ok s') :
    LogAt env sb s' ∧ LogInv sb s' ∧ log_n s' = log_n s ∧
      (∀ i, i < 1023 → log_blockno s' i = log_blockno s i) ∧
      mem s' (blockof addr) = C := by
  have hlt := hL.bounds
  obtain ⟨_, _, _, l, m, _, _⟩ := store_block_inv h
  obtain ⟨f1, f2⟩ := header_frame hL l (by rw [m, Function.update_noteq hne.symm])
  refine ⟨hL.of_same l, ⟨by rw [f1]; exact hI.1, fun i j hij hj => ?_⟩, f1, f2,
    by rw [m, Function.update_same]⟩
  rw [f1] at hj
  rw [f2 i (by have := hI.1; omega), f2 j (by have := hI.1; omega)]
  exact hI.2 i j hij hj

/-! ## Pages stay mapped while the log runs -/

theorem stays_refl (s : State) : StaysMapped s s := fun _ h => h

theorem stays_trans {s1 s2 s3 : State} (h12 : StaysMapped s1 s2) (h23 : StaysMapped s2 s3) :
    StaysMapped s1 s3 := fun c h => h23 c (h12 c h)

theorem stays_update (s : State) (b : Nat) (sl : Slot) :
    StaysMapped s { s with cache := Function.update s.cache b (some sl) } := by
  intro c hc
  by_cases hcb : c = b
  · rw [hcb]
    simp
  · simpa [Function.update_noteq hcb] using hc

theorem touch_stays {env : Env} {s s' : State} {va : Nat} (h : touch env s va = .ok s') :
    StaysMapped s s' := by
  unfold touch at h
  split at h
  · cases h
    exact stays_refl s
  · obtain ⟨_, _, hs⟩ := bc_pgfault_inv h
    rw [hs]
    exact stays_update s _ _

theorem mark_accessed_stays (s : State) (b : Nat) : StaysMapped s (mark_accessed s b) :=
  fun c hc => isSome_mark_accessed s b c hc

theorem write_page_stays (s : State) (b : Nat) (blk : Block) :
    StaysMapped s (write_page s b blk) := by
  unfold write_page
  exact stays_update s _ _

theorem load32_stays {env : Env} {s s' : State} {va v : Nat}
    (h : load32 env s va = .ok (v, s')) : StaysMapped s s' := by
  unfold load32 at h
  split at h
  · cases h
  · rename_i s1 ht
    cases h
    exact stays_trans (touch_stays ht) (mark_accessed_stays s1 _)

theorem store32_stays {env : Env} {s s' : State} {va v : Nat}
    (h : store32 env s va v = .ok s') : StaysMapped s s' := by
  unfold store32 at h
  split at h
  · cases h
  · rename_i s1 ht
    cases h
    exact stays_trans (touch_stays ht) (write_page_stays s1 _ _)

theorem memcpy_block_stays {env : Env} {s s' : State} {dst src : Nat}
    (h : memcpy_block env s dst src = .ok s') :
    StaysMapped s s' ∧ (s'.cache (blockof src)).isSome = true := by
  unfold memcpy_block at h
  split at h
  · cases h
  · rename_i s1 ht1
    obtain ⟨_, _, hm1⟩ := touch_inv ht1
    split at h
    · cases h
    · rename_i s2 ht2
      cases h
      have h12 : StaysMapped s s2 :=
        stays_trans (touch_stays ht1)
          (stays_trans (mark_accessed_stays s1 _) (touch_stays ht2))
      have hsrc : (s2.cache (blockof src)).isSome = true :=
        touch_stays ht2 _ (mark_accessed_stays s1 _ _ hm1)
      exact ⟨stays_trans h12 (write_page_stays s2 _ _), write_page_stays s2 _ _ _ hsrc⟩

theorem touch_mapped {env : Env} {s : State} {va : Nat} (hw : InWindow va)
    (hm : (s.cache (blockof va)).isSome = true) : touch env s va = .ok s := by
  unfold touch
  rw [if_pos ((va_is_mapped_iff s va).2 ⟨hw, hm⟩)]

theorem memcpy_block_to_mapped {env : Env} (s : State) {dst src : Nat} (hr : Reliable env)
    (hwd : InWindow dst) (hmd : (s.cache (blockof dst)).isSome = true)
    (hws : InWindow src) (hls : Loadable env (blockof src)) :
    ∃ s', memcpy_block env s dst src = .ok s' := by
  obtain ⟨s1, h1⟩ := touch_ok s hr hws hls
  have h2 : touch env (mark_accessed s1 (blockof src)) dst = .ok (mark_accessed s1 (blockof src)) :=
    touch_mapped hwd (mark_accessed_stays s1 _ _ (touch_stays h1 _ hmd))
  exact ⟨_, by unfold memcpy_block; rw [h1]; simp only []; rw [h2]⟩

theorem log_write_scan_stays {env : Env} {b addr : Nat} :
    ∀ (fuel i : Nat) (s s' : State) (found : Bool),
      log_write_scan env b addr fuel i s = .ok (found, s') →
      StaysMapped s s' ∧ (found = true → (s'.cache (blockof addr)).isSome = true) := by
  intro fuel
  induction fuel with
  | zero =>
    intro i s s' found h
    unfold log_write_scan at h
    cases h
  | succ fuel ih =>
    intro i s s' found h
    unfold log_write_scan at h
    split at h
    · cases h
    · rename_i n s1 h1
      split at h
      · split at h
        · cases h
        · rename_i bi s2 h2
          have h02 := stays_trans (load32_stays h1) (load32_stays h2)
          split at h
          · split at h
            · cases h
            · rename_i s3 h3
              cases h
              obtain ⟨m1, m2⟩ := memcpy_block_stays h3
              exact ⟨stays_trans h02 m1, fun _ => m2⟩
          · obtain ⟨r1, r2⟩ := ih (i + 1) s2 s' found h
            exact ⟨stays_trans h02 r1, r2⟩
      · cases h
        exact ⟨load32_stays h1, fun hc => by cases hc⟩

theorem log_write_append_stays {env : Env} {b addr : Nat} {s s' : State}
    (h : log_write_append env b addr s = .ok s') :
    StaysMapped s s' ∧ (s'.cache (blockof addr)).isSome = true := by
  unfold log_write_append at h
  split at h
  · cases h
  · rename_i n s1 h1
    split at h
    · cases h
    · split at h
      · cases h
      · split at h
        · cases h
        · rename_i n1 s2 h2
          split at h
          · cases h
          · rename_i s3 h3
            split at h
            · cases h
            · rename_i n2 s4 h4
              split at h
              · cases h
              · rename_i s5 h5
                split at h
                · cases h
                · rename_i n3 s6 h6
                  obtain ⟨m1, m2⟩ := memcpy_block_stays h5
                  have h56 := stays_trans (load32_stays h6) (store32_stays h)
                  refine ⟨?_, h56 _ m2⟩
                  exact stays_trans (load32_stays h1)
                    (stays_trans (load32_stays h2)
                      (stays_trans (store32_stays h3)
                        (stays_trans (load32_stays h4) (stays_trans m1 h56))))

theorem log_write_stays {env : Env} {s s' : State} {addr : Nat}
    (h : log_write env s addr = .ok s') :
    StaysMapped s s' ∧ (s'.cache (blockof addr)).isSome = true := by
  unfold log_write at h
  split at h
  · cases h
  · rename_i hc
    have hlo : DISKMAP ≤ addr := by
      simp only [DISKMAP, DISKSIZE] at *
      omega
    have hbr : blockof (ROUNDDOWN addr BLKSIZE) = blockof addr := blockof_rounddown hlo
    split at h
    · cases h
    · rename_i blockno hb
      split at h
      · cases h
      · rename_i s1 hscan
        cases h
        obtain ⟨r1, r2⟩ := log_write_scan_stays _ _ _ _ _ hscan
        exact ⟨r1, by rw [← hbr]; exact r2 rfl⟩
      · rename_i s1 hscan
        obtain ⟨r1, _⟩ := log_write_scan_stays _ _ _ _ _ hscan
        obtain ⟨a1, a2⟩ := log_write_append_stays h
        exact ⟨stays_trans r1 a1, by rw [← hbr]; exact a2⟩

theorem touch_present {env : Env} (s : State) {va : Nat} (hr : Reliable env) (hw : InWindow va)
    (hp : (s.cache (blockof va)).isSome = true ∨ Loadable env (blockof va)) :
    ∃ s', touch env s va = .ok s' := by
  rcases hp with hm | hl
  · exact ⟨s, by unfold touch; rw [if_pos ((va_is_mapped_iff s va).2 ⟨hw, hm⟩)]⟩
  · exact touch_ok s hr hw hl

theorem memcpy_block_present {env : Env} (s : State) {dst src : Nat} (hr : Reliable env)
    (hwd : InWindow dst) (hld : Loadable env (blockof dst)) (hws : InWindow src)
    (hps : (s.cache (blockof src)).isSome = true ∨ Loadable env (blockof src)) :
    ∃ s', memcpy_block env s dst src = .ok s' := by
  obtain ⟨s1, h1⟩ := touch_present s hr hws hps
  obtain ⟨s2, h2⟩ := touch_ok (mark_accessed s1 (blockof src)) hr hwd hld
  exact ⟨_, by unfold memcpy_block; rw [h1]; simp only []; rw [h2]⟩

/-- The search loop of `log_write` finds a recorded block whose page is mapped or can be
loaded, and returns. -/
theorem log_write_scan_hit {env : Env} {sb : Super} {b addr : Nat} (hR : Ready env sb)
    (hwa : InWindow addr) :
    ∀ (fuel i : Nat) (s : State), LogAt env sb s → log_n s ≤ sb.s_lognblocks →
      ((s.cache (blockof addr)).isSome = true ∨ Loadable env (blockof addr)) →
      (∃ k, i ≤ k ∧ k < log_n s ∧ log_blockno s k = b) →
      log_n s ≤ fuel + i → ∃ s', log_write_scan env b addr (fuel + 1) i s = .ok (true, s') := by
  intro fuel
  induction fuel with
  | zero =>
    intro i s _ _ _ hk hf
    obtain ⟨k, hk1, hk2, _⟩ := hk
    omega
  | succ fuel ih =>
    intro i s hL hn hp hk hf
    have hlt := hL.bounds
    obtain ⟨k, hk1, hk2, hk3⟩ := hk
    obtain ⟨s1, h1, hs1⟩ := load_pnblocks_ok s hL hR
    unfold log_write_scan
    rw [h1]
    simp only []
    have hi : i < log_n s := by omega
    rw [if_pos hi]
    have hL1 := hL.of_same hs1.hlog
    obtain ⟨s2, h2, hs2⟩ := load_blockno_ok s1 hL1 hR (show i < 1023 by omega)
    rw [h2]
    simp only []
    have hL2 := hL1.of_same hs2.hlog
    have hp2 : (s2.cache (blockof addr)).isSome = true ∨ Loadable env (blockof addr) := by
      rcases hp with hm | hl
      · exact Or.inl (load32_stays h2 _ (load32_stays h1 _ hm))
      · exact Or.inr hl
    by_cases hb : b = log_blockno s1 i
    · rw [if_pos hb]
      obtain ⟨hwe, hle⟩ := hL2.entry_ok hR (show i < sb.s_lognblocks by omega)
      obtain ⟨s3, h3⟩ := memcpy_block_present s2 hR.reliable hwe hle hwa hp2
      rw [h3]
      exact ⟨_, rfl⟩
    · rw [if_neg hb]
      have h02 := same_trans hs1 hs2
      refine ih (i + 1) s2 hL2 (by rw [h02.log_n]; exact hn) hp2 ?_ (by rw [h02.log_n]; omega)
      have hki : k ≠ i := by
        intro hc
        rw [hc] at hk3
        exact hb ((hs1.log_blockno i).trans hk3).symm
      exact ⟨k, by omega, by rw [h02.log_n]; exact hk2, by rw [h02.log_blockno]; exact hk3⟩

/-- The function `log_write` on a block that is recorded at index `i` and whose page is mapped
or can be loaded: it returns, and this is what it leaves. -/
theorem log_write_hit {env : Env} {sb : Super} (hR : Ready env sb) (s : State)
    (addr i : Nat) (hL : LogAt env sb s) (hI : LogInv sb s) (hw : InWindow addr)
    (hp : (s.cache (blockof addr)).isSome = true ∨ Loadable env (blockof addr))
    (hi : i < log_n s) (hb : log_blockno s i = blockof addr) :
    ∃ s', log_write env s addr = .ok s' ∧ log_n s' = log_n s ∧
      (∀ k, k < sb.s_lognblocks → log_blockno s' k = log_blockno s k) ∧
      log_payload s' i = mem s (blockof addr) ∧
      (∀ k, k < sb.s_lognblocks → k ≠ i → log_payload s' k = log_payload s k) ∧
      (∀ k, k < log_n s' → (log_blockno s' k = blockof addr ↔ k = i)) := by
  have hlt := hL.bounds
  obtain ⟨hn, hd⟩ := hI
  have hwr := inWindow_rounddown hw
  have hbr : blockof (ROUNDDOWN addr BLKSIZE) = blockof addr := blockof_rounddown hw.1
  have hc : ¬ (addr < DISKMAP ∨ addr ≥ DISKMAP + DISKSIZE) := by
    simp only [InWindow, DISKMAP, DISKSIZE] at *; omega
  obtain ⟨s', hscan⟩ := log_write_scan_hit (b := blockof addr) hR hwr 4294967295 0 s hL hn
    (by rw [hbr]; exact hp) ⟨i, Nat.zero_le _, hi, hb⟩
    (by have := log_n_lt s; simp only [U32] at this; omega)
  have h : log_write env s addr = .ok s' := by
    unfold log_write
    rw [if_neg hc, blocknum_of_inWindow hwr, hbr]
    simp only []
    have hfuel : LOOP_BOUND = 4294967295 + 1 := rfl
    rw [hfuel, hscan]
  obtain ⟨_, hcase⟩ := log_write_spec hL hn h
  refine ⟨s', h, ?_⟩
  rcases hcase with ⟨j, hj1, hj2, _, f1, f2, f3, f4⟩ | ⟨hnf, _⟩
  · have hji : j = i := by
      rcases Nat.lt_trichotomy j i with hlt' | heq | hgt
      · exact absurd (hj2.trans hb.symm) (hd j i hlt' hi)
      · exact heq
      · exact absurd (hb.trans hj2.symm) (hd i j hgt hj1)
    subst hji
    refine ⟨f1, fun k hk => f2 k (by omega), f3, f4, fun k hk => ?_⟩
    rw [f1] at hk
    rw [f2 k (by omega)]
    constructor
    · intro hkb
      rcases Nat.lt_trichotomy k j with hlt' | heq | hgt
      · exact absurd (hkb.trans hb.symm) (hd k j hlt' hi)
      · exact heq
      · exact absurd (hb.trans hkb.symm) (hd j k hgt hk)
    · intro hkj; rw [hkj]; exact hb
  · exact absurd hb (hnf i hi)

/-- C7, counterexample: in the log `bigLog` of 2000 payload slots, which records the 1024
blocks 100 to 1123, block 100 is recorded at index 0. `log_write` of its address returns and
changes the recorded block number `blocknos[1023]` from 1123 to 105: payload slot 0, which
receives the bytes of block 100, begins where `blocknos[1023]` lies. -/
theorem log_write_hit_changes_blocknos :
    bigSuper.s_lognblocks = 2000 ∧ bigEnv.super = some bigSuper ∧
    bigLog.log_header = log_header_at (DISKMAP + bigSuper.s_logstart * BLKSIZE) ∧
    InWindow (DISKMAP + 100 * BLKSIZE) ∧ log_n bigLog = 1024 ∧
    log_blockno bigLog 0 = blockof (DISKMAP + 100 * BLKSIZE) ∧
    log_blockno bigLog 1023 = 1123 ∧ mem bigLog (blockof (DISKMAP + 100 * BLKSIZE)) 0 = 105 ∧
    ∃ s', log_write bigEnv bigLog (DISKMAP + 100 * BLKSIZE) = .ok s' ∧
      log_n s' = 1024 ∧ log_blockno s' 1023 = 105 := by
  refine ⟨rfl, rfl, rfl, ⟨by decide, by decide⟩, by decide, by decide, by decide, by decide, ?_⟩
  have hev : returns_with (log_write bigEnv bigLog (DISKMAP + 100 * BLKSIZE))
      (fun s' => decide (log_n s' = 1024) && decide (log_blockno s' 1023 = 105)) = true := by
    decide
  obtain ⟨s', h, hp⟩ := ok_of_eval hev
  simp only [Bool.and_eq_true, decide_eq_true_eq] at hp
  exact ⟨s', h, hp.1, hp.2⟩

/-- C7, amended. For a log laid out as `log_init` lays it out, whose region lies inside the
disk-map window and whose capacity `s_lognblocks` is below `BLKSIZE / 4`, in an environment
where the kernel and the driver report no error and the blocks of the log region exist and are
allocated. When the block of an in-window address is already recorded at index `i` of a log
that satisfies its invariant, and its page is mapped or can be loaded (the block exists and is
not marked free), `log_write` returns, leaves the count and every recorded block number
unchanged, replaces payload slot `i` by what the window now holds for the block, and leaves
every other payload slot unchanged; the block still has exactly one entry. Hence a second
`log_write` call for a block, right after a first one that returned, returns and leaves
exactly one entry for the block, whose payload is what the window holds for the block at the
second call. The same holds with a store of new content `C` into the block between the two
calls, the payload then being `C`, provided the store leaves the count and the recorded block
numbers as they are, which every store into a block other than the header block does. -/
theorem log_write_in_place {env : Env} {sb : Super} (hR : Ready env sb)
    (hsuper : env.super = some sb)
    (hfits : sb.s_logstart + sb.s_lognblocks < DISKSIZE / BLKSIZE)
    (hroom : sb.s_lognblocks < BLKSIZE / 4) :
    (∀ (s : State) (addr i : Nat),
      s.log_header = log_header_at (DISKMAP + sb.s_logstart * BLKSIZE) → LogInv sb s →
      InWindow addr →
      ((s.cache (blockof addr)).isSome = true ∨ Loadable env (blockof addr)) →
      i < log_n s → log_blockno s i = blockof addr →
      ∃ s', log_write env s addr = .ok s' ∧ log_n s' = log_n s ∧
        (∀ k, k < sb.s_lognblocks → log_blockno s' k = log_blockno s k) ∧
        log_payload s' i = mem s (blockof addr) ∧
        (∀ k, k < sb.s_lognblocks → k ≠ i → log_payload s' k = log_payload s k) ∧
        (∀ k, k < log_n s' → (log_blockno s' k = blockof addr ↔ k = i))) ∧
    (∀ (s0 s1 : State) (addr : Nat),
      s0.log_header = log_header_at (DISKMAP + sb.s_logstart * BLKSIZE) → LogInv sb s0 →
      log_write env s0 addr = .ok s1 →
      ∃ s2 i, log_write env s1 addr = .ok s2 ∧ i < log_n s2 ∧ log_n s2 = log_n s1 ∧
        log_payload s2 i = mem s1 (blockof addr) ∧
        (∀ k, k < log_n s2 → (log_blockno s2 k = blockof addr ↔ k = i))) ∧
    (∀ (s0 s1 s2 : State) (addr : Nat) (C : Block),
      s0.log_header = log_header_at (DISKMAP + sb.s_logstart * BLKSIZE) → LogInv sb s0 →
      log_write env s0 addr = .ok s1 → store_block env s1 addr C = .ok s2 →
      (blockof addr ≠ sb.s_logstart ∨
        (log_n s2 = log_n s1 ∧
          ∀ k, k < sb.s_lognblocks → log_blockno s2 k = log_blockno s1 k)) →
      ∃ s3 i, log_write env s2 addr = .ok s3 ∧ i < log_n s3 ∧ log_payload s3 i = C ∧
        (∀ k, k < log_n s3 → (log_blockno s3 k = blockof addr ↔ k = i))) := by
  refine ⟨fun s addr i hdr hI hw hp hi hb =>
    log_write_hit hR s addr i ⟨hsuper, hdr, hfits, hroom⟩ hI hw hp hi hb, ?_, ?_⟩
  · intro s0 s1 addr hdr hI0 h1
    have hL0 : LogAt env sb s0 := ⟨hsuper, hdr, hfits, hroom⟩
    obtain ⟨hw, _⟩ := log_write_inv hL0 hI0.1 h1
    obtain ⟨hL1, _⟩ := log_write_spec hL0 hI0.1 h1
    have hI1 := log_write_inv_preserved hL0 hI0 h1
    obtain ⟨i, hi1, hi2⟩ := log_write_records hL0 hI0.1 h1
    obtain ⟨s2, h2, e1, _, e3, _, e5⟩ := log_write_hit hR s1 addr i hL1 hI1 hw
      (Or.inl (log_write_stays h1).2) hi1 hi2
    exact ⟨s2, i, h2, by rw [e1]; exact hi1, e1, e3, e5⟩
  · intro s0 s1 s2 addr C hdr hI0 h1 h2 hkeep
    have hL0 : LogAt env sb s0 := ⟨hsuper, hdr, hfits, hroom⟩
    have hlt := hL0.bounds
    obtain ⟨hw, _⟩ := log_write_inv hL0 hI0.1 h1
    obtain ⟨hL1, _⟩ := log_write_spec hL0 hI0.1 h1
    have hI1 := log_write_inv_preserved hL0 hI0 h1
    obtain ⟨i, hi1, hi2⟩ := log_write_records hL0 hI0.1 h1
    obtain ⟨_, _, _, l, m, _, hmap⟩ := store_block_inv h2
    have hC : mem s2 (blockof addr) = C := by rw [m, Function.update_same]
    have hL2 : LogAt env sb s2 := hL1.of_same l
    have hk : log_n s2 = log_n s1 ∧
        ∀ k, k < sb.s_lognblocks → log_blockno s2 k = log_blockno s1 k := by
      rcases hkeep with hne | hk
      · obtain ⟨_, _, f1, f2, _⟩ := store_block_keeps_header hL1 hI1 hne h2
        exact ⟨f1, fun k hk => f2 k (by omega)⟩
      · exact hk
    obtain ⟨f1, f2⟩ := hk
    have hI2 : LogInv sb s2 := by
      refine ⟨by rw [f1]; exact hI1.1, fun a b hab hb => ?_⟩
      rw [f1] at hb
      rw [f2 a (by have := hI1.1; omega), f2 b (by have := hI1.1; omega)]
      exact hI1.2 a b hab hb
    obtain ⟨s3, h3, e1, _, e3, _, e5⟩ := log_write_hit hR s2 addr i hL2 hI2 hw
      (Or.inl hmap) (by rw [f1]; exact hi1) (by rw [f2 i (by have := hI1.1; omega)]; exact hi2)
    exact ⟨s3, i, h3, by rw [e1, f1]; exact hi1, by rw [e3, hC], e5⟩

/-- C7 at the example configuration: block 20 is written, changed and written again; and the
header block of the log (block 2) is written twice in a row. -/
theorem log_write_in_place_witness :
    (exampleEnv.super = some exampleSuper ∧
      exampleSuper.s_logstart + exampleSuper.s_lognblocks < DISKSIZE / BLKSIZE ∧
      exampleSuper.s_lognblocks < BLKSIZE / 4) ∧
    (∃ s1 s2 s3 i, log_write exampleEnv emptyLog (DISKMAP + 20 * BLKSIZE) = .ok s1 ∧
      store_block exampleEnv s1 (DISKMAP + 20 * BLKSIZE) (fun _ => 7) = .ok s2 ∧
      log_write exampleEnv s2 (DISKMAP + 20 * BLKSIZE) = .ok s3 ∧ i < log_n s3 ∧
      log_payload s3 i = (fun _ => 7) ∧
      (∀ k, k < log_n s3 → (log_blockno s3 k = blockof (DISKMAP + 20 * BLKSIZE) ↔ k = i))) ∧
    (∃ s1 s2 i, log_write exampleEnv emptyLog (DISKMAP + 2 * BLKSIZE) = .ok s1 ∧
      log_write exampleEnv s1 (DISKMAP + 2 * BLKSIZE) = .ok s2 ∧ i < log_n s2 ∧
      log_n s2 = log_n s1 ∧
      log_payload s2 i = mem s1 (blockof (DISKMAP + 2 * BLKSIZE)) ∧
      (∀ k, k < log_n s2 → (log_blockno s2 k = blockof (DISKMAP + 2 * BLKSIZE) ↔ k = i))) := by
  have hT := @log_write_in_place exampleEnv exampleSuper exampleEnv_ready rfl (by decide)
    (by decide)
  have hI := emptyLog_inv
  refine ⟨⟨rfl, by decide, by decide⟩, ?_, ?_⟩
  · have hw := inWindow_example (b := 20) (by decide)
    have hb := blockof_example (b := 20) (by decide)
    have hla : Loadable exampleEnv (blockof (DISKMAP + 20 * BLKSIZE)) := by
      rw [hb]; exact exampleEnv_loadable (by decide)
    obtain ⟨s1, h1⟩ := log_write_ok emptyLog_logAt exampleEnv_ready hI.1 hw hla
      (Or.inr (by rw [emptyLog_n]; decide))
    obtain ⟨s2, h2⟩ := store_block_ok s1 (fun _ => 7) exampleEnv_ready.reliable hw hla
    obtain ⟨s3, i, h3, e1, e2, e3⟩ :=
      hT.2.2 emptyLog s1 s2 (DISKMAP + 20 * BLKSIZE) (fun _ => 7) rfl hI h1 h2
        (Or.inl (by rw [hb]; decide))
    exact ⟨s1, s2, s3, i, h1, h2, h3, e1, e2, e3⟩
  · have hw := inWindow_example (b := 2) (by decide)
    have hb := blockof_example (b := 2) (by decide)
    have hla : Loadable exampleEnv (blockof (DISKMAP + 2 * BLKSIZE)) := by
      rw [hb]; exact exampleEnv_loadable (by decide)
    obtain ⟨s1, h1⟩ := log_write_ok emptyLog_logAt exampleEnv_ready hI.1 hw hla
      (Or.inr (by rw [emptyLog_n]; decide))
    obtain ⟨s2, i, h2, e1, e2, e3, e4⟩ :=
      hT.2.1 emptyLog s1 (DISKMAP + 2 * BLKSIZE) rfl hI h1
    exact ⟨s1, s2, i, h1, h2, e1, e2, e3, e4⟩

/-- A run of `log_write` calls on blocks that are pairwise distinct and not yet
in the log, while there is room: all return, and each block gets one entry. -/
theorem log_writes_fresh {env : Env} {sb : Super} (hR : Ready env sb) :
    ∀ (addrs : List Nat) (s : State), LogAt env sb s → LogInv sb s →
      (∀ a, a ∈ addrs → InWindow a ∧ Loadable env (blockof a)) →
      (addrs.map blockof).Nodup →
      (∀ a, a ∈ addrs → ∀ k, k < log_n s → log_blockno s k ≠ blockof a) →
      log_n s + addrs.length ≤ sb.s_lognblocks →
      ∃ s', log_writes env s addrs = .ok s' ∧ LogAt env sb s' ∧ LogInv sb s' ∧
        log_n s' = log_n s + addrs.length ∧
        (∀ k, k < log_n s → log_blockno s' k = log_blockno s k) ∧
        (∀ a, a ∈ addrs → ∃ k, k < log_n s' ∧ log_blockno s' k = blockof a) ∧
        (∀ k, log_n s ≤ k → k < log_n s' → log_blockno s' k ∈ addrs.map blockof) := by
  intro addrs
  induction addrs with
  | nil =>
    intro s hL hI _ _ _ _
    refine ⟨s, rfl, hL, hI, rfl, fun _ _ => rfl, fun a ha => ?_, fun k h1 h2 => ?_⟩
    · cases ha
    · simp only [List.length_nil, Nat.add_zero] at h2; omega
  | cons a rest ih =>
    intro s hL hI hall hnd hfresh hroom
    have hlt := hL.bounds
    simp only [List.length_cons] at hroom
    simp only [List.map_cons, List.nodup_cons] at hnd
    obtain ⟨hwa, hla⟩ := hall a (List.mem_cons_self _ _)
    obtain ⟨s1, h1⟩ := log_write_ok hL hR hI.1 hwa hla (Or.inr (by omega))
    obtain ⟨hL1, hcase⟩ := log_write_spec hL hI.1 h1
    have hI1 := log_write_inv_preserved hL hI h1
    rcases hcase with ⟨j, hj1, hj2, _⟩ | ⟨_, _, f1, f2, f3, _, _⟩
    · exact absurd hj2 (hfresh a (List.mem_cons_self _ _) j hj1)
    · obtain ⟨s', r1, r2, r3, r4, r5, r6, r7⟩ := ih s1 hL1 hI1
        (fun b hb => hall b (List.mem_cons_of_mem _ hb)) hnd.2
        (fun b hb k hk => by
          rw [f1] at hk
          by_cases hkn : k = log_n s
          · subst hkn
            rw [f2]
            intro hc
            exact hnd.1 (by rw [hc]; exact List.mem_map_of_mem blockof hb)
          · rw [f3 k (by omega) hkn]
            exact hfresh b (List.mem_cons_of_mem _ hb) k (by omega))
        (by rw [f1]; omega)
      refine ⟨s', ?_, r2, r3, ?_, ?_, ?_, ?_⟩
      · rw [log_writes, h1]
        exact r1
      · rw [r4, f1, List.length_cons]; omega
      · intro k hk
        rw [r5 k (by rw [f1]; omega), f3 k (by omega) (by omega)]
      · intro b hb
        rcases List.mem_cons.1 hb with hba | hbr
        · subst hba
          exact ⟨log_n s, by rw [r4, f1]; omega, by rw [r5 _ (by rw [f1]; omega)]; exact f2⟩
        · exact r6 b hbr
      · intro k hk1 hk2
        by_cases hkn : k = log_n s
        · subst hkn
          rw [r5 _ (by rw [f1]; omega), f2]
          exact List.mem_cons_self _ _
        · exact List.mem_cons_of_mem _ (r7 k (by rw [f1]; omega) hk2)

/-- C8. For an in-window address, `log_write` fails with the out-of-log-space
panic exactly when the block is not recorded in the log and the count has
reached the capacity. Hence, from an empty log, writes of as many pairwise
distinct blocks as the capacity all return; after them a write of any further
block fails with that panic, and a write of any of the recorded blocks still
returns. -/
theorem log_write_capacity {env : Env} {sb : Super} (hR : Ready env sb) :
    (∀ (s : State) (addr : Nat), LogAt env sb s → log_n s ≤ sb.s_lognblocks → InWindow addr →
      (log_write env s addr = .error Fault.out_of_log_space ↔
        (∀ k, k < log_n s → log_blockno s k ≠ blockof addr) ∧ sb.s_lognblocks ≤ log_n s)) ∧
    (∀ (s : State) (addrs : List Nat), LogAt env sb s → log_n s = 0 →
      (∀ a, a ∈ addrs → InWindow a ∧ Loadable env (blockof a)) →
      (addrs.map blockof).Nodup → addrs.length = sb.s_lognblocks →
      ∃ s', log_writes env s addrs = .ok s' ∧ log_n s' = sb.s_lognblocks ∧
        (∀ a, InWindow a → blockof a ∉ addrs.map blockof →
          log_write env s' a = .error Fault.out_of_log_space) ∧
        (∀ a, a ∈ addrs → ∃ s'', log_write env s' a = .ok s'')) := by
  constructor
  · intro s addr hL hn hw
    exact ⟨fun h => log_write_full_inv hL hn h,
      fun h => log_write_full hL hR hn hw h.1 h.2⟩
  · intro s addrs hL h0 hall hnd hlen
    obtain ⟨s', r1, r2, r3, r4, _, r6, r7⟩ := log_writes_fresh hR addrs s hL
      (logInv_of_empty sb h0) hall hnd
      (fun a _ k hk => by rw [h0] at hk; exact absurd hk (Nat.not_lt_zero _))
      (by rw [h0, hlen]; omega)
    rw [h0, Nat.zero_add, hlen] at r4
    refine ⟨s', r1, r4, fun a hw hnew => ?_, fun a ha => ?_⟩
    · refine log_write_full r2 hR r3.1 hw (fun k hk hc => ?_) (by rw [r4])
      exact hnew (by rw [← hc]; exact r7 k (by rw [h0]; exact Nat.zero_le _) hk)
    · obtain ⟨hwa, hla⟩ := hall a ha
      exact log_write_ok r2 hR r3.1 hwa hla (Or.inl (r6 a ha))

theorem sixteenAddrs_ok :
    ∀ a, a ∈ sixteenAddrs → InWindow a ∧ Loadable exampleEnv (blockof a) := by
  have h : ∀ a, a ∈ sixteenAddrs →
      (DISKMAP ≤ a ∧ a < DISKMAP + DISKSIZE) ∧
        (beyond_super exampleEnv (blockof a) = false ∧
          bitmap_marks_free exampleEnv (blockof a) = false) := by
    decide
  exact h

/-- C8 at the example configuration: the sixteen slots are filled with the
blocks 20 to 35; then block 36 is refused and block 20 is accepted. -/
theorem log_write_capacity_witness :
    ∃ s', log_writes exampleEnv emptyLog sixteenAddrs = .ok s' ∧
      log_n s' = exampleSuper.s_lognblocks ∧
      log_write exampleEnv s' (DISKMAP + 36 * BLKSIZE) = .error Fault.out_of_log_space ∧
      (∃ s'', log_write exampleEnv s' (DISKMAP + 20 * BLKSIZE) = .ok s'') ∧
      (log_write exampleEnv emptyLog (DISKMAP + 20 * BLKSIZE) = .error Fault.out_of_log_space ↔
        (∀ k, k < log_n emptyLog → log_blockno emptyLog k ≠ blockof (DISKMAP + 20 * BLKSIZE)) ∧
          exampleSuper.s_lognblocks ≤ log_n emptyLog) := by
  obtain ⟨s', h1, h2, h3, h4⟩ := (log_write_capacity exampleEnv_ready).2 emptyLog sixteenAddrs
    emptyLog_logAt emptyLog_n sixteenAddrs_ok (by decide) (by decide)
  exact ⟨s', h1, h2, h3 _ (inWindow_example (b := 36) (by decide)) (by decide),
    h4 _ (by decide),
    (log_write_capacity exampleEnv_ready).1 emptyLog _ emptyLog_logAt
      (by rw [emptyLog_n]; decide) (inWindow_example (b := 20) (by decide))⟩

/-! ## The block cache round trip -/

theorem page_remap_isSome (s : State) (b c : Nat) :
    ((page_remap s b).cache c).isSome = (s.cache c).isSome := by
  unfold page_remap
  cases hb : s.cache b with
  | none => rfl
  | some sl =>
    by_cases hc : c = b
    · subst hc; simp [hb]
    · simp [Function.update_noteq hc]

theorem flush_block_mapped {env : Env} {s s' : State} {addr : Nat}
    (h : flush_block env s addr = .ok s') (c : Nat) :
    (s'.cache c).isSome = (s.cache c).isSome := by
  unfold flush_block at h
  split at h
  · cases h
  · split at h
    · cases h
    · split at h
      · cases h; rfl
      · split at h
        · cases h
        · split at h
          · cases h
          · cases h
            rw [page_remap_isSome]
            rfl

theorem va_is_dirty_eq (s : State) (va : Nat) : va_is_dirty s va = dirtyMapped s (blockof va) := by
  unfold va_is_dirty dirtyMapped
  rfl

theorem page_unmap_cache (s : State) (b : Nat) : (page_unmap s b).cache b = none := by
  unfold page_unmap
  exact Function.update_same _ _ _

theorem page_unmap_disk (s : State) (b : Nat) : (page_unmap s b).disk = s.disk := by
  unfold page_unmap; rfl

theorem touch_unmapped {env : Env} {s : State} {va : Nat} (h : s.cache (blockof va) = none) :
    touch env s va = bc_pgfault env s va := by
  unfold touch
  have : va_is_mapped s va = false := by
    cases hv : va_is_mapped s va with
    | false => rfl
    | true =>
      have := ((va_is_mapped_iff s va).1 hv).2
      rw [h] at this
      cases this
  rw [this]
  rfl

theorem bc_pgfault_ok {env : Env} (s : State) {va : Nat} (hr : Reliable env) (hw : InWindow va)
    (hl : Loadable env (blockof va)) :
    bc_pgfault env s va
      = .ok { s with cache := Function.update s.cache (blockof va)
                      (some { bytes := s.disk (blockof va), dirty := false, accessed := false }) } := by
  have hex : ∃ s', bc_pgfault env s va = .ok s' := by
    unfold bc_pgfault
    rw [blocknum_of_inWindow hw]
    have hc : ¬ (va < DISKMAP ∨ va ≥ DISKMAP + DISKSIZE) := by
      simp only [InWindow, DISKMAP, DISKSIZE] at *; omega
    have h1 := hr.page_alloc (ROUNDDOWN va PGSIZE)
    have h2 := hr.ide_read (u32 (blockof va * BLKSECTS))
    have h3 := hr.page_map (ROUNDDOWN va PGSIZE)
    simp only [hc, hl.1, hl.2, if_false, not_lt.mpr h1, not_lt.mpr h2, not_lt.mpr h3]
    exact ⟨_, rfl⟩
  obtain ⟨s', h⟩ := hex
  rw [h, (bc_pgfault_inv h).2.2]

theorem diskaddr_blockof_le {env : Env} {b addr : Nat} (h : diskaddr env b = .ok addr) :
    blockof addr ≤ b := by
  obtain ⟨_, _, ha⟩ := diskaddr_inv h
  rw [ha]
  simp only [blockof, u32, U32, DISKMAP, BLKSIZE, PGSIZE]
  omega

theorem beyond_super_mono {env : Env} {b c : Nat} (h : beyond_super env b = false)
    (hc : c ≤ b) : beyond_super env c = false := by
  unfold beyond_super at *
  cases hs : env.super with
  | none => rfl
  | some sb =>
    rw [hs] at h
    simp only [decide_eq_false_iff_not, ge_iff_le, not_le] at *
    omega

/-- C10. The round trip of `check_bc`, for any block number that `diskaddr`
accepts with an address inside the window: after content `C` is stored into
the block's cache slot and `flush_block` is called on the address, the slot is
still mapped and not dirty; after `sys_page_unmap` it is not mapped; and the
next access, which `bc_pgfault` serves, finds the slot holding exactly `C`. -/
theorem flush_round_trip {env : Env} (hr : Reliable env) (s : State) (b addr : Nat) (C : Block)
    (hd : diskaddr env b = .ok addr) (hw : InWindow addr)
    (hfree : bitmap_marks_free env (blockof addr) = false) :
    ∃ s1 s2 s3, store_block env s addr C = .ok s1 ∧ flush_block env s1 addr = .ok s2 ∧
      va_is_mapped s2 addr = true ∧ va_is_dirty s2 addr = false ∧
      va_is_mapped (page_unmap s2 (blockof addr)) addr = false ∧
      touch env (page_unmap s2 (blockof addr)) addr = .ok s3 ∧
      bc_pgfault env (page_unmap s2 (blockof addr)) addr = .ok s3 ∧
      s3.cache (blockof addr) = some { bytes := C, dirty := false, accessed := false } := by
  have hl : Loadable env (blockof addr) :=
    ⟨beyond_super_mono (diskaddr_inv hd).2.1 (diskaddr_blockof_le hd), hfree⟩
  obtain ⟨s1, h1⟩ := store_block_ok s C hr hw hl
  obtain ⟨_, _, _, _, m1, q1, i1⟩ := store_block_inv h1
  obtain ⟨s2, h2⟩ := flush_block_ok s1 hr hw
  obtain ⟨_, m2, _, q2, d2, _⟩ := flush_block_inv h2
  have hq1 : dirtyMapped s1 (blockof addr) = true := by rw [q1, Function.update_same]
  have hm1 : mem s1 (blockof addr) = C := by rw [m1, Function.update_same]
  rw [hq1, hm1] at d2
  simp only [if_true] at d2
  have hnone := page_unmap_cache s2 (blockof addr)
  have hpf := bc_pgfault_ok (page_unmap s2 (blockof addr)) hr hw hl
  have hdisk : (page_unmap s2 (blockof addr)).disk (blockof addr) = C := by
    rw [page_unmap_disk, d2, Function.update_same]
  rw [hdisk] at hpf
  refine ⟨s1, s2, _, h1, h2, ?_, ?_, ?_, ?_, hpf, ?_⟩
  · rw [va_is_mapped_iff]
    exact ⟨hw, by rw [flush_block_mapped h2]; exact i1⟩
  · rw [va_is_dirty_eq, q2, Function.update_same]
  · cases hv : va_is_mapped (page_unmap s2 (blockof addr)) addr with
    | false => rfl
    | true =>
      have := ((va_is_mapped_iff _ _).1 hv).2
      rw [hnone] at this
      cases this
  · rw [touch_unmapped hnone]
    exact hpf
  · exact Function.update_same _ _ _

/-- C10 at `check_bc` itself: block 1, while `super` is still `NULL`. -/
theorem flush_round_trip_witness :
    ∃ s1 s2 s3, store_block bootEnv emptyLog (DISKMAP + 1 * BLKSIZE) (fun _ => 79) = .ok s1 ∧
      flush_block bootEnv s1 (DISKMAP + 1 * BLKSIZE) = .ok s2 ∧
      va_is_mapped s2 (DISKMAP + 1 * BLKSIZE) = true ∧
      va_is_dirty s2 (DISKMAP + 1 * BLKSIZE) = false ∧
      va_is_mapped (page_unmap s2 (blockof (DISKMAP + 1 * BLKSIZE))) (DISKMAP + 1 * BLKSIZE)
        = false ∧
      touch bootEnv (page_unmap s2 (blockof (DISKMAP + 1 * BLKSIZE))) (DISKMAP + 1 * BLKSIZE)
        = .ok s3 ∧
      bc_pgfault bootEnv (page_unmap s2 (blockof (DISKMAP + 1 * BLKSIZE)))
        (DISKMAP + 1 * BLKSIZE) = .ok s3 ∧
      s3.cache (blockof (DISKMAP + 1 * BLKSIZE))
        = some { bytes := fun _ => 79, dirty := false, accessed := false } :=
  flush_round_trip
    ⟨fun _ => le_refl _, fun _ => le_refl _, fun _ => le_refl _, fun _ => le_refl _⟩
    emptyLog 1 (DISKMAP + 1 * BLKSIZE) (fun _ => 79) rfl
    (inWindow_example (b := 1) (by decide)) rfl

/-! ## The round trip of the log -/

theorem diskaddr_run {env : Env} {sb : Super} (hs : env.super = some sb) (hR : Ready env sb)
    {b : Nat} (h0 : 0 < b) (hb : b < sb.s_nblocks) :
    diskaddr env b = .ok (DISKMAP + b * BLKSIZE) ∧ InWindow (DISKMAP + b * BLKSIZE) ∧
      blockof (DISKMAP + b * BLKSIZE) = b ∧ beyond_super env b = false := by
  have hwin := hR.window
  simp only [DISKSIZE, BLKSIZE, PGSIZE] at hwin
  have hbs : beyond_super env b = false := by
    rw [beyond_super_eq hs]
    simp only [decide_eq_false_iff_not, ge_iff_le, not_le]
    exact hb
  obtain ⟨a1, a2, a3, _⟩ := addr_block b (by omega)
  rw [a3] at a1 a2
  refine ⟨?_, a1, a2, hbs⟩
  rw [diskaddr_ok h0 hbs, a3]

/-- C1, as amended. For every block number `b` that `diskaddr` accepts, that
is allocated and is not the header block of the log, starting from an empty
log with at least one slot: `log_write(diskaddr(b))`, `log_commit()`, unmapping
the slot of `b` and loading it again through `bc_pgfault` all succeed, and the
slot then holds exactly the content the window held for `b` at the start. -/
theorem log_round_trip_ok {env : Env} {sb : Super} (hR : Ready env sb) (s : State) (b : Nat)
    (hL : LogAt env sb s) (h0 : log_n s = 0) (hcap : 0 < sb.s_lognblocks)
    (hpos : 0 < b) (hb : b < sb.s_nblocks) (hfree : bitmap_marks_free env b = false)
    (hne : b ≠ sb.s_logstart) :
    ∃ s3, log_round_trip env s b = .ok s3 ∧
      s3.cache b = some { bytes := mem s b, dirty := false, accessed := false } := by
  have hlt := hL.bounds
  obtain ⟨hda, hw, hbo, hbs⟩ := diskaddr_run hL.super_eq hR hpos hb
  have hld : Loadable env b := ⟨hbs, hfree⟩
  have hn : log_n s ≤ sb.s_lognblocks := by rw [h0]; omega
  obtain ⟨s1, h1⟩ := log_write_ok hL hR hn hw (by rw [hbo]; exact hld)
    (Or.inr (by rw [h0]; exact hcap))
  obtain ⟨_, _, _, _, hcase⟩ := log_write_inv hL hn h1
  obtain ⟨hL1, hspec⟩ := log_write_spec hL hn h1
  rw [hbo] at hcase hspec
  have hfacts : log_n s1 = 1 ∧ log_blockno s1 0 = b ∧ mem s1 (sb.s_logstart + 1 + 0) = mem s b := by
    rcases hspec with ⟨j, hj, _⟩ | ⟨_, _, f1, f2, _, _, _⟩
    · rw [h0] at hj; omega
    · rcases hcase with ⟨j, hj, _⟩ | ⟨_, _, _, m2, _, _⟩
      · rw [h0] at hj; omega
      · rw [h0] at f1 f2 m2
        rw [if_neg hne] at m2
        exact ⟨f1, f2, m2⟩
  obtain ⟨g1, g2, g3⟩ := hfacts
  have hH : Homes env sb (log_n s1) (log_blockno s1) := by
    rw [g1]
    refine ⟨fun j hj => ?_, fun j hj => ?_, fun j k hjk hk => by omega, fun j hj => ?_,
      fun j k hjk hk => by omega⟩
    · have : j = 0 := by omega
      rw [this, g2]; exact hpos
    · have : j = 0 := by omega
      rw [this, g2]; exact hld
    · have : j = 0 := by omega
      rw [this, g2]; exact hne
  obtain ⟨_, s2, _, h2, _, _, _, homes, _⟩ := log_commit_run hR s1 hL1 (by rw [g1]; omega) hH
  have hd2 : s2.disk b = mem s b := by
    have := (homes 0 (by rw [g1]; omega)).2
    rw [g2, g3] at this
    exact this
  have hpf := bc_pgfault_ok (page_unmap s2 b) hR.reliable hw (by rw [hbo]; exact hld)
  rw [hbo, page_unmap_disk, hd2] at hpf
  obtain ⟨s3, h3, hc3⟩ : ∃ s3, bc_pgfault env (page_unmap s2 b) (DISKMAP + b * BLKSIZE) = .ok s3 ∧
      s3.cache b = some { bytes := mem s b, dirty := false, accessed := false } :=
    ⟨_, hpf, Function.update_same _ _ _⟩
  refine ⟨s3, ?_, hc3⟩
  unfold log_round_trip
  rw [hda]
  simp only []
  rw [h1]
  simp only []
  rw [h2]
  simp only []
  rw [hbo]
  exact h3

/-- C1 as amended, at the example configuration and block 20. -/
theorem log_round_trip_ok_witness :
    ∃ s3, log_round_trip exampleEnv emptyLog 20 = .ok s3 ∧
      s3.cache 20 = some { bytes := mem emptyLog 20, dirty := false, accessed := false } :=
  log_round_trip_ok exampleEnv_ready emptyLog 20 emptyLog_logAt emptyLog_n (by decide)
    (by decide) (by decide) rfl (by decide)

/-- C1 fails for the header block of the log. In the example configuration,
with an empty log whose header block 2 is mapped and holds zeros, the round
trip of block 2 succeeds and leaves the slot with word 1 equal to 2: the
block number that `log_write` recorded in the header has been committed to it. -/
theorem log_round_trip_header :
    mem emptyLogCached 2 1 = 0 ∧ log_n emptyLogCached = 0 ∧
      diskaddr exampleEnv 2 = .ok (DISKMAP + 2 * BLKSIZE) ∧
      ∃ s3, log_round_trip exampleEnv emptyLogCached 2 = .ok s3 ∧ mem s3 2 1 = 2 := by
  refine ⟨by decide, by decide, rfl, ?_⟩
  have h : (match log_round_trip exampleEnv emptyLogCached 2 with
      | .ok s3 => mem s3 2 1
      | .error _ => 0) = 2 := by decide
  cases hr : log_round_trip exampleEnv emptyLogCached 2 with
  | error e => rw [hr] at h; cases h
  | ok s3 => rw [hr] at h; exact ⟨s3, rfl, h⟩

/-! ## Mounting the log, and writes by the file system -/

theorem logAt_intro {env : Env} {sb : Super} (hs : env.super = some sb) (hR : Ready env sb)
    (hroom : sb.s_lognblocks < BLKSIZE / 4) {s : State}
    (hdr : s.log_header = log_header_at (DISKMAP + sb.s_logstart * BLKSIZE)) :
    LogAt env sb s := by
  refine ⟨hs, hdr, ?_, hroom⟩
  have h1 := hR.region
  have h2 := hR.window
  omega

/-- What `log_init` does: it sets the log pointers, reads the count, and
commits if the count is not zero. -/
theorem log_init_run {env : Env} {sb : Super} (hs : env.super = some sb) (hR : Ready env sb)
    (hroom : sb.s_lognblocks < BLKSIZE / 4) (s : State) :
    LogAt env sb { s with log_header := log_header_at (DISKMAP + sb.s_logstart * BLKSIZE) } ∧
    ∃ s1, Same { s with log_header := log_header_at (DISKMAP + sb.s_logstart * BLKSIZE) } s1 ∧
      log_init env s
        = (if log_n { s with log_header := log_header_at (DISKMAP + sb.s_logstart * BLKSIZE) } > 0
            then log_commit env s1 else .ok s1) := by
  have hL : LogAt env sb
      { s with log_header := log_header_at (DISKMAP + sb.s_logstart * BLKSIZE) } :=
    logAt_intro hs hR hroom rfl
  refine ⟨hL, ?_⟩
  obtain ⟨s1, h1, hs1⟩ := load_pnblocks_ok _ hL hR
  refine ⟨s1, hs1, ?_⟩
  have hreg := hR.region
  obtain ⟨hda, _, _, _⟩ := diskaddr_run hs hR hR.logstart_pos (show sb.s_logstart < sb.s_nblocks by omega)
  unfold log_init
  rw [deref_super_eq hs]
  simp only []
  rw [hda]
  simp only []
  have h1' : load32 env { s with log_header := log_header_at (DISKMAP + sb.s_logstart * BLKSIZE) }
      (DISKMAP + sb.s_logstart * BLKSIZE)
      = .ok (log_n { s with log_header := log_header_at (DISKMAP + sb.s_logstart * BLKSIZE) }, s1) := h1
  rw [h1']

theorem mem_with_log_header (s : State) (lh : LogHeader) :
    mem { s with log_header := lh } = mem s := rfl

/-- A write by the file system to a block that is not the header block: either
the block was in the log, at index `j`, and its payload slot now holds the new
content, or it was appended. -/
theorem fs_write_run {env : Env} {sb : Super} (hR : Ready env sb) (s : State) (b : Nat)
    (blk : Block) (hL : LogAt env sb s) (hI : LogInv sb s)
    (hpos : 0 < b) (hb : b < sb.s_nblocks) (hfree : bitmap_marks_free env b = false)
    (hne : b ≠ sb.s_logstart)
    (hroom : (∃ k, k < log_n s ∧ log_blockno s k = b) ∨ log_n s < sb.s_lognblocks) :
    ∃ s', fs_write env s b blk = .ok s' ∧ LogAt env sb s' ∧ LogInv sb s' ∧
      s'.disk = s.disk ∧ s'.ide_writes = s.ide_writes ∧
      ((∃ j, j < log_n s ∧ log_blockno s j = b ∧ log_n s' = log_n s ∧
          (∀ i, i < 1023 → log_blockno s' i = log_blockno s i) ∧
          mem s' (sb.s_logstart + 1 + j) = blk ∧
          (∀ c, c ≠ sb.s_logstart + 1 + j → c ≠ b → mem s' c = mem s c)) ∨
       ((∀ k, k < log_n s → log_blockno s k ≠ b) ∧ log_n s' = log_n s + 1 ∧
          log_blockno s' (log_n s) = b ∧
          (∀ i, i < 1023 → i ≠ log_n s → log_blockno s' i = log_blockno s i) ∧
          mem s' (sb.s_logstart + 1 + log_n s) = blk ∧
          (∀ c, c ≠ sb.s_logstart → c ≠ sb.s_logstart + 1 + log_n s → c ≠ b →
            mem s' c = mem s c))) := by
  have hlt := hL.bounds
  obtain ⟨hda, hw, hbo, hbs⟩ := diskaddr_run hL.super_eq hR hpos hb
  have hld : Loadable env (blockof (DISKMAP + b * BLKSIZE)) := by rw [hbo]; exact ⟨hbs, hfree⟩
  obtain ⟨s1, h1⟩ := store_block_ok s blk hR.reliable hw hld
  obtain ⟨_, d1, w1, _, m1, _, _⟩ := store_block_inv h1
  obtain ⟨hL1, hI1, f1, f2, hC⟩ := store_block_keeps_header hL hI (by rw [hbo]; exact hne) h1
  rw [hbo] at m1 hC
  have hroom1 : (∃ k, k < log_n s1 ∧ log_blockno s1 k = blockof (DISKMAP + b * BLKSIZE))
      ∨ log_n s1 < sb.s_lognblocks := by
    rw [f1, hbo]
    rcases hroom with ⟨k, hk1, hk2⟩ | h
    · exact Or.inl ⟨k, hk1, by rw [f2 k (by have := hI.1; omega)]; exact hk2⟩
    · exact Or.inr h
  obtain ⟨s2, h2⟩ := log_write_ok hL1 hR hI1.1 hw hld hroom1
  obtain ⟨_, d2, w2, _, hcase⟩ := log_write_inv hL1 hI1.1 h2
  obtain ⟨hL2, hspec⟩ := log_write_spec hL1 hI1.1 h2
  have hI2 := log_write_inv_preserved hL1 hI1 h2
  rw [hbo] at hcase hspec
  rw [f1] at hcase hspec
  refine ⟨s2, ?_, hL2, hI2, by rw [d2, d1], by rw [w2, w1], ?_⟩
  · unfold fs_write
    rw [hda]
    simp only []
    rw [h1]
    exact h2
  · rcases hspec with ⟨j, hj1, hj2, _, g1, g2, _, _⟩ | ⟨hnf, _, g1, g2, g3, _, _⟩
    · left
      rcases hcase with ⟨j', hj1', hj2', hj3', m2, _⟩ | ⟨hnf', _⟩
      · refine ⟨j', hj1', by rw [← f2 j' (by have := hI.1; omega)]; exact hj2', g1,
          fun i hi => by rw [g2 i hi, f2 i hi], ?_, ?_⟩
        · rw [m2, Function.update_same, hC]
        · intro c hc1 hc2
          rw [m2, Function.update_noteq hc1, m1, Function.update_noteq hc2]
      · exact absurd hj2 (hnf' j hj1)
    · right
      rcases hcase with ⟨j', hj1', hj2', _⟩ | ⟨_, _, _, m2, m3, _⟩
      · exact absurd hj2' (hnf j' hj1')
      · refine ⟨fun k hk => by rw [← f2 k (by have := hI.1; omega)]; exact hnf k hk, g1, g2,
          fun i hi hin => by rw [g3 i hi hin, f2 i hi], ?_, ?_⟩
        · rw [m2, if_neg hne, hC]
        · intro c hc1 hc2 hc3
          rw [m3 c hc1 hc2, m1, Function.update_noteq hc3]

theorem LogAt.same {env : Env} {sb : Super} {s s' : State} (h : LogAt env sb s)
    (hs : Same s s') : LogAt env sb s' := h.of_same hs.hlog

/-- C9. With a super block reporting 1024 blocks, log start block 2 and 16
payload slots, and a log whose header count is zero: `log_init`, then the
writes of block 5 with `A`, block 7 with `B`, block 5 with `C`, then
`log_commit` all return; afterwards the header count is zero, device block 5
holds `C` and device block 7 holds `B`; and just before the commit the log
held two entries, of which exactly the first was for block 5. -/
theorem end_to_end_scenario {env : Env} (hs : env.super = some exampleSuper)
    (hR : Ready env exampleSuper) (s : State) (A B C : Block) (h0 : u32 (mem s 2 0) = 0) :
    ∃ s3 s4, end_to_end env s A B C = .ok (s3, s4) ∧
      log_n s4 = 0 ∧ s4.disk 2 0 = 0 ∧ s4.disk 5 = C ∧ s4.disk 7 = B ∧
      log_n s3 = 2 ∧ (∀ k, k < log_n s3 → (log_blockno s3 k = 5 ↔ k = 0)) := by
  have hfree : ∀ b, 2 ≤ b → b ≤ 18 → bitmap_marks_free env b = false :=
    fun b h1 h2 => hR.allocated b h1 h2
  obtain ⟨hLh, s0, hs0, hinit⟩ := log_init_run hs hR (by decide) s
  have hnh : log_n { s with log_header := log_header_at (DISKMAP + exampleSuper.s_logstart * BLKSIZE) }
      = 0 := by
    rw [log_n_eq hLh, mem_with_log_header]
    exact h0
  rw [hnh, if_neg (by decide)] at hinit
  have hL0 : LogAt env exampleSuper s0 := hLh.same hs0
  have hn0 : log_n s0 = 0 := by rw [hs0.log_n]; exact hnh
  have hI0 := logInv_of_empty exampleSuper hn0
  -- first write: block 5 with A
  obtain ⟨s1, w1, hL1, hI1, _, _, c1⟩ := fs_write_run hR s0 5 A hL0 hI0 (by decide) (by decide)
    (hfree 5 (by decide) (by decide)) (by decide) (Or.inr (by rw [hn0]; decide))
  have e1 : log_n s1 = 1 ∧ log_blockno s1 0 = 5 := by
    rcases c1 with ⟨j, hj, _⟩ | ⟨_, g1, g2, _⟩
    · rw [hn0] at hj; omega
    · rw [hn0] at g1 g2; exact ⟨g1, g2⟩
  -- second write: block 7 with B
  obtain ⟨s2, w2, hL2, hI2, _, _, c2⟩ := fs_write_run hR s1 7 B hL1 hI1 (by decide) (by decide)
    (hfree 7 (by decide) (by decide)) (by decide) (Or.inr (by rw [e1.1]; decide))
  have e2 : log_n s2 = 2 ∧ log_blockno s2 0 = 5 ∧ log_blockno s2 1 = 7 ∧ mem s2 4 = B := by
    rcases c2 with ⟨j, hj1, hj2, _⟩ | ⟨_, g1, g2, g3, g4, _⟩
    · rw [e1.1] at hj1
      have : j = 0 := by omega
      rw [this, e1.2] at hj2
      cases hj2
    · rw [e1.1] at g1 g2 g3 g4
      exact ⟨g1, by rw [g3 0 (by decide) (by decide)]; exact e1.2, g2, g4⟩
  -- third write: block 5 with C
  obtain ⟨s3, w3, hL3, hI3, _, _, c3⟩ := fs_write_run hR s2 5 C hL2 hI2 (by decide) (by decide)
    (hfree 5 (by decide) (by decide)) (by decide) (Or.inl ⟨0, by rw [e2.1]; decide, e2.2.1⟩)
  have e3 : log_n s3 = 2 ∧ log_blockno s3 0 = 5 ∧ log_blockno s3 1 = 7 ∧ mem s3 3 = C ∧
      mem s3 4 = B := by
    rcases c3 with ⟨j, hj1, hj2, g1, g2, g3, g4⟩ | ⟨hnf, _⟩
    · rw [e2.1] at hj1
      have hj : j = 0 := by
        rcases Nat.lt_or_ge j 1 with h | h
        · omega
        · have : j = 1 := by omega
          rw [this, e2.2.2.1] at hj2
          cases hj2
      subst hj
      refine ⟨by rw [g1]; exact e2.1, by rw [g2 0 (by decide)]; exact e2.2.1,
        by rw [g2 1 (by decide)]; exact e2.2.2.1, g3, ?_⟩
      rw [g4 4 (by decide) (by decide)]
      exact e2.2.2.2
    · exact absurd e2.2.1 (hnf 0 (by rw [e2.1]; decide))
  obtain ⟨n3, b0, b1, m3, m4⟩ := e3
  -- commit
  have hH : Homes env exampleSuper (log_n s3) (log_blockno s3) := by
    rw [n3]
    have hcases : ∀ j, j < 2 → j = 0 ∨ j = 1 := fun j hj => by omega
    have hld : ∀ b, 2 ≤ b → b ≤ 18 → Loadable env b := fun b h1 h2 =>
      hR.loadable hs h1 h2
    refine ⟨fun j hj => ?_, fun j hj => ?_, fun j k hjk hk => ?_, fun j hj => ?_,
      fun j k hjk hk => ?_⟩
    · rcases hcases j hj with h | h <;> subst h
      · rw [b0]; decide
      · rw [b1]; decide
    · rcases hcases j hj with h | h <;> subst h
      · rw [b0]; exact hld 5 (by decide) (by decide)
      · rw [b1]; exact hld 7 (by decide) (by decide)
    · have hj : j = 0 := by omega
      have hk' : k = 1 := by omega
      rw [hj, hk', b0, b1]; decide
    · rcases hcases j hj with h | h <;> subst h
      · rw [b0]; decide
      · rw [b1]; decide
    · have hj : j = 0 := by omega
      have hk' : k = 1 := by omega
      rw [hj, hk', b0]; decide
  obtain ⟨_, s4, _, h4, _, _, dL, homes, _⟩ := log_commit_run hR s3 hL3
    (by rw [n3]; decide) hH
  have d5 := (homes 0 (by rw [n3]; decide)).2
  have d7 := (homes 1 (by rw [n3]; decide)).2
  rw [b0] at d5
  rw [b1] at d7
  have d2 : s4.disk 2 0 = 0 := by
    have : s4.disk exampleSuper.s_logstart 0 = 0 := by rw [dL, Function.update_same]
    exact this
  refine ⟨s3, s4, ?_, log_commit_resets h4, d2, by rw [d5]; exact m3, by rw [d7]; exact m4,
    n3, ?_⟩
  · unfold end_to_end
    rw [hinit]
    simp only []
    rw [w1]
    simp only []
    rw [w2]
    simp only []
    rw [w3]
    simp only []
    rw [h4]
  · intro k hk
    rw [n3] at hk
    rcases (show k = 0 ∨ k = 1 by omega) with h | h <;> subst h
    · exact ⟨fun _ => rfl, fun _ => b0⟩
    · rw [b1]
      exact ⟨(fun h => by cases h), (fun h => by cases h)⟩

/-- C9 at the zeroed example device, with blocks of 65, 66 and 67 for `A`, `B` and `C`. -/
theorem end_to_end_scenario_witness :
    ∃ s3 s4, end_to_end exampleEnv emptyLog (fun _ => 65) (fun _ => 66) (fun _ => 67)
        = .ok (s3, s4) ∧
      log_n s4 = 0 ∧ s4.disk 2 0 = 0 ∧ s4.disk 5 = (fun _ => 67) ∧ s4.disk 7 = (fun _ => 66) ∧
      log_n s3 = 2 ∧ (∀ k, k < log_n s3 → (log_blockno s3 k = 5 ↔ k = 0)) :=
  end_to_end_scenario rfl exampleEnv_ready emptyLog _ _ _ (by decide)

/-! ## The device as the replay of its writes -/

theorem replay_not_mem (b : Nat) :
    ∀ (ws : List (Nat × Block)) (d : Nat → Block), (∀ w, w ∈ ws → w.1 ≠ b) →
      replay ws d b = d b := by
  intro ws
  induction ws with
  | nil => intro d _; rfl
  | cons w ws ih =>
    intro d h
    rw [replay_cons, ih _ (fun w' hw' => h w' (List.mem_cons_of_mem _ hw'))]
    exact Function.update_noteq (fun hc => h w (List.mem_cons_self _ _) hc.symm) _ _

theorem mem_payload_writes {d : Nat → Bool} {m : Nat → Block} {L : Nat} {w : Nat × Block} :
    ∀ (len i : Nat), w ∈ payload_writes d m L i len →
      ∃ j, i ≤ j ∧ j < i + len ∧ w = (L + 1 + j, m (L + 1 + j)) ∧ d (L + 1 + j) = true := by
  intro len
  induction len with
  | zero => intro i h; cases h
  | succ len ih =>
    intro i h
    unfold payload_writes at h
    rcases List.mem_append.1 h with h1 | h2
    · by_cases hd : d (L + 1 + i) = true
      · rw [if_pos hd] at h1
        exact ⟨i, le_refl _, by omega, List.mem_singleton.1 h1, hd⟩
      · rw [if_neg hd] at h1
        cases h1
    · obtain ⟨j, hj1, hj2, hj3, hj4⟩ := ih (i + 1) h2
      exact ⟨j, by omega, by omega, hj3, hj4⟩

theorem mem_home_writes {h : Nat → Nat} {m : Nat → Block} {L : Nat} {w : Nat × Block} :
    ∀ (len i : Nat), w ∈ home_writes h m L i len →
      ∃ j, i ≤ j ∧ j < i + len ∧ w = (h j, m (L + 1 + j)) := by
  intro len
  induction len with
  | zero => intro i hw; cases hw
  | succ len ih =>
    intro i hw
    unfold home_writes at hw
    rcases List.mem_cons.1 hw with h1 | h2
    · exact ⟨i, le_refl _, by omega, h1⟩
    · obtain ⟨j, hj1, hj2, hj3⟩ := ih (i + 1) h2
      exact ⟨j, by omega, by omega, hj3⟩

theorem home_writes_length (h : Nat → Nat) (m : Nat → Block) (L : Nat) :
    ∀ (len i : Nat), (home_writes h m L i len).length = len := by
  intro len
  induction len with
  | zero => intro i; rfl
  | succ len ih => intro i; unfold home_writes; rw [List.length_cons, ih]

theorem home_writes_take (h : Nat → Nat) (m : Nat → Block) (L : Nat) :
    ∀ (len k i : Nat), k ≤ len → (home_writes h m L i len).take k = home_writes h m L i k := by
  intro len
  induction len with
  | zero =>
    intro k i hk
    have : k = 0 := by omega
    subst this
    rfl
  | succ len ih =>
    intro k i hk
    cases k with
    | zero => rfl
    | succ k =>
      unfold home_writes
      rw [List.take_succ_cons, ih k (i + 1) (by omega)]

/-- The device after the copy loop has written the homes `i, ..., i + len - 1`. -/
theorem replay_home_writes {h : Nat → Nat} {m : Nat → Block} {L : Nat} :
    ∀ (len i : Nat) (d : Nat → Block),
      (∀ j k, i ≤ j → j < k → k < i + len → h j ≠ h k) →
      (∀ j, i ≤ j → j < i + len → replay (home_writes h m L i len) d (h j) = m (L + 1 + j)) ∧
      (∀ b, (∀ j, i ≤ j → j < i + len → h j ≠ b) → replay (home_writes h m L i len) d b = d b) := by
  intro len
  induction len with
  | zero =>
    intro i d _
    exact ⟨fun j h1 h2 => by omega, fun b _ => rfl⟩
  | succ len ih =>
    intro i d hd
    obtain ⟨ih1, ih2⟩ := ih (i + 1) (Function.update d (h i) (m (L + 1 + i)))
      (fun j k h1 h2 h3 => hd j k (by omega) h2 (by omega))
    constructor
    · intro j hj1 hj2
      unfold home_writes
      rw [replay_cons]
      by_cases hji : j = i
      · subst hji
        rw [ih2 (h j) (fun k hk1 hk2 hc => hd j k (le_refl _) (by omega) (by omega) hc.symm)]
        exact Function.update_same _ _ _
      · exact ih1 j (by omega) (by omega)
    · intro b hb
      unfold home_writes
      rw [replay_cons, ih2 b (fun j hj1 hj2 => hb j (by omega) (by omega))]
      exact Function.update_noteq (fun hc => hb i (le_refl _) (by omega) hc.symm) _ _

/-- The device after the first loop of `flush_log` has flushed the slots `i, ..., i + len - 1`. -/
theorem replay_payload_writes {dm : Nat → Bool} {m : Nat → Block} {L : Nat} :
    ∀ (len i : Nat) (d : Nat → Block) (b : Nat),
      replay (payload_writes dm m L i len) d b
        = if L + 1 + i ≤ b ∧ b < L + 1 + i + len ∧ dm b = true then m b else d b := by
  intro len
  induction len with
  | zero =>
    intro i d b
    rw [if_neg (by omega)]
    rfl
  | succ len ih =>
    intro i d b
    unfold payload_writes
    rw [replay_append, ih]
    by_cases hb : b = L + 1 + i
    · subst hb
      rw [if_neg (by omega)]
      by_cases hd : dm (L + 1 + i) = true
      · rw [if_pos hd, if_pos ⟨le_refl _, by omega, hd⟩, replay_cons, replay_nil]
        exact Function.update_same _ _ _
      · rw [if_neg hd, if_neg (fun hc => hd hc.2.2)]
        rfl
    · have hfirst : replay (if dm (L + 1 + i) = true then [(L + 1 + i, m (L + 1 + i))] else []) d b
          = d b := by
        by_cases hd : dm (L + 1 + i) = true
        · rw [if_pos hd, replay_cons, replay_nil]
          exact Function.update_noteq hb _ _
        · rw [if_neg hd]
          rfl
      rw [hfirst]
      by_cases hc : L + 1 + (i + 1) ≤ b ∧ b < L + 1 + (i + 1) + len ∧ dm b = true
      · rw [if_pos hc, if_pos ⟨by omega, by omega, hc.2.2⟩]
      · rw [if_neg hc, if_neg (fun hc' => hc ⟨by omega, by omega, hc'.2.2⟩)]

/-- After `flush_log` the device agrees with the window on the header block
and on the payload slots in use, provided the clean ones already agreed;
every other device block is as before. -/
theorem flush_log_disk {s : State} {L n : Nat} (d1 : Nat → Block)
    (hd1 : d1 = replay
      (payload_writes (dirtyMapped s) (mem s) L 0 n
        ++ (if dirtyMapped s L = true then [(L, mem s L)] else [])) s.disk) :
    (∀ b, L ≤ b → b < L + 1 + n → (dirtyMapped s b = false → mem s b = s.disk b) →
      d1 b = mem s b) ∧
    (∀ b, (b < L ∨ L + 1 + n ≤ b) → d1 b = s.disk b) := by
  subst hd1
  constructor
  · intro b hb1 hb2 hcoh
    rw [replay_append]
    by_cases hbL : b = L
    · subst hbL
      by_cases hd : dirtyMapped s b = true
      · rw [if_pos hd, replay_cons, replay_nil]
        exact Function.update_same _ _ _
      · rw [if_neg hd, replay_nil, replay_payload_writes, if_neg (by omega)]
        exact (hcoh (by simpa using hd)).symm
    · have : replay (if dirtyMapped s L = true then [(L, mem s L)] else [])
          (replay (payload_writes (dirtyMapped s) (mem s) L 0 n) s.disk) b
          = replay (payload_writes (dirtyMapped s) (mem s) L 0 n) s.disk b := by
        by_cases hd : dirtyMapped s L = true
        · rw [if_pos hd, replay_cons, replay_nil]
          exact Function.update_noteq hbL _ _
        · rw [if_neg hd]
          rfl
      rw [this, replay_payload_writes]
      by_cases hd : dirtyMapped s b = true
      · rw [if_pos ⟨by omega, by omega, hd⟩]
      · rw [if_neg (fun hc => hd hc.2.2)]
        exact (hcoh (by simpa using hd)).symm
  · intro b hb
    rw [replay_append]
    have : replay (if dirtyMapped s L = true then [(L, mem s L)] else [])
        (replay (payload_writes (dirtyMapped s) (mem s) L 0 n) s.disk) b
        = replay (payload_writes (dirtyMapped s) (mem s) L 0 n) s.disk b := by
      by_cases hd : dirtyMapped s L = true
      · rw [if_pos hd, replay_cons, replay_nil]
        exact Function.update_noteq (by omega) _ _
      · rw [if_neg hd]
        rfl
    rw [this, replay_payload_writes, if_neg (by omega)]

/-! ## The order of the device writes of `log_commit` -/

theorem homes_of_valid {env : Env} {sb : Super} {s : State} (hL : LogAt env sb s)
    (hn : log_n s ≤ sb.s_lognblocks)
    (hdist : ∀ i j, i < j → j < log_n s → log_blockno s i ≠ log_blockno s j)
    (hvalid : ∀ i, i < log_n s → 0 < log_blockno s i ∧ log_blockno s i < sb.s_nblocks)
    (halloc : ∀ i, i < log_n s → bitmap_marks_free env (log_blockno s i) = false)
    (hout : ∀ i, i < log_n s → OutsideLog sb (log_blockno s i)) :
    Homes env sb (log_n s) (log_blockno s) := by
  refine homes_of_outside (fun j hj => (hvalid j hj).1) (fun i hi => ⟨?_, halloc i hi⟩)
    hdist hout hn
  rw [beyond_super_eq hL.super_eq]
  have := (hvalid i hi).2
  simp only [decide_eq_false_iff_not, ge_iff_le, not_le]
  exact this

theorem payload_writes_sorted (d : Nat → Bool) (m : Nat → Block) (L : Nat) :
    ∀ (len i : Nat), (payload_writes d m L i len).Pairwise (fun v w => v.1 < w.1) := by
  intro len
  induction len with
  | zero => intro i; exact List.Pairwise.nil
  | succ len ih =>
    intro i
    unfold payload_writes
    rw [List.pairwise_append]
    refine ⟨?_, ih (i + 1), ?_⟩
    · by_cases hd : d (L + 1 + i) = true
      · rw [if_pos hd]
        exact List.pairwise_singleton _ _
      · rw [if_neg hd]
        exact List.Pairwise.nil
    · intro v hv w hw
      obtain ⟨j, hj1, _, hj3, _⟩ := mem_payload_writes _ _ hw
      by_cases hd : d (L + 1 + i) = true
      · rw [if_pos hd] at hv
        rw [List.mem_singleton.1 hv, hj3]
        show L + 1 + i < L + 1 + j
        omega
      · rw [if_neg hd] at hv
        cases hv

theorem payload_writes_mem {d : Nat → Bool} {m : Nat → Block} {L : Nat} :
    ∀ (len i j : Nat), i ≤ j → j < i + len → d (L + 1 + j) = true →
      (L + 1 + j, m (L + 1 + j)) ∈ payload_writes d m L i len := by
  intro len
  induction len with
  | zero => intro i j h1 h2 _; omega
  | succ len ih =>
    intro i j h1 h2 hd
    unfold payload_writes
    by_cases hj : j = i
    · subst hj
      rw [if_pos hd]
      exact List.mem_append_left _ (List.mem_singleton.2 rfl)
    · exact List.mem_append_right _ (ih (i + 1) j (by omega) (by omega) hd)

theorem home_writes_get (h : Nat → Nat) (m : Nat → Block) (L : Nat) :
    ∀ (len i j : Nat), j < len →
      (home_writes h m L i len)[j]? = some (h (i + j), m (L + 1 + (i + j))) := by
  intro len
  induction len with
  | zero => intro i j hj; omega
  | succ len ih =>
    intro i j hj
    unfold home_writes
    cases j with
    | zero => simp
    | succ j =>
      rw [List.getElem?_cons_succ, ih (i + 1) j (by omega)]
      have e : i + 1 + j = i + (j + 1) := by omega
      rw [e]

/-- C3, as amended. On a well-formed log, `log_commit` returns and its device writes are, in
this order: one write for each payload slot below `n` whose page is dirty, in index order, of
the contents of the slot; then the header write of step 2, which is issued exactly when the
header page is dirty; then one write per recorded home block, in index order, of the contents
of its payload slot; then the header write that records a count of zero. Provided a clean
header page agrees with the device, the on-device header lists all the entries at each
home-block write; provided the clean payload pages agree with the device too, the on-device
payload slots hold the contents of the entries at each of these writes. -/
theorem log_commit_write_order {env : Env} {sb : Super} (hR : Ready env sb) (s : State)
    (hL : LogAt env sb s) (hn : log_n s ≤ sb.s_lognblocks)
    (hdist : ∀ i j, i < j → j < log_n s → log_blockno s i ≠ log_blockno s j)
    (hvalid : ∀ i, i < log_n s → 0 < log_blockno s i ∧ log_blockno s i < sb.s_nblocks)
    (halloc : ∀ i, i < log_n s → bitmap_marks_free env (log_blockno s i) = false)
    (hout : ∀ i, i < log_n s → OutsideLog sb (log_blockno s i))
    (hcoh : dirtyMapped s sb.s_logstart = false → mem s sb.s_logstart = s.disk sb.s_logstart) :
    ∃ s', log_commit env s = .ok s' ∧
      s'.ide_writes = s.ide_writes ++
        (payload_writes (dirtyMapped s) (mem s) sb.s_logstart 0 (log_n s)
          ++ (if dirtyMapped s sb.s_logstart = true
                then [(sb.s_logstart, mem s sb.s_logstart)] else [])
          ++ home_writes (log_blockno s) (mem s) sb.s_logstart 0 (log_n s)
          ++ [(sb.s_logstart, Function.update (mem s sb.s_logstart) 0 0)]) ∧
      (∀ w, w ∈ payload_writes (dirtyMapped s) (mem s) sb.s_logstart 0 (log_n s) ↔
        ∃ i, i < log_n s ∧ dirtyMapped s (sb.s_logstart + 1 + i) = true ∧
          w = (sb.s_logstart + 1 + i, log_payload s i)) ∧
      (payload_writes (dirtyMapped s) (mem s) sb.s_logstart 0 (log_n s)).Pairwise
        (fun v w => v.1 < w.1) ∧
      (home_writes (log_blockno s) (mem s) sb.s_logstart 0 (log_n s)).length = log_n s ∧
      (∀ j, j < log_n s →
        (home_writes (log_blockno s) (mem s) sb.s_logstart 0 (log_n s))[j]?
          = some (log_blockno s j, log_payload s j)) ∧
      (∀ k, k < log_n s →
        u32 (replay (payload_writes (dirtyMapped s) (mem s) sb.s_logstart 0 (log_n s)
            ++ (if dirtyMapped s sb.s_logstart = true
                  then [(sb.s_logstart, mem s sb.s_logstart)] else [])
            ++ (home_writes (log_blockno s) (mem s) sb.s_logstart 0 (log_n s)).take k)
          s.disk sb.s_logstart 0) = log_n s ∧
        ∀ j, j < log_n s →
          u32 (replay (payload_writes (dirtyMapped s) (mem s) sb.s_logstart 0 (log_n s)
              ++ (if dirtyMapped s sb.s_logstart = true
                    then [(sb.s_logstart, mem s sb.s_logstart)] else [])
              ++ (home_writes (log_blockno s) (mem s) sb.s_logstart 0 (log_n s)).take k)
            s.disk sb.s_logstart (j + 1)) = log_blockno s j) ∧
      ((∀ j, j < log_n s → dirtyMapped s (sb.s_logstart + 1 + j) = false →
          mem s (sb.s_logstart + 1 + j) = s.disk (sb.s_logstart + 1 + j)) →
        ∀ k, k < log_n s → ∀ j, j < log_n s →
          replay (payload_writes (dirtyMapped s) (mem s) sb.s_logstart 0 (log_n s)
              ++ (if dirtyMapped s sb.s_logstart = true
                    then [(sb.s_logstart, mem s sb.s_logstart)] else [])
              ++ (home_writes (log_blockno s) (mem s) sb.s_logstart 0 (log_n s)).take k)
            s.disk (sb.s_logstart + 1 + j) = log_payload s j) := by
  have hlt := hL.bounds
  have hH := homes_of_valid hL hn hdist hvalid halloc hout
  obtain ⟨s1, s', _, h, _, _, _, _, _, w1, _, w2, _⟩ := log_commit_run hR s hL hn hH
  have hbefore : ∀ (k b : Nat), sb.s_logstart ≤ b → b < sb.s_logstart + 1 + log_n s →
      (dirtyMapped s b = false → mem s b = s.disk b) →
      replay (payload_writes (dirtyMapped s) (mem s) sb.s_logstart 0 (log_n s) ++
          (if dirtyMapped s sb.s_logstart = true
            then [(sb.s_logstart, mem s sb.s_logstart)] else []) ++
          (home_writes (log_blockno s) (mem s) sb.s_logstart 0 (log_n s)).take k)
        s.disk b = mem s b := by
    intro k b hb1 hb2 hc
    rw [replay_append, replay_not_mem]
    · exact (flush_log_disk _ rfl).1 b hb1 hb2 hc
    · intro w hw
      obtain ⟨j, _, hj2, hj3⟩ := mem_home_writes _ _ (List.mem_of_mem_take hw)
      rw [hj3]
      have ho := hout j (by omega)
      unfold OutsideLog at ho
      show log_blockno s j ≠ b
      omega
  refine ⟨s', h, ?_, ?_, ?_, home_writes_length _ _ _ _ _, ?_, ?_, ?_⟩
  · rw [w2, w1]
    simp only [List.append_assoc]
  · intro w
    constructor
    · intro hw
      obtain ⟨j, _, hj2, hj3, hj4⟩ := mem_payload_writes _ _ hw
      exact ⟨j, by omega, hj4, by rw [hj3, log_payload_eq hL (by omega)]⟩
    · rintro ⟨i, hi, hd, rfl⟩
      rw [log_payload_eq hL (by omega)]
      exact payload_writes_mem _ _ _ (Nat.zero_le _) (by omega) hd
  · exact payload_writes_sorted _ _ _ _ _
  · intro j hj
    rw [home_writes_get _ _ _ _ _ _ hj, Nat.zero_add, log_payload_eq hL (by omega)]
  · intro k hk
    rw [hbefore k sb.s_logstart (le_refl _) (by omega) hcoh]
    exact ⟨(log_n_eq hL).symm, fun j hj => (log_blockno_eq hL (by omega)).symm⟩
  · intro hpc k _ j hj
    rw [hbefore k (sb.s_logstart + 1 + j) (by omega) (by omega) (hpc j hj),
      log_payload_eq hL (by omega)]

theorem stagedLog_logAt : LogAt exampleEnv exampleSuper stagedLog :=
  ⟨rfl, rfl, by decide, by decide⟩

theorem stagedLog_n : log_n stagedLog = 2 := by decide

theorem stagedLog_blockno {i : Nat} (hi : i < 2) : log_blockno stagedLog i = 20 + i := by
  interval_cases i
  · decide
  · decide

/-- C3 as amended, at the staged example log: an uncommitted transaction of the blocks 20 and
21, with the header page and both payload pages dirty. The device writes of `log_commit` are
the payload slots 3 and 4, the header block 2, the home blocks 20 and 21, and the header
block 2 again, in this order and with these contents. -/
theorem log_commit_write_order_witness :
    log_n stagedLog = 2 ∧ log_blockno stagedLog 0 = 20 ∧ log_blockno stagedLog 1 = 21 ∧
    dirtyMapped stagedLog 2 = true ∧ dirtyMapped stagedLog 3 = true ∧
    dirtyMapped stagedLog 4 = true ∧
    ∃ s', log_commit exampleEnv stagedLog = .ok s' ∧
      s'.ide_writes.map Prod.fst = [3, 4, 2, 20, 21, 2] ∧
      s'.ide_writes =
        [(3, log_payload stagedLog 0), (4, log_payload stagedLog 1), (2, mem stagedLog 2),
         (20, log_payload stagedLog 0), (21, log_payload stagedLog 1),
         (2, Function.update (mem stagedLog 2) 0 0)] := by
  have hlt : ∀ i, i < log_n stagedLog → i < 2 := by
    intro i hi; rw [stagedLog_n] at hi; exact hi
  obtain ⟨s', h, hw, _⟩ := log_commit_write_order exampleEnv_ready stagedLog stagedLog_logAt
    (by rw [stagedLog_n]; decide)
    (by
      intro i j hij hj
      rw [stagedLog_blockno (hlt j hj), stagedLog_blockno (by have := hlt j hj; omega)]
      omega)
    (by
      intro i hi
      rw [stagedLog_blockno (hlt i hi)]
      have := hlt i hi
      simp only [exampleSuper]
      omega)
    (fun _ _ => rfl)
    (by
      intro i hi
      rw [stagedLog_blockno (hlt i hi)]
      exact Or.inr (by simp only [exampleSuper]; omega))
    (by intro hc; exact absurd hc (by decide))
  refine ⟨by decide, by decide, by decide, by decide, by decide, by decide, s', h, ?_, ?_⟩
  · rw [hw]
    rfl
  · rw [hw]
    rfl

/-- C3 fails when the header page is clean on entry, as it is when `log_init`
replays a log after a crash. On the pending example log, which records the
single home block 20, `log_commit` issues two device writes: first block 20,
then the header block 2. The home block is written before the first (and only)
write of the header block. -/
theorem log_commit_recovery_order :
    log_n pendingLog = 1 ∧ log_blockno pendingLog 0 = 20 ∧ exampleSuper.s_logstart = 2 ∧
      ∃ s', log_commit exampleEnv pendingLog = .ok s' ∧
        s'.ide_writes.map Prod.fst = [20, 2] := by
  refine ⟨by decide, by decide, rfl, ?_⟩
  have h : (match log_commit exampleEnv pendingLog with
      | .ok s' => s'.ide_writes.map Prod.fst
      | .error _ => []) = [20, 2] := by decide
  cases hr : log_commit exampleEnv pendingLog with
  | error e => rw [hr] at h; cases h
  | ok s' => rw [hr] at h; exact ⟨s', rfl, h⟩

/-! ## Coherence of the cache with the device -/

theorem coherent_of_write {s s' : State} {b : Nat} {X : Block} (hc : Coherent s)
    (hd : s'.disk = s.disk) (hm : mem s' = Function.update (mem s) b X)
    (hq : dirtyMapped s' = Function.update (dirtyMapped s) b true) : Coherent s' := by
  intro c hcl
  rw [hq] at hcl
  by_cases hcb : c = b
  · subst hcb
    rw [Function.update_same] at hcl
    cases hcl
  · rw [Function.update_noteq hcb] at hcl
    rw [hm, hd, Function.update_noteq hcb]
    exact hc c hcl

theorem coherent_of_same {s s' : State} (hc : Coherent s) (h : Same s s') : Coherent s' := by
  intro c hcl
  rw [h.hdirty] at hcl
  rw [h.hmem, h.hdisk]
  exact hc c hcl

theorem store_block_coherent {env : Env} {s s' : State} {va : Nat} {blk : Block}
    (hc : Coherent s) (h : store_block env s va blk = .ok s') : Coherent s' := by
  obtain ⟨_, d, _, _, m, q, _⟩ := store_block_inv h
  exact coherent_of_write hc d m q

theorem flush_block_coherent {env : Env} {s s' : State} {addr : Nat}
    (hc : Coherent s) (h : flush_block env s addr = .ok s') : Coherent s' := by
  obtain ⟨_, m, _, q, d, _⟩ := flush_block_inv h
  intro c hcl
  rw [q] at hcl
  rw [m, d]
  by_cases hcb : c = blockof addr
  · rw [hcb]
    by_cases hdm : dirtyMapped s (blockof addr) = true
    · rw [if_pos hdm, Function.update_same]
    · rw [if_neg hdm]
      exact hc _ (by simpa using hdm)
  · rw [Function.update_noteq hcb] at hcl
    by_cases hdm : dirtyMapped s (blockof addr) = true
    · rw [if_pos hdm, Function.update_noteq hcb]
      exact hc c hcl
    · rw [if_neg hdm]
      exact hc c hcl

theorem log_write_coherent {env : Env} {sb : Super} {addr : Nat} {s s' : State}
    (hL : LogAt env sb s) (hn : log_n s ≤ sb.s_lognblocks) (hc : Coherent s)
    (h : log_write env s addr = .ok s') : Coherent s' := by
  obtain ⟨_, d, _, _, hcase⟩ := log_write_inv hL hn h
  rcases hcase with ⟨j, _, _, _, m, q⟩ | ⟨_, _, _, _, m3, q⟩
  · exact coherent_of_write hc d m q
  · intro c hcl
    rw [q c] at hcl
    simp only [Bool.or_eq_false_iff, decide_eq_false_iff_not] at hcl
    rw [m3 c hcl.1.1 hcl.1.2, d]
    exact hc c hcl.2

theorem fs_write_coherent {env : Env} {sb : Super} {b : Nat} {blk : Block} {s s' : State}
    (hR : Ready env sb) (hL : LogAt env sb s) (hI : LogInv sb s) (hne : b ≠ sb.s_logstart)
    (hpos : 0 < b) (hb : b < sb.s_nblocks) (hc : Coherent s)
    (h : fs_write env s b blk = .ok s') : Coherent s' := by
  obtain ⟨hda, _, hbo, _⟩ := diskaddr_run hL.super_eq hR hpos hb
  unfold fs_write at h
  rw [hda] at h
  simp only [] at h
  split at h
  · cases h
  · rename_i s1 h1
    obtain ⟨hL1, hI1, _⟩ := store_block_keeps_header hL hI (by rw [hbo]; exact hne) h1
    exact log_write_coherent hL1 hI1.1 (store_block_coherent hc h1) h

theorem emptyLog_coherent : Coherent emptyLog := fun _ _ => rfl

theorem pendingLog_coherent : Coherent pendingLog := fun _ _ => rfl

/-! ## Crashes and recovery -/

theorem homes_congr {env : Env} {sb : Super} {n : Nat} {h h' : Nat → Nat}
    (hH : Homes env sb n h) (he : ∀ j, j < n → h' j = h j) : Homes env sb n h' := by
  refine ⟨fun j hj => ?_, fun j hj => ?_, fun j k hjk hk => ?_, fun j hj => ?_,
    fun j k hjk hk => ?_⟩
  · rw [he j hj]; exact hH.pos j hj
  · rw [he j hj]; exact hH.loadable j hj
  · rw [he j (by omega), he k hk]; exact hH.distinct j k hjk hk
  · rw [he j hj]; exact hH.not_header j hj
  · rw [he j (by omega)]; exact hH.not_later_slot j k hjk hk

theorem mem_crash_after (s : State) (ws : List (Nat × Block)) :
    mem (crash_after s ws) = replay ws s.disk := rfl

/-- Recovery of a log whose header and payload slots are on the device:
`log_init` on a restarted environment replays the log. -/
theorem log_init_replays {env : Env} {sb : Super} (hR : Ready env sb) (hs : env.super = some sb)
    (hroom : sb.s_lognblocks < BLKSIZE / 4) (c : State) (n : Nat) (h : Nat → Nat)
    (P : Nat → Block) (hn : n ≤ sb.s_lognblocks) (hpos : 0 < n)
    (hH : Homes env sb n h)
    (hcnt : u32 (mem c sb.s_logstart 0) = n)
    (hbn : ∀ j, j < n → u32 (mem c sb.s_logstart (j + 1)) = h j)
    (hpay : ∀ j, j < n → mem c (sb.s_logstart + 1 + j) = P j) :
    ∃ r, log_init env c = .ok r ∧ (∀ j, j < n → r.disk (h j) = P j) ∧
      r.disk sb.s_logstart 0 = 0 ∧ log_n r = 0 := by
  obtain ⟨hLh, s0, hs0, hinit⟩ := log_init_run hs hR hroom c
  have hlt := hLh.bounds
  have hm0 : mem s0 = mem c := by rw [hs0.hmem, mem_with_log_header]
  have hL0 : LogAt env sb s0 := hLh.same hs0
  have hnh : log_n { c with log_header := log_header_at (DISKMAP + sb.s_logstart * BLKSIZE) } = n := by
    rw [log_n_eq hLh, mem_with_log_header]
    exact hcnt
  rw [hnh, if_pos hpos] at hinit
  have hn0 : log_n s0 = n := by rw [hs0.log_n]; exact hnh
  have hb0 : ∀ j, j < n → log_blockno s0 j = h j := by
    intro j hj
    rw [log_blockno_eq hL0 (by omega), hm0]
    exact hbn j hj
  have hH0 : Homes env sb (log_n s0) (log_blockno s0) := by
    rw [hn0]
    exact homes_congr hH hb0
  obtain ⟨_, r, _, hr, _, _, dL, homes, _⟩ := log_commit_run hR s0 hL0 (by rw [hn0]; exact hn) hH0
  refine ⟨r, by rw [hinit]; exact hr, fun j hj => ?_, ?_, log_commit_resets hr⟩
  · have := (homes j (by rw [hn0]; exact hj)).2
    rw [hb0 j hj, hm0, hpay j hj] at this
    exact this
  · rw [dL, Function.update_same]

/-- C4. On a well-formed log with at least one entry whose clean pages agree
with the device: let `log_commit` be interrupted after the header flush of
step 2 (that is, after `flush_log`) and after any number `k` of the home-block
writes of step 3, and let the environment restart with nothing mapped. Then
`log_init` on the surviving device returns, and it leaves every home block
with the contents an uninterrupted `log_commit` leaves, and the header count
on the device at zero. -/
theorem crash_replay {env : Env} {sb : Super} (hR : Ready env sb) (s : State)
    (hL : LogAt env sb s) (hn : log_n s ≤ sb.s_lognblocks) (hpos : 0 < log_n s)
    (hdist : ∀ i j, i < j → j < log_n s → log_blockno s i ≠ log_blockno s j)
    (hvalid : ∀ i, i < log_n s → 0 < log_blockno s i ∧ log_blockno s i < sb.s_nblocks)
    (halloc : ∀ i, i < log_n s → bitmap_marks_free env (log_blockno s i) = false)
    (hout : ∀ i, i < log_n s → OutsideLog sb (log_blockno s i))
    (hcoh : Coherent s) :
    ∃ s1 s', flush_log env s = .ok s1 ∧ log_commit env s = .ok s' ∧
      s'.ide_writes = s1.ide_writes ++
        (home_writes (log_blockno s) (mem s) sb.s_logstart 0 (log_n s)
          ++ [(sb.s_logstart, Function.update (mem s sb.s_logstart) 0 0)]) ∧
      ∀ k, k ≤ log_n s →
        ∃ r, log_init env (crash_after s1
            ((home_writes (log_blockno s) (mem s) sb.s_logstart 0 (log_n s)).take k)) = .ok r ∧
          (∀ j, j < log_n s → r.disk (log_blockno s j) = s'.disk (log_blockno s j)) ∧
          r.disk sb.s_logstart 0 = 0 ∧ s'.disk sb.s_logstart 0 = 0 := by
  have hlt := hL.bounds
  have hH := homes_of_valid hL hn hdist hvalid halloc hout
  obtain ⟨s1, s', h1, h, _, _, dL, homes, _, _, d1, w2, _⟩ := log_commit_run hR s hL hn hH
  refine ⟨s1, s', h1, h, w2, fun k hk => ?_⟩
  obtain ⟨fd, _⟩ := flush_log_disk (s := s) (L := sb.s_logstart) (n := log_n s) s1.disk d1
  have hcm : ∀ b, mem (crash_after s1
      ((home_writes (log_blockno s) (mem s) sb.s_logstart 0 (log_n s)).take k)) b
      = replay ((home_writes (log_blockno s) (mem s) sb.s_logstart 0 (log_n s)).take k)
          s1.disk b := fun b => rfl
  have hlog : ∀ b, sb.s_logstart ≤ b → b < sb.s_logstart + 1 + log_n s →
      mem (crash_after s1
        ((home_writes (log_blockno s) (mem s) sb.s_logstart 0 (log_n s)).take k)) b
        = mem s b := by
    intro b hb1 hb2
    rw [hcm, replay_not_mem, fd b hb1 hb2 (hcoh b)]
    intro w hw
    obtain ⟨j, _, hj2, hj3⟩ := mem_home_writes _ _ (List.mem_of_mem_take hw)
    rw [hj3]
    have := hout j (by omega)
    unfold OutsideLog at this
    show log_blockno s j ≠ b
    omega
  obtain ⟨r, hr, hr1, hr2, _⟩ := log_init_replays hR hL.super_eq hL.room
    (crash_after s1 ((home_writes (log_blockno s) (mem s) sb.s_logstart 0 (log_n s)).take k))
    (log_n s) (log_blockno s) (fun j => mem s (sb.s_logstart + 1 + j)) hn hpos hH
    (by rw [hlog _ (le_refl _) (by omega)]; exact (log_n_eq hL).symm)
    (fun j hj => by
      rw [hlog _ (le_refl _) (by omega)]
      exact (log_blockno_eq hL (by omega)).symm)
    (fun j hj => hlog _ (by omega) (by omega))
  refine ⟨r, hr, fun j hj => ?_, hr2, by rw [dL, Function.update_same]⟩
  rw [hr1 j hj, (homes j hj).2]

/-- C4 at the example configuration: block 20 is written with 7s and logged;
the commit is interrupted after the header flush and after 0 or 1 home writes. -/
theorem crash_replay_witness :
    ∃ s s1 s', fs_write exampleEnv emptyLog 20 (fun _ => 7) = .ok s ∧
      flush_log exampleEnv s = .ok s1 ∧ log_commit exampleEnv s = .ok s' ∧
      ∀ k, k ≤ log_n s →
        ∃ r, log_init exampleEnv (crash_after s1
            ((home_writes (log_blockno s) (mem s) exampleSuper.s_logstart 0 (log_n s)).take k))
            = .ok r ∧
          (∀ j, j < log_n s → r.disk (log_blockno s j) = s'.disk (log_blockno s j)) ∧
          r.disk exampleSuper.s_logstart 0 = 0 ∧ s'.disk exampleSuper.s_logstart 0 = 0 := by
  obtain ⟨s, hw, hLs, hIs, hd, _, hcase⟩ := fs_write_run exampleEnv_ready emptyLog 20
    (fun _ => 7) emptyLog_logAt emptyLog_inv (by decide) (by decide) rfl (by decide)
    (Or.inr (by rw [emptyLog_n]; decide))
  have hfacts : log_n s = 1 ∧ log_blockno s 0 = 20 := by
    rcases hcase with ⟨j, hj, _⟩ | ⟨_, g1, g2, _⟩
    · rw [emptyLog_n] at hj; omega
    · rw [emptyLog_n] at g1 g2
      exact ⟨g1, g2⟩
  obtain ⟨n1, b0⟩ := hfacts
  have h0 : ∀ i, i < log_n s → i = 0 := by
    intro i hi; rw [n1] at hi; omega
  have hcoh : Coherent s :=
    fs_write_coherent exampleEnv_ready emptyLog_logAt emptyLog_inv (by decide) (by decide)
      (by decide) emptyLog_coherent hw
  obtain ⟨s1, s', h1, h2, _, h4⟩ := crash_replay exampleEnv_ready s hLs hIs.1
    (by rw [n1]; decide)
    (fun i j hij hj => by have := h0 j hj; omega)
    (fun i hi => by rw [h0 i hi, b0]; decide)
    (fun i _ => rfl)
    (fun i hi => by rw [h0 i hi, b0]; exact Or.inr (by decide))
    hcoh
  exact ⟨s, s1, s', hw, h1, h2, h4⟩

/-- A transaction of `log_write` calls issues no device write and keeps the log well formed. -/
theorem log_writes_frame {env : Env} {sb : Super} :
    ∀ (addrs : List Nat) (s s' : State), LogAt env sb s → LogInv sb s →
      log_writes env s addrs = .ok s' →
      LogAt env sb s' ∧ LogInv sb s' ∧ s'.disk = s.disk ∧ s'.ide_writes = s.ide_writes := by
  intro addrs
  induction addrs with
  | nil =>
    intro s s' hL hI h
    cases h
    exact ⟨hL, hI, rfl, rfl⟩
  | cons a rest ih =>
    intro s s' hL hI h
    rw [log_writes] at h
    split at h
    · cases h
    · rename_i s1 h1
      obtain ⟨_, d1, w1, _⟩ := log_write_inv hL hI.1 h1
      obtain ⟨hL1, _⟩ := log_write_spec hL hI.1 h1
      obtain ⟨r1, r2, r3, r4⟩ := ih s1 s' hL1 (log_write_inv_preserved hL hI h1) h
      exact ⟨r1, r2, by rw [r3, d1], by rw [r4, w1]⟩

/-- C5. A transaction starts from an empty log whose on-device header count is
zero, and buffers any sequence of `log_write` calls. Then the payload loop of
`flush_log` returns, and at every point of it (after any number `m` of its
device writes `Wp`, all of which precede the header flush of step 2) the
on-device header block and every device block outside the log region are what
they were before the transaction. Consequently `log_init`, run after a crash
at that point with nothing mapped, returns with a count of zero, having
changed neither the device nor its write history: it does not commit. -/
theorem crash_before_header_flush {env : Env} {sb : Super} (hR : Ready env sb) (s0 : State)
    (hL : LogAt env sb s0) (h0 : log_n s0 = 0) (hd0 : u32 (s0.disk sb.s_logstart 0) = 0)
    (addrs : List Nat) (s1 : State) (hw : log_writes env s0 addrs = .ok s1) :
    ∃ s2 Wp, flush_log_loop env LOOP_BOUND 0 s1 = .ok s2 ∧
      s2.ide_writes = s0.ide_writes ++ Wp ∧
      ∀ m, m ≤ Wp.length →
        replay (Wp.take m) s0.disk sb.s_logstart = s0.disk sb.s_logstart ∧
        (∀ b, OutsideLog sb b → replay (Wp.take m) s0.disk b = s0.disk b) ∧
        ∃ r, log_init env (crash_after s0 (Wp.take m)) = .ok r ∧ log_n r = 0 ∧
          r.disk = (crash_after s0 (Wp.take m)).disk ∧
          r.ide_writes = (crash_after s0 (Wp.take m)).ide_writes := by
  have hlt := hL.bounds
  obtain ⟨hL1, hI1, d1, w1⟩ := log_writes_frame addrs s0 s1 hL (logInv_of_empty sb h0) hw
  obtain ⟨s2, h2, _, _, _, w2, _⟩ := flush_log_loop_run hR (log_n s1) 4294967295 0 s1 hL1 hI1.1
    (by omega) (by have := log_n_lt s1; simp only [U32] at this; omega)
  refine ⟨s2, payload_writes (dirtyMapped s1) (mem s1) sb.s_logstart 0 (log_n s1), h2,
    by rw [w2, w1], fun m _ => ?_⟩
  have htarget : ∀ w, w ∈ (payload_writes (dirtyMapped s1) (mem s1) sb.s_logstart 0
      (log_n s1)).take m → sb.s_logstart < w.1 ∧ w.1 ≤ sb.s_logstart + sb.s_lognblocks := by
    intro w hw'
    obtain ⟨j, _, hj2, hj3, _⟩ := mem_payload_writes _ _ (List.mem_of_mem_take hw')
    rw [hj3]
    have := hI1.1
    constructor
    · show sb.s_logstart < sb.s_logstart + 1 + j
      omega
    · show sb.s_logstart + 1 + j ≤ sb.s_logstart + sb.s_lognblocks
      omega
  have hhdr : replay ((payload_writes (dirtyMapped s1) (mem s1) sb.s_logstart 0
      (log_n s1)).take m) s0.disk sb.s_logstart = s0.disk sb.s_logstart :=
    replay_not_mem _ _ _ (fun w hw' => by have := htarget w hw'; omega)
  refine ⟨hhdr, fun b hb => ?_, ?_⟩
  · refine replay_not_mem _ _ _ (fun w hw' => ?_)
    have := htarget w hw'
    unfold OutsideLog at hb
    omega
  · obtain ⟨hLh, r, hr, hinit⟩ := log_init_run hL.super_eq hR hL.room
      (crash_after s0 ((payload_writes (dirtyMapped s1) (mem s1) sb.s_logstart 0
        (log_n s1)).take m))
    have hnh : log_n { crash_after s0 ((payload_writes (dirtyMapped s1) (mem s1) sb.s_logstart 0
        (log_n s1)).take m) with
        log_header := log_header_at (DISKMAP + sb.s_logstart * BLKSIZE) } = 0 := by
      rw [log_n_eq hLh, mem_with_log_header, mem_crash_after, hhdr]
      exact hd0
    rw [hnh, if_neg (by decide)] at hinit
    exact ⟨r, hinit, by rw [hr.log_n]; exact hnh, hr.hdisk, hr.hwrites⟩

/-- C5 at the example configuration, with a transaction that logs block 20. -/
theorem crash_before_header_flush_witness :
    ∃ s1 s2 Wp, log_writes exampleEnv emptyLog [DISKMAP + 20 * BLKSIZE] = .ok s1 ∧
      flush_log_loop exampleEnv LOOP_BOUND 0 s1 = .ok s2 ∧
      s2.ide_writes = emptyLog.ide_writes ++ Wp ∧
      ∀ m, m ≤ Wp.length →
        replay (Wp.take m) emptyLog.disk exampleSuper.s_logstart
          = emptyLog.disk exampleSuper.s_logstart ∧
        (∀ b, OutsideLog exampleSuper b → replay (Wp.take m) emptyLog.disk b = emptyLog.disk b) ∧
        ∃ r, log_init exampleEnv (crash_after emptyLog (Wp.take m)) = .ok r ∧ log_n r = 0 ∧
          r.disk = (crash_after emptyLog (Wp.take m)).disk ∧
          r.ide_writes = (crash_after emptyLog (Wp.take m)).ide_writes := by
  have hw := inWindow_example (b := 20) (by decide)
  have hb := blockof_example (b := 20) (by decide)
  have hla : Loadable exampleEnv (blockof (DISKMAP + 20 * BLKSIZE)) := by
    rw [hb]; exact exampleEnv_loadable (by decide)
  obtain ⟨s1, h1⟩ := log_write_ok emptyLog_logAt exampleEnv_ready emptyLog_inv.1 hw hla
    (Or.inr (by rw [emptyLog_n]; decide))
  have hws : log_writes exampleEnv emptyLog [DISKMAP + 20 * BLKSIZE] = .ok s1 := by
    rw [log_writes, h1]
    rfl
  obtain ⟨s2, Wp, e1, e2, e3⟩ := crash_before_header_flush exampleEnv_ready emptyLog
    emptyLog_logAt emptyLog_n (by decide) [DISKMAP + 20 * BLKSIZE] s1 hws
  exact ⟨s1, s2, Wp, hws, e1, e2, e3⟩

/-! ## Block numbers and cache addresses: `diskaddr` and `blocknum` -/

theorem diskaddr_err_iff (env : Env) (b : Nat) :
    (∃ e, diskaddr env b = .error e) ↔ (b = 0 ∨ beyond_super env b = true) := by
  unfold diskaddr
  by_cases hc : b = 0 ∨ beyond_super env b = true
  · rw [if_pos hc]
    exact ⟨fun _ => hc, fun _ => ⟨_, rfl⟩⟩
  · rw [if_neg hc]
    constructor
    · rintro ⟨e, he⟩
      cases he
    · intro h
      exact absurd h hc

/-- C12: with the super block loaded, `diskaddr` panics exactly for block 0 and for block numbers
at or beyond `s_nblocks` (and the panic is the bad-block-number one); every other block number is
answered with the 32-bit value of `DISKMAP + blockno * BLKSIZE`, which is the exact sum for every
block number below 983040 (the sum stays under 2^32). Before the super block is loaded only
block 0 is refused. -/
theorem diskaddr_spec (env : Env) (b : Nat) :
    (∀ sb, env.super = some sb →
      ((∃ e, diskaddr env b = .error e) ↔ (b = 0 ∨ b ≥ sb.s_nblocks)) ∧
      (¬ (b = 0 ∨ b ≥ sb.s_nblocks) → diskaddr env b = .ok (u32 (DISKMAP + b * BLKSIZE)))) ∧
    (env.super = none → ((∃ e, diskaddr env b = .error e) ↔ b = 0)) ∧
    (∀ e, diskaddr env b = .error e → e = Fault.bad_block_number) ∧
    (∀ a, diskaddr env b = .ok a → a = u32 (DISKMAP + b * BLKSIZE)) ∧
    (b < 983040 → u32 (DISKMAP + b * BLKSIZE) = DISKMAP + b * BLKSIZE) := by
  refine ⟨?_, ?_, ?_, ?_, ?_⟩
  · intro sb hs
    have hbs : beyond_super env b = decide (b ≥ sb.s_nblocks) := beyond_super_eq hs b
    have hiff : (b = 0 ∨ beyond_super env b = true) ↔ (b = 0 ∨ b ≥ sb.s_nblocks) := by
      rw [hbs]; simp
    refine ⟨(diskaddr_err_iff env b).trans hiff, ?_⟩
    intro hn
    have hn2 : ¬ (b = 0 ∨ beyond_super env b = true) := fun h => hn (hiff.mp h)
    unfold diskaddr
    rw [if_neg hn2]
  · intro hs
    have hbs : beyond_super env b = false := by
      unfold beyond_super; rw [hs]
    refine (diskaddr_err_iff env b).trans ?_
    rw [hbs]; simp
  · intro e he
    unfold diskaddr at he
    split at he
    · cases he; rfl
    · cases he
  · intro a ha
    exact (diskaddr_inv ha).2.2
  · intro hb
    simp only [u32, U32, DISKMAP, BLKSIZE, PGSIZE]
    omega

/-- Witness for C12 on the example file system (1024 blocks): block 0 and block 1024 are refused,
block 20 is answered with `DISKMAP + 20 * BLKSIZE`. -/
theorem diskaddr_spec_witness :
    (∃ e, diskaddr exampleEnv 0 = .error e) ∧ (∃ e, diskaddr exampleEnv 1024 = .error e) ∧
      diskaddr exampleEnv 20 = .ok (DISKMAP + 20 * BLKSIZE) :=
  ⟨((diskaddr_spec exampleEnv 0).1 exampleSuper rfl).1.mpr (Or.inl rfl),
   ((diskaddr_spec exampleEnv 1024).1 exampleSuper rfl).1.mpr (Or.inr (by decide)),
   ((diskaddr_spec exampleEnv 20).1 exampleSuper rfl).2 (by decide)⟩

/-- C13: `blocknum` accepts the first address past the cache window: at
`DISKMAP + DISKSIZE` it returns block number 786432 instead of panicking, because its upper test
is `addr > DISKMAP + DISKSIZE`. Every address below `DISKMAP` or above `DISKMAP + DISKSIZE` does
panic, and every address inside the window is answered with `(addr - DISKMAP) / BLKSIZE`. -/
theorem blocknum_window_end :
    blocknum (DISKMAP + DISKSIZE) = .ok 786432 ∧
    ¬ InWindow (DISKMAP + DISKSIZE) ∧
    (∀ addr, addr < DISKMAP ∨ addr > DISKMAP + DISKSIZE →
      blocknum addr = .error Fault.blocknum_bad_addr) ∧
    (∀ addr, InWindow addr → blocknum addr = .ok ((addr - DISKMAP) / BLKSIZE)) := by
  refine ⟨rfl, ?_, ?_, ?_⟩
  · simp only [InWindow, DISKMAP, DISKSIZE]
    omega
  · intro addr h
    unfold blocknum
    rw [if_pos h]
  · intro addr h
    exact blocknum_of_inWindow h

/-- C14, counterexample: before the super block is loaded `diskaddr` accepts block 786433, whose
address `0xD0001000` lies past the cache window, and `blocknum` panics on it; it also accepts
block 1048581, whose 32-bit address wraps round to that of block 5, so `blocknum` answers 5. -/
theorem blocknum_diskaddr_not_inverse :
    diskaddr bootEnv 786433 = .ok 3489665024 ∧
    blocknum 3489665024 = .error Fault.blocknum_bad_addr ∧
    diskaddr bootEnv 1048581 = .ok (DISKMAP + 5 * BLKSIZE) ∧
    blocknum (DISKMAP + 5 * BLKSIZE) = .ok 5 :=
  ⟨rfl, rfl, rfl, rfl⟩

/-- C14, amended: for every block number below `DISKSIZE / BLKSIZE` that `diskaddr` accepts, the
address it returns lies in the cache window and `blocknum` maps it back to the block number; and
for every address in the window whose block number `diskaddr` accepts, `diskaddr` of that block
number is the address rounded down to a multiple of `BLKSIZE`. -/
theorem blocknum_diskaddr_inverse (env : Env) :
    (∀ b a, diskaddr env b = .ok a → b < DISKSIZE / BLKSIZE →
      InWindow a ∧ blocknum a = .ok b) ∧
    (∀ a b x, InWindow a → blocknum a = .ok b → diskaddr env b = .ok x →
      x = ROUNDDOWN a BLKSIZE) := by
  constructor
  · intro b a ha hb
    obtain ⟨_, _, rfl⟩ := diskaddr_inv ha
    have hb2 : b < 786432 := by
      simp only [DISKSIZE, BLKSIZE, PGSIZE] at hb
      omega
    have he : u32 (DISKMAP + b * BLKSIZE) = DISKMAP + b * BLKSIZE := by
      simp only [u32, U32, DISKMAP, BLKSIZE, PGSIZE]
      omega
    rw [he]
    have hw : InWindow (DISKMAP + b * BLKSIZE) := by
      simp only [InWindow, DISKMAP, DISKSIZE, BLKSIZE, PGSIZE]
      omega
    refine ⟨hw, ?_⟩
    rw [blocknum_of_inWindow hw]
    have hbo : blockof (DISKMAP + b * BLKSIZE) = b := by
      simp only [blockof, DISKMAP, BLKSIZE, PGSIZE]
      omega
    rw [hbo]
  · intro a b x hw hb hx
    have hb2 := blocknum_ok_blockof hb
    obtain ⟨_, _, rfl⟩ := diskaddr_inv hx
    rw [hb2]
    simp only [InWindow, blockof, ROUNDDOWN, u32, U32, DISKMAP, DISKSIZE, BLKSIZE, PGSIZE] at *
    omega

/-- Witness for C14 on the example file system: block 20 goes to `DISKMAP + 20 * BLKSIZE` and
back, and the address `DISKMAP + 20 * BLKSIZE + 12` goes to block 20 and back to its block
start. -/
theorem blocknum_diskaddr_inverse_witness :
    (InWindow (DISKMAP + 20 * BLKSIZE) ∧ blocknum (DISKMAP + 20 * BLKSIZE) = .ok 20) ∧
      DISKMAP + 20 * BLKSIZE = ROUNDDOWN (DISKMAP + 20 * BLKSIZE + 12) BLKSIZE :=
  ⟨(blocknum_diskaddr_inverse exampleEnv).1 20 (DISKMAP + 20 * BLKSIZE) rfl (by decide),
   (blocknum_diskaddr_inverse exampleEnv).2 (DISKMAP + 20 * BLKSIZE + 12) 20
     (DISKMAP + 20 * BLKSIZE) ⟨by decide, by decide⟩ rfl rfl⟩

/-! ## `bc_pgfault`: what it loads and exactly when it panics -/

theorem cache_update_frame (s : State) (b : Nat) (sl : Slot) :
    ({ s with cache := Function.update s.cache b (some sl) } : State).cache b = some sl ∧
    (({ s with cache := Function.update s.cache b (some sl) } : State).cache b).isSome = true ∧
    dirtyMapped ({ s with cache := Function.update s.cache b (some sl) } : State) b = sl.dirty ∧
    mem ({ s with cache := Function.update s.cache b (some sl) } : State) b = sl.bytes ∧
    ({ s with cache := Function.update s.cache b (some sl) } : State).disk = s.disk ∧
    ({ s with cache := Function.update s.cache b (some sl) } : State).ide_writes
      = s.ide_writes ∧
    (∀ c, c ≠ b →
      ({ s with cache := Function.update s.cache b (some sl) } : State).cache c = s.cache c) := by
  have h1 : ({ s with cache := Function.update s.cache b (some sl) } : State).cache b
      = some sl := Function.update_same _ _ _
  refine ⟨h1, ?_, ?_, ?_, rfl, rfl, ?_⟩
  · rw [h1]; rfl
  · unfold dirtyMapped
    rw [h1]
  · unfold mem
    rw [h1]
  · intro c hc
    exact Function.update_noteq hc _ _

theorem bc_pgfault_eq (env : Env) (s : State) {va : Nat} (hw : InWindow va) :
    bc_pgfault env s va =
      if beyond_super env (blockof va) = true then .error Fault.nonexistent_block
      else if env.r_page_alloc (ROUNDDOWN va PGSIZE) < 0 then .error Fault.page_alloc_failed
      else if env.r_ide_read (u32 (blockof va * BLKSECTS)) < 0 then .error Fault.ide_read_failed
      else if env.r_page_map (ROUNDDOWN va PGSIZE) < 0 then .error Fault.pgfault_page_map_failed
      else if bitmap_marks_free env (blockof va) = true then .error Fault.free_block
      else .ok { s with cache := Function.update s.cache (blockof va)
                          (some { bytes := s.disk (blockof va), dirty := false,
                                  accessed := false }) } := by
  unfold bc_pgfault
  rw [blocknum_of_inWindow hw]
  have hc : ¬ (va < DISKMAP ∨ va ≥ DISKMAP + DISKSIZE) := by
    simp only [InWindow, DISKMAP, DISKSIZE] at *; omega
  have h1 : blockof (ROUNDDOWN va PGSIZE) = blockof va := blockof_rounddown hw.1
  have h2 : ide_read s (u32 (blockof va * BLKSECTS)) = s.disk (blockof va) := by
    unfold ide_read
    rw [sector_block (blockof_lt_of_inWindow hw)]
  simp only [hc, if_false]
  rw [h1, h2]

theorem bc_pgfault_outside (env : Env) (s : State) {va : Nat} (hw : ¬ InWindow va) :
    bc_pgfault env s va = .error Fault.blocknum_bad_addr ∨
      bc_pgfault env s va = .error Fault.pgfault_outside_window := by
  unfold bc_pgfault
  unfold blocknum
  by_cases hb : va < DISKMAP ∨ va > DISKMAP + DISKSIZE
  · left
    rw [if_pos hb]
  · right
    rw [if_neg hb]
    have hc : va < DISKMAP ∨ va ≥ DISKMAP + DISKSIZE := by
      simp only [InWindow, DISKMAP, DISKSIZE] at *; omega
    simp only [hc, if_true]

theorem bc_pgfault_ok_at {env : Env} (s : State) {va : Nat} (hw : InWindow va)
    (hl : Loadable env (blockof va))
    (ha : 0 ≤ env.r_page_alloc (ROUNDDOWN va PGSIZE))
    (hr : 0 ≤ env.r_ide_read (u32 (blockof va * BLKSECTS)))
    (hm : 0 ≤ env.r_page_map (ROUNDDOWN va PGSIZE)) :
    ∃ s', bc_pgfault env s va = .ok s' ∧
      s'.cache (blockof va)
        = some { bytes := s.disk (blockof va), dirty := false, accessed := false } ∧
      va_is_mapped s' va = true ∧ va_is_dirty s' va = false ∧
      mem s' (blockof va) = s.disk (blockof va) ∧
      s'.disk = s.disk ∧ s'.ide_writes = s.ide_writes ∧
      (∀ c, c ≠ blockof va → s'.cache c = s.cache c) := by
  have he := bc_pgfault_eq env s hw
  rw [if_neg (by rw [hl.1]; decide), if_neg (not_lt.mpr ha), if_neg (not_lt.mpr hr),
    if_neg (not_lt.mpr hm), if_neg (by rw [hl.2]; decide)] at he
  obtain ⟨hc1, hc2, hc3, hc4, hc5, hc6, hc7⟩ := cache_update_frame s (blockof va)
    { bytes := s.disk (blockof va), dirty := false, accessed := false }
  refine ⟨_, he, hc1, ?_, ?_, hc4, hc5, hc6, hc7⟩
  · rw [va_is_mapped_iff]
    exact ⟨hw, hc2⟩
  · rw [va_is_dirty_eq]
    exact hc3

/-- C15: for every fault address in the cache window whose block exists according to the super
block and is not marked free by the bitmap, and with the page allocation, the device read and the
remap succeeding, `bc_pgfault` returns; afterwards the block containing the address is mapped
with its dirty flag clear and bytes equal to the device block, the device and its write history
are unchanged, and every other cache slot is exactly as before. -/
theorem bc_pgfault_loads {env : Env} (s : State) {va : Nat} (hw : InWindow va)
    (hl : Loadable env (blockof va))
    (ha : 0 ≤ env.r_page_alloc (ROUNDDOWN va PGSIZE))
    (hr : 0 ≤ env.r_ide_read (u32 (blockof va * BLKSECTS)))
    (hm : 0 ≤ env.r_page_map (ROUNDDOWN va PGSIZE)) :
    ∃ s', bc_pgfault env s va = .ok s' ∧
      s'.cache (blockof va)
        = some { bytes := s.disk (blockof va), dirty := false, accessed := false } ∧
      va_is_mapped s' va = true ∧ va_is_dirty s' va = false ∧
      mem s' (blockof va) = s.disk (blockof va) ∧
      s'.disk = s.disk ∧ s'.ide_writes = s.ide_writes ∧
      (∀ c, c ≠ blockof va → s'.cache c = s.cache c) :=
  bc_pgfault_ok_at s hw hl ha hr hm

/-- Witness for C15: a fault on cold block 20 of the example file system. -/
theorem bc_pgfault_loads_witness :
    ∃ s', bc_pgfault exampleEnv emptyLog (DISKMAP + 20 * BLKSIZE) = .ok s' ∧
      s'.cache (blockof (DISKMAP + 20 * BLKSIZE))
        = some { bytes := emptyLog.disk (blockof (DISKMAP + 20 * BLKSIZE)),
                 dirty := false, accessed := false } ∧
      va_is_mapped s' (DISKMAP + 20 * BLKSIZE) = true ∧
      va_is_dirty s' (DISKMAP + 20 * BLKSIZE) = false ∧
      mem s' (blockof (DISKMAP + 20 * BLKSIZE))
        = emptyLog.disk (blockof (DISKMAP + 20 * BLKSIZE)) ∧
      s'.disk = emptyLog.disk ∧ s'.ide_writes = emptyLog.ide_writes ∧
      (∀ c, c ≠ blockof (DISKMAP + 20 * BLKSIZE) → s'.cache c = emptyLog.cache c) :=
  bc_pgfault_loads emptyLog (inWindow_example (by decide))
    (by rw [blockof_example (by decide)]; exact exampleEnv_loadable (by decide))
    (by decide) (by decide) (by decide)

theorem beyond_super_iff (env : Env) (b : Nat) :
    beyond_super env b = true ↔ ∃ sb, env.super = some sb ∧ b ≥ sb.s_nblocks := by
  unfold beyond_super
  cases hs : env.super with
  | none => simp
  | some sb => simp

theorem bitmap_marks_free_iff (env : Env) (b : Nat) :
    bitmap_marks_free env b = true ↔ ∃ free, env.bitmap = some free ∧ free b = true := by
  unfold bitmap_marks_free
  cases hs : env.bitmap with
  | none => simp
  | some free => simp

theorem bc_pgfault_err_iff (env : Env) (s : State) (va : Nat) :
    (∃ e, bc_pgfault env s va = .error e) ↔
      (¬ InWindow va ∨ beyond_super env (blockof va) = true ∨
        env.r_page_alloc (ROUNDDOWN va PGSIZE) < 0 ∨
        env.r_ide_read (u32 (blockof va * BLKSECTS)) < 0 ∨
        env.r_page_map (ROUNDDOWN va PGSIZE) < 0 ∨
        bitmap_marks_free env (blockof va) = true) := by
  by_cases hw : InWindow va
  · rw [bc_pgfault_eq env s hw]
    by_cases h1 : beyond_super env (blockof va) = true
    · rw [if_pos h1]
      exact ⟨fun _ => Or.inr (Or.inl h1), fun _ => ⟨_, rfl⟩⟩
    rw [if_neg h1]
    by_cases h2 : env.r_page_alloc (ROUNDDOWN va PGSIZE) < 0
    · rw [if_pos h2]
      exact ⟨fun _ => Or.inr (Or.inr (Or.inl h2)), fun _ => ⟨_, rfl⟩⟩
    rw [if_neg h2]
    by_cases h3 : env.r_ide_read (u32 (blockof va * BLKSECTS)) < 0
    · rw [if_pos h3]
      exact ⟨fun _ => Or.inr (Or.inr (Or.inr (Or.inl h3))), fun _ => ⟨_, rfl⟩⟩
    rw [if_neg h3]
    by_cases h4 : env.r_page_map (ROUNDDOWN va PGSIZE) < 0
    · rw [if_pos h4]
      exact ⟨fun _ => Or.inr (Or.inr (Or.inr (Or.inr (Or.inl h4)))), fun _ => ⟨_, rfl⟩⟩
    rw [if_neg h4]
    by_cases h5 : bitmap_marks_free env (blockof va) = true
    · rw [if_pos h5]
      exact ⟨fun _ => Or.inr (Or.inr (Or.inr (Or.inr (Or.inr h5)))), fun _ => ⟨_, rfl⟩⟩
    rw [if_neg h5]
    constructor
    · rintro ⟨e, he⟩
      cases he
    · rintro (h | h | h | h | h | h)
      · exact absurd hw h
      · exact absurd h h1
      · exact absurd h h2
      · exact absurd h h3
      · exact absurd h h4
      · exact absurd h h5
  · constructor
    · intro _
      exact Or.inl hw
    · intro _
      rcases bc_pgfault_outside env s hw with h | h
      · exact ⟨_, h⟩
      · exact ⟨_, h⟩

theorem bc_pgfault_free_block {env : Env} {s : State} {va : Nat}
    (h : bc_pgfault env s va = .error Fault.free_block) :
    InWindow va ∧ beyond_super env (blockof va) = false ∧
      0 ≤ env.r_page_alloc (ROUNDDOWN va PGSIZE) ∧
      0 ≤ env.r_ide_read (u32 (blockof va * BLKSECTS)) ∧
      0 ≤ env.r_page_map (ROUNDDOWN va PGSIZE) ∧
      bitmap_marks_free env (blockof va) = true := by
  by_cases hw : InWindow va
  · rw [bc_pgfault_eq env s hw] at h
    split at h
    · cases h
    · rename_i h1
      split at h
      · cases h
      · rename_i h2
        split at h
        · cases h
        · rename_i h3
          split at h
          · cases h
          · rename_i h4
            split at h
            · rename_i h5
              exact ⟨hw, by simpa using h1, not_lt.mp h2, not_lt.mp h3, not_lt.mp h4, h5⟩
            · cases h
  · rcases bc_pgfault_outside env s hw with h2 | h2
    · rw [h2] at h
      cases h
    · rw [h2] at h
      cases h

/-- C16: `bc_pgfault` panics exactly when the fault address is outside the cache window, or the
super block is loaded and the block number is at or beyond `s_nblocks`, or the page allocation
fails, or the device read fails, or the remap fails, or the bitmap is loaded and marks the block
free. The free-block panic is raised only in runs where the read was issued and succeeded: the
same fault without a bitmap completes the load with the device bytes in the slot; and when the
read fails (the earlier checks passing) the panic is the read failure, whatever the bitmap
says. -/
theorem bc_pgfault_failures (env : Env) (s : State) (va : Nat) :
    ((∃ e, bc_pgfault env s va = .error e) ↔
      (¬ InWindow va ∨ (∃ sb, env.super = some sb ∧ blockof va ≥ sb.s_nblocks) ∨
        env.r_page_alloc (ROUNDDOWN va PGSIZE) < 0 ∨
        env.r_ide_read (u32 (blockof va * BLKSECTS)) < 0 ∨
        env.r_page_map (ROUNDDOWN va PGSIZE) < 0 ∨
        (∃ free, env.bitmap = some free ∧ free (blockof va) = true))) ∧
    (bc_pgfault env s va = .error Fault.free_block →
      0 ≤ env.r_ide_read (u32 (blockof va * BLKSECTS)) ∧
      ∃ s', bc_pgfault { env with bitmap := none } s va = .ok s' ∧
        s'.cache (blockof va)
          = some { bytes := s.disk (blockof va), dirty := false, accessed := false }) ∧
    (InWindow va → beyond_super env (blockof va) = false →
      0 ≤ env.r_page_alloc (ROUNDDOWN va PGSIZE) →
      env.r_ide_read (u32 (blockof va * BLKSECTS)) < 0 →
      bc_pgfault env s va = .error Fault.ide_read_failed) := by
  refine ⟨?_, ?_, ?_⟩
  · rw [← beyond_super_iff, ← bitmap_marks_free_iff]
    exact bc_pgfault_err_iff env s va
  · intro h
    obtain ⟨hw, h1, h2, h3, h4, _⟩ := bc_pgfault_free_block h
    refine ⟨h3, ?_⟩
    have hl : Loadable { env with bitmap := none } (blockof va) := ⟨h1, rfl⟩
    obtain ⟨s', hs, hc, _⟩ := @bc_pgfault_ok_at { env with bitmap := none } s va hw hl h2 h3 h4
    exact ⟨s', hs, hc⟩
  · intro hw h1 h2 h3
    rw [bc_pgfault_eq env s hw, if_neg (by rw [h1]; decide), if_neg (not_lt.mpr h2), if_pos h3]

/-- Witness for C16: with the bitmap marking block 20 free, a fault on block 20 panics with the
free-block panic, after a successful read. -/
theorem bc_pgfault_failures_witness :
    bc_pgfault freeEnv emptyLog (DISKMAP + 20 * BLKSIZE) = .error Fault.free_block ∧
    (0 ≤ freeEnv.r_ide_read (u32 (blockof (DISKMAP + 20 * BLKSIZE) * BLKSECTS)) ∧
      ∃ s', bc_pgfault { freeEnv with bitmap := none } emptyLog (DISKMAP + 20 * BLKSIZE)
          = .ok s' ∧
        s'.cache (blockof (DISKMAP + 20 * BLKSIZE))
          = some { bytes := emptyLog.disk (blockof (DISKMAP + 20 * BLKSIZE)),
                   dirty := false, accessed := false }) :=
  ⟨rfl, (bc_pgfault_failures freeEnv emptyLog (DISKMAP + 20 * BLKSIZE)).2.1 rfl⟩

/-! ## `flush_block`: its exact effect on the device and on the cache -/

theorem flush_cache (s : State) (sec b : Nat) (sl : Slot) (hsec : sec / BLKSECTS = b)
    (hc : s.cache b = some sl) :
    (page_remap (ide_write s sec (mem s b)) b).disk b = sl.bytes ∧
    (∀ c, c ≠ b → (page_remap (ide_write s sec (mem s b)) b).disk c = s.disk c) ∧
    (page_remap (ide_write s sec (mem s b)) b).ide_writes = s.ide_writes ++ [(b, sl.bytes)] ∧
    (page_remap (ide_write s sec (mem s b)) b).cache b
      = some { bytes := sl.bytes, dirty := false, accessed := false } ∧
    (∀ c, c ≠ b → (page_remap (ide_write s sec (mem s b)) b).cache c = s.cache c) := by
  subst hsec
  have hmem : mem s (sec / BLKSECTS) = sl.bytes := by simp [mem, hc]
  refine ⟨?_, ?_, ?_, ?_, ?_⟩
  · simp [page_remap, ide_write, hc, hmem]
  · intro c hcb
    simp [page_remap, ide_write, hc, Function.update_noteq hcb]
  · simp [page_remap, ide_write, hc, hmem]
  · simp [page_remap, ide_write, hc]
  · intro c hcb
    simp [page_remap, ide_write, hc, Function.update_noteq hcb]

theorem flush_block_eq (env : Env) (s : State) {addr : Nat} (hw : InWindow addr) :
    flush_block env s addr =
      if dirtyMapped s (blockof addr) = false then .ok s
      else if env.r_ide_write (u32 (blockof addr * BLKSECTS)) < 0
        then .error Fault.ide_write_failed
      else if env.r_page_map (ROUNDDOWN addr BLKSIZE) < 0
        then .error Fault.flush_page_map_failed
      else .ok (page_remap (ide_write s (u32 (blockof addr * BLKSECTS))
                  (mem s (blockof addr))) (blockof addr)) := by
  unfold flush_block
  rw [blocknum_of_inWindow hw]
  have hc : ¬ (addr < DISKMAP ∨ addr ≥ DISKMAP + DISKSIZE) := by
    simp only [InWindow, DISKMAP, DISKSIZE] at *; omega
  have hrd : blockof (ROUNDDOWN addr BLKSIZE) = blockof addr := blockof_rounddown hw.1
  have hwr := inWindow_rounddown hw
  have h1 : va_is_mapped s (ROUNDDOWN addr BLKSIZE) = (s.cache (blockof addr)).isSome := by
    have := va_is_mapped_iff s (ROUNDDOWN addr BLKSIZE)
    rw [hrd] at this
    cases hv : va_is_mapped s (ROUNDDOWN addr BLKSIZE) with
    | true => exact (this.1 hv).2.symm
    | false =>
      cases hc : (s.cache (blockof addr)).isSome with
      | false => rfl
      | true => rw [this.2 ⟨hwr, hc⟩] at hv; cases hv
  have h2 : va_is_dirty s (ROUNDDOWN addr BLKSIZE) = dirtyMapped s (blockof addr) := by
    rw [va_is_dirty_eq, hrd]
  have hmd : (!va_is_mapped s (ROUNDDOWN addr BLKSIZE) || !va_is_dirty s (ROUNDDOWN addr BLKSIZE))
      = !dirtyMapped s (blockof addr) := by
    rw [h1, h2, dirtyMapped_eq]
    cases (s.cache (blockof addr)).isSome <;> simp
  simp only [hc, if_false]
  rw [hmd, hrd]
  cases hd : dirtyMapped s (blockof addr) <;> simp

/-- C11: for every address in the cache window `flush_block` acts on the block containing it
(the block whose slot starts at the address rounded down to `BLKSIZE`). If that slot is unmapped
or not dirty the call returns the state unchanged: no device write, no cache change. If the slot
is mapped and dirty and the driver and the remap do not fail, the call returns; afterwards the
device block holds the slot's bytes, the slot is still mapped with the same bytes and a clear
dirty flag, every other device block and every other cache slot is as before, and the write
history has grown by exactly that one block write. -/
theorem flush_block_spec (env : Env) (s : State) {addr : Nat} (hw : InWindow addr) :
    ROUNDDOWN addr BLKSIZE = DISKMAP + blockof addr * BLKSIZE ∧
    ((s.cache (blockof addr) = none ∨ ∃ sl, s.cache (blockof addr) = some sl ∧ sl.dirty = false) →
      flush_block env s addr = .ok s) ∧
    (∀ sl, s.cache (blockof addr) = some sl → sl.dirty = true →
      0 ≤ env.r_ide_write (u32 (blockof addr * BLKSECTS)) →
      0 ≤ env.r_page_map (ROUNDDOWN addr BLKSIZE) →
      ∃ s', flush_block env s addr = .ok s' ∧
        s'.disk (blockof addr) = sl.bytes ∧
        s'.cache (blockof addr) = some { bytes := sl.bytes, dirty := false, accessed := false } ∧
        (∀ c, c ≠ blockof addr → s'.disk c = s.disk c) ∧
        (∀ c, c ≠ blockof addr → s'.cache c = s.cache c) ∧
        s'.ide_writes = s.ide_writes ++ [(blockof addr, sl.bytes)]) := by
  refine ⟨?_, ?_, ?_⟩
  · simp only [InWindow, blockof, ROUNDDOWN, DISKMAP, DISKSIZE, BLKSIZE, PGSIZE] at *
    omega
  · intro h
    have hd : dirtyMapped s (blockof addr) = false := by
      unfold dirtyMapped
      rcases h with h | ⟨sl, h, hsl⟩
      · rw [h]
      · rw [h]; exact hsl
    rw [flush_block_eq env s hw, if_pos hd]
  · intro sl hc hsl h1 h2
    have hd : ¬ dirtyMapped s (blockof addr) = false := by
      have : dirtyMapped s (blockof addr) = true := by
        unfold dirtyMapped
        rw [hc]
        exact hsl
      rw [this]
      decide
    obtain ⟨e1, e2, e3, e4, e5⟩ := flush_cache s (u32 (blockof addr * BLKSECTS)) (blockof addr) sl
      (sector_block (blockof_lt_of_inWindow hw)) hc
    refine ⟨_, ?_, e1, e4, e2, e5, e3⟩
    rw [flush_block_eq env s hw, if_neg hd, if_neg (not_lt.mpr h1), if_neg (not_lt.mpr h2)]

/-- Witness for C11: flushing the written block 20 of `dirtyExample`, from an address in the
middle of the block. -/
theorem flush_block_spec_witness :
    ∃ s', flush_block exampleEnv dirtyExample (DISKMAP + 20 * BLKSIZE + 12) = .ok s' ∧
      s'.disk (blockof (DISKMAP + 20 * BLKSIZE + 12)) = (fun _ => 79) ∧
      s'.cache (blockof (DISKMAP + 20 * BLKSIZE + 12))
        = some { bytes := fun _ => 79, dirty := false, accessed := false } ∧
      (∀ c, c ≠ blockof (DISKMAP + 20 * BLKSIZE + 12) → s'.disk c = dirtyExample.disk c) ∧
      (∀ c, c ≠ blockof (DISKMAP + 20 * BLKSIZE + 12) → s'.cache c = dirtyExample.cache c) ∧
      s'.ide_writes
        = dirtyExample.ide_writes ++ [(blockof (DISKMAP + 20 * BLKSIZE + 12), fun _ => 79)] :=
  (flush_block_spec exampleEnv dirtyExample
      (show InWindow (DISKMAP + 20 * BLKSIZE + 12) from ⟨by decide, by decide⟩)).2.2
    { bytes := fun _ => 79, dirty := true, accessed := true } rfl rfl (by decide) (by decide)

/-! ## `manage_eviction` leaves dirty blocks and the device alone -/

theorem keepsDirty_refl (s : State) : KeepsDirty s s :=
  ⟨rfl, rfl, fun _ _ h _ => h⟩

theorem keepsDirty_trans {s s1 s2 : State} (h1 : KeepsDirty s s1) (h2 : KeepsDirty s1 s2) :
    KeepsDirty s s2 := by
  obtain ⟨a1, b1, c1⟩ := h1
  obtain ⟨a2, b2, c2⟩ := h2
  refine ⟨a2.trans a1, b2.trans b1, ?_⟩
  intro c sl hc hd
  exact c2 c sl (c1 c sl hc hd) hd

theorem keepsDirty_remap (s : State) (b : Nat) (h : dirtyMapped s b = false) :
    KeepsDirty s (page_remap s b) := by
  unfold page_remap
  cases hb : s.cache b with
  | none => exact keepsDirty_refl s
  | some sl0 =>
    refine ⟨rfl, rfl, ?_⟩
    intro c sl hc hd
    by_cases hcb : c = b
    · exfalso
      rw [hcb, hb] at hc
      cases hc
      unfold dirtyMapped at h
      rw [hb] at h
      have h2 : sl0.dirty = false := h
      rw [h2] at hd
      cases hd
    · show Function.update s.cache b _ c = some sl
      rw [Function.update_noteq hcb]
      exact hc

theorem keepsDirty_unmap (s : State) (b : Nat) (h : dirtyMapped s b = false) :
    KeepsDirty s (page_unmap s b) := by
  unfold page_unmap
  refine ⟨rfl, rfl, ?_⟩
  intro c sl hc hd
  by_cases hcb : c = b
  · exfalso
    rw [hcb] at hc
    unfold dirtyMapped at h
    rw [hc] at h
    have h2 : sl.dirty = false := h
    rw [h2] at hd
    cases hd
  · show Function.update s.cache b _ c = some sl
    rw [Function.update_noteq hcb]
    exact hc

theorem dirtyMapped_remap (s : State) (b : Nat) : dirtyMapped (page_remap s b) b = false := by
  unfold page_remap
  cases hb : s.cache b with
  | none =>
    show dirtyMapped s b = false
    unfold dirtyMapped
    rw [hb]
  | some sl0 =>
    unfold dirtyMapped
    show (match Function.update s.cache b _ b with
      | some sl => sl.dirty
      | none => false) = false
    rw [Function.update_same]

theorem keepsDirty_evict (s : State) (b : Nat) (h : dirtyMapped s b = false) :
    KeepsDirty s (page_unmap (page_remap s b) b) :=
  keepsDirty_trans (keepsDirty_remap s b h)
    (keepsDirty_unmap (page_remap s b) b (dirtyMapped_remap s b))

theorem evict_scan_keeps (env : Env) :
    ∀ (fuel i : Nat) (ds : Int) (t : Tracked) (s : State),
      KeepsDirty s (evict_scan env fuel i ds t s).2.2.2 := by
  intro fuel
  induction fuel with
  | zero =>
    intro i ds t s
    exact keepsDirty_refl s
  | succ n ih =>
    intro i ds t s
    unfold evict_scan
    split
    · split
      · exact keepsDirty_refl s
      · rename_i va hva
        split
        · split
          · exact ih _ _ _ _
          · exact keepsDirty_refl s
        · rename_i hd
          have hd2 : dirtyMapped s (blockof va) = false := by
            rw [← va_is_dirty_eq]
            simpa using hd
          split
          · exact keepsDirty_refl s
          · split
            · exact keepsDirty_trans (keepsDirty_remap s (blockof va) hd2) (ih _ _ _ _)
            · exact keepsDirty_trans (keepsDirty_evict s (blockof va) hd2) (ih _ _ _ _)
    · exact keepsDirty_refl s

theorem evict_rounds_keeps (env : Env) :
    ∀ (rounds : Nat) (ds : Int) (t : Tracked) (s : State),
      KeepsDirty s (evict_rounds env rounds ds t s).2.2 := by
  intro rounds
  induction rounds with
  | zero =>
    intro ds t s
    unfold evict_rounds
    split
    · exact keepsDirty_refl s
    · exact keepsDirty_refl s
  | succ n ih =>
    intro ds t s
    unfold evict_rounds
    split
    · have hk := evict_scan_keeps env (t.curblock + 1) 0 ds t s
      split
      · rename_i ds1 t1 s1 heq
        rw [heq] at hk
        exact keepsDirty_trans hk (ih _ _ _)
      · rename_i e ds1 t1 s1 _ heq
        rw [heq] at hk
        exact hk
    · exact keepsDirty_refl s

/-- C17: however a run of `manage_eviction` ends (return, panic, or still looping when the
budget of the model is used up), the device and its write history are as on entry and every
slot that was dirty on entry is still mapped with the same bytes and flags, dirty flag set; and
one iteration of the scan on a block whose dirty flag is set leaves the whole state, so also
that block's mapping, untouched. -/
theorem manage_eviction_keeps_dirty (env : Env) (rounds : Nat) (t : Tracked) (s : State)
    (newblockno : Nat) :
    (manage_eviction env rounds t s newblockno).2.2.disk = s.disk ∧
    (manage_eviction env rounds t s newblockno).2.2.ide_writes = s.ide_writes ∧
    (∀ c sl, s.cache c = some sl → sl.dirty = true →
      (manage_eviction env rounds t s newblockno).2.2.cache c = some sl) ∧
    (∀ i ds va, diskaddr env (t.memblocks i) = .ok va → va_is_dirty s va = true →
      (evict_scan env 1 i ds t s).2.2.2 = s) := by
  refine ⟨?_, ?_, ?_, ?_⟩
  · exact (evict_rounds_keeps env rounds _ _ s).1
  · exact (evict_rounds_keeps env rounds _ _ s).2.1
  · exact (evict_rounds_keeps env rounds _ _ s).2.2
  · intro i ds va hva hd
    unfold evict_scan
    rw [hva]
    simp only [hd, if_true]
    split
    · split
      · rfl
      · rfl
    · rfl

/-- Witness for C17: with blocks 20 to 63 tracked and block 64 added, the run returns after
evicting clean blocks, and the written block 20 is still mapped, dirty, with its bytes. -/
theorem manage_eviction_keeps_dirty_witness :
    (manage_eviction exampleEnv 2 trackedExample evictExample 64).1 = Ending.returned ∧
    (manage_eviction exampleEnv 2 trackedExample evictExample 64).2.1.curblock = 23 ∧
    ((manage_eviction exampleEnv 2 trackedExample evictExample 64).2.2.cache 21).isSome
      = false ∧
    (manage_eviction exampleEnv 2 trackedExample evictExample 64).2.2.cache 20
      = some { bytes := fun _ => 79, dirty := true, accessed := true } :=
  ⟨by decide, by decide, by decide,
   (manage_eviction_keeps_dirty exampleEnv 2 trackedExample evictExample 64).2.2.1 20
     { bytes := fun _ => 79, dirty := true, accessed := true } rfl rfl⟩

/-! ## `log_write` issues no device write -/

theorem log_write_scan_device {env : Env} {b addr : Nat} :
    ∀ (fuel i : Nat) (s s' : State) (found : Bool),
      log_write_scan env b addr fuel i s = .ok (found, s') →
      s'.disk = s.disk ∧ s'.ide_writes = s.ide_writes ∧ s'.log_header = s.log_header := by
  intro fuel
  induction fuel with
  | zero =>
    intro i s s' found h
    unfold log_write_scan at h
    cases h
  | succ fuel ih =>
    intro i s s' found h
    unfold log_write_scan at h
    split at h
    · cases h
    · rename_i n s1 h1
      obtain ⟨_, hs1, _⟩ := load32_inv h1
      split at h
      · split at h
        · cases h
        · rename_i bi s2 h2
          obtain ⟨_, hs2, _⟩ := load32_inv h2
          have h12 := same_trans hs1 hs2
          split at h
          · split at h
            · cases h
            · rename_i s3 h3
              cases h
              obtain ⟨_, _, e1, e2, e3, _, _⟩ := memcpy_block_inv h3
              exact ⟨by rw [e1, h12.hdisk], by rw [e2, h12.hwrites], by rw [e3, h12.hlog]⟩
          · obtain ⟨e1, e2, e3⟩ := ih (i + 1) s2 s' found h
            exact ⟨by rw [e1, h12.hdisk], by rw [e2, h12.hwrites], by rw [e3, h12.hlog]⟩
      · cases h
        exact ⟨hs1.hdisk, hs1.hwrites, hs1.hlog⟩

theorem log_write_append_device {env : Env} {b addr : Nat} {s s' : State}
    (h : log_write_append env b addr s = .ok s') :
    s'.disk = s.disk ∧ s'.ide_writes = s.ide_writes ∧ s'.log_header = s.log_header := by
  unfold log_write_append at h
  split at h
  · cases h
  · rename_i n s1 h1
    obtain ⟨_, hs1, _⟩ := load32_inv h1
    split at h
    · cases h
    · split at h
      · cases h
      · split at h
        · cases h
        · rename_i n1 s2 h2
          obtain ⟨_, hs2, _⟩ := load32_inv h2
          split at h
          · cases h
          · rename_i s3 h3
            obtain ⟨_, a1, a2, a3, _, _⟩ := store32_inv h3
            split at h
            · cases h
            · rename_i n2 s4 h4
              obtain ⟨_, hs4, _⟩ := load32_inv h4
              split at h
              · cases h
              · rename_i s5 h5
                obtain ⟨_, _, b1, b2, b3, _, _⟩ := memcpy_block_inv h5
                split at h
                · cases h
                · rename_i n3 s6 h6
                  obtain ⟨_, hs6, _⟩ := load32_inv h6
                  obtain ⟨_, c1, c2, c3, _, _⟩ := store32_inv h
                  refine ⟨?_, ?_, ?_⟩
                  · rw [c1, hs6.hdisk, b1, hs4.hdisk, a1, hs2.hdisk, hs1.hdisk]
                  · rw [c2, hs6.hwrites, b2, hs4.hwrites, a2, hs2.hwrites, hs1.hwrites]
                  · rw [c3, hs6.hlog, b3, hs4.hlog, a3, hs2.hlog, hs1.hlog]

theorem log_write_device {env : Env} {s s' : State} {addr : Nat}
    (h : log_write env s addr = .ok s') :
    s'.disk = s.disk ∧ s'.ide_writes = s.ide_writes ∧ s'.log_header = s.log_header := by
  unfold log_write at h
  split at h
  · cases h
  · split at h
    · cases h
    · rename_i blockno _
      split at h
      · cases h
      · rename_i s1 hscan
        cases h
        exact log_write_scan_device _ _ _ _ _ hscan
      · rename_i s1 hscan
        obtain ⟨e1, e2, e3⟩ := log_write_scan_device _ _ _ _ _ hscan
        obtain ⟨a1, a2, a3⟩ := log_write_append_device h
        exact ⟨by rw [a1, e1], by rw [a2, e2], by rw [a3, e3]⟩

theorem log_write_outside {env : Env} {sb : Super} {addr : Nat} {s s' : State}
    (hL : LogAt env sb s) (hn : log_n s ≤ sb.s_lognblocks)
    (h : log_write env s addr = .ok s') {b : Nat} (hb : OutsideLog sb b) :
    mem s' b = mem s b ∧ dirtyMapped s' b = dirtyMapped s b := by
  obtain ⟨_, _, _, _, hcase⟩ := log_write_inv hL hn h
  unfold OutsideLog at hb
  rcases hcase with ⟨j, hj, _, _, hm, hd⟩ | ⟨_, hlt, _, _, hm, hd⟩
  · have hne : b ≠ sb.s_logstart + 1 + j := by omega
    rw [hm, hd]
    exact ⟨Function.update_noteq hne _ _, Function.update_noteq hne _ _⟩
  · have h1 : b ≠ sb.s_logstart := by omega
    have h2 : b ≠ sb.s_logstart + 1 + log_n s := by omega
    refine ⟨hm b h1 h2, ?_⟩
    rw [hd b]
    simp [h1, h2]

/-- C23, counterexample: on the empty example log with nothing mapped, `log_write` of the
address of block 20 returns, and the cache slot of block 20, which lies outside the log region
(blocks 2 to 18), has changed from unmapped to mapped: the copy into the payload slot reads the
block through the window, and the page fault loads it. -/
theorem log_write_maps_source :
    emptyLog.cache 20 = none ∧ OutsideLog exampleSuper 20 ∧
    ∃ s', log_write exampleEnv emptyLog (DISKMAP + 20 * BLKSIZE) = .ok s' ∧
      (s'.cache 20).isSome = true := by
  refine ⟨rfl, Or.inr (by decide), ?_⟩
  have hev : (match log_write exampleEnv emptyLog (DISKMAP + 20 * BLKSIZE) with
      | .ok s' => (s'.cache 20).isSome
      | .error _ => false) = true := by decide
  cases h : log_write exampleEnv emptyLog (DISKMAP + 20 * BLKSIZE) with
  | error e =>
    rw [h] at hev
    cases hev
  | ok s' =>
    rw [h] at hev
    exact ⟨s', rfl, hev⟩

/-- C23, amended: `log_write` issues no device write. For every state and every address on
which it returns, every device block and the history of device writes are as before the call.
In a state whose log pointers are those of `log_init`, with the count within the capacity, the
bytes seen through the window and the dirty flag are unchanged for every block outside the log
region; slots outside the log region may only be loaded from the device or marked accessed. -/
theorem log_write_no_device_write (env : Env) (s s' : State) (addr : Nat)
    (h : log_write env s addr = .ok s') :
    s'.disk = s.disk ∧ s'.ide_writes = s.ide_writes ∧
    (∀ sb, LogAt env sb s → log_n s ≤ sb.s_lognblocks → ∀ b, OutsideLog sb b →
      mem s' b = mem s b ∧ dirtyMapped s' b = dirtyMapped s b) := by
  obtain ⟨h1, h2, _⟩ := log_write_device h
  exact ⟨h1, h2, fun sb hL hn b hb => log_write_outside hL hn h hb⟩

/-- Witness for C23: `log_write` of block 20 on the empty example log. -/
theorem log_write_no_device_write_witness :
    ∃ s', log_write exampleEnv emptyLog (DISKMAP + 20 * BLKSIZE) = .ok s' ∧
      s'.disk = emptyLog.disk ∧ s'.ide_writes = emptyLog.ide_writes ∧
      (∀ sb, LogAt exampleEnv sb emptyLog → log_n emptyLog ≤ sb.s_lognblocks →
        ∀ b, OutsideLog sb b →
          mem s' b = mem emptyLog b ∧ dirtyMapped s' b = dirtyMapped emptyLog b) := by
  have hw := inWindow_example (b := 20) (by decide)
  have hla : Loadable exampleEnv (blockof (DISKMAP + 20 * BLKSIZE)) := by
    rw [blockof_example (b := 20) (by decide)]; exact exampleEnv_loadable (by decide)
  obtain ⟨s1, h1⟩ := log_write_ok emptyLog_logAt exampleEnv_ready emptyLog_inv.1 hw hla
    (Or.inr (by rw [emptyLog_n]; decide))
  exact ⟨s1, h1, log_write_no_device_write exampleEnv emptyLog s1 _ h1⟩

/-! ## `log_commit` after a sequence of `log_write` calls -/

theorem log_writes_recorded {env : Env} {sb : Super} (p : Nat → Prop) :
    ∀ (addrs : List Nat) (s s' : State), LogAt env sb s → LogInv sb s →
      (∀ k, k < log_n s → p (log_blockno s k)) →
      (∀ a, a ∈ addrs → p (blockof a)) →
      log_writes env s addrs = .ok s' →
      LogAt env sb s' ∧ LogInv sb s' ∧ ∀ k, k < log_n s' → p (log_blockno s' k) := by
  intro addrs
  induction addrs with
  | nil =>
    intro s s' hL hI hp _ h
    unfold log_writes at h
    cases h
    exact ⟨hL, hI, hp⟩
  | cons a rest ih =>
    intro s s' hL hI hp ha h
    unfold log_writes at h
    split at h
    · cases h
    · rename_i s1 h1
      obtain ⟨hL1, hcase⟩ := log_write_spec hL hI.1 h1
      have hI1 := log_write_inv_preserved hL hI h1
      have hroom : sb.s_lognblocks < 1024 := by
        have := hL.room
        simp only [BLKSIZE, PGSIZE] at this
        omega
      have hp1 : ∀ k, k < log_n s1 → p (log_blockno s1 k) := by
        intro k hk
        rcases hcase with ⟨j, _, _, _, hn, hb, _⟩ | ⟨_, hlt, hn, hb, hbs, _⟩
        · rw [hn] at hk
          rw [hb k (by have := hI.1; omega)]
          exact hp k hk
        · rw [hn] at hk
          by_cases hkn : k = log_n s
          · rw [hkn, hb]
            exact ha a (List.mem_cons_self _ _)
          · rw [hbs k (by omega) hkn]
            exact hp k (by omega)
      exact ih s1 s' hL1 hI1 hp1 (fun x hx => ha x (List.mem_cons_of_mem _ hx)) h

/-- C24, counterexample. On the empty example log, `log_write` of `DISKMAP`, an address in the
window, returns and records block number 0, which `diskaddr` refuses: the following
`log_commit` panics. And with block numbers that `diskaddr` accepts: on a device whose block 4
holds old data, `log_write` of block 4 and then of block 2 (the log's second payload slot and
its header block) return and record 4 and 2; `log_commit` installs the old data over the
header, reads block number 0 from it, and panics. -/
theorem log_commit_fails_after_log_write :
    (∃ s1, log_writes exampleEnv emptyLog [DISKMAP] = .ok s1 ∧
      log_n s1 = 1 ∧ log_blockno s1 0 = 0 ∧
      log_commit exampleEnv s1 = .error Fault.bad_block_number) ∧
    (∃ s2, log_writes exampleEnv staleLog [DISKMAP + 4 * BLKSIZE, DISKMAP + 2 * BLKSIZE]
        = .ok s2 ∧
      log_n s2 = 2 ∧ log_blockno s2 0 = 4 ∧ log_blockno s2 1 = 2 ∧
      diskaddr exampleEnv 4 = .ok (DISKMAP + 4 * BLKSIZE) ∧
      diskaddr exampleEnv 2 = .ok (DISKMAP + 2 * BLKSIZE) ∧
      log_commit exampleEnv s2 = .error Fault.bad_block_number) := by
  constructor
  · have hev : returns_with (log_writes exampleEnv emptyLog [DISKMAP])
        (fun s1 => decide (log_n s1 = 1) && decide (log_blockno s1 0 = 0) &&
          panics_with (log_commit exampleEnv s1) Fault.bad_block_number) = true := by decide
    obtain ⟨s1, h1, hp⟩ := ok_of_eval hev
    simp only [Bool.and_eq_true, decide_eq_true_eq] at hp
    exact ⟨s1, h1, hp.1.1, hp.1.2, err_of_eval hp.2⟩
  · have hev : returns_with
        (log_writes exampleEnv staleLog [DISKMAP + 4 * BLKSIZE, DISKMAP + 2 * BLKSIZE])
        (fun s2 => decide (log_n s2 = 2) && decide (log_blockno s2 0 = 4) &&
          decide (log_blockno s2 1 = 2) &&
          panics_with (log_commit exampleEnv s2) Fault.bad_block_number) = true := by decide
    obtain ⟨s2, h2, hp⟩ := ok_of_eval hev
    simp only [Bool.and_eq_true, decide_eq_true_eq] at hp
    exact ⟨s2, h2, hp.1.1.1, hp.1.1.2, hp.1.2, rfl, rfl, err_of_eval hp.2⟩

theorem flush_block_stays {env : Env} {s s' : State} {addr : Nat}
    (h : flush_block env s addr = .ok s') : StaysMapped s s' :=
  fun c hc => by rw [flush_block_mapped h c]; exact hc

theorem flush_log_loop_stays {env : Env} :
    ∀ (fuel i : Nat) (s s' : State), flush_log_loop env fuel i s = .ok s' →
      StaysMapped s s' := by
  intro fuel
  induction fuel with
  | zero =>
    intro i s s' h
    unfold flush_log_loop at h
    cases h
  | succ fuel ih =>
    intro i s s' h
    unfold flush_log_loop at h
    split at h
    · cases h
    · rename_i n s1 h1
      split at h
      · split at h
        · cases h
        · rename_i s2 h2
          exact stays_trans (load32_stays h1)
            (stays_trans (flush_block_stays h2) (ih (i + 1) s2 s' h))
      · cases h
        exact load32_stays h1

theorem flush_log_stays {env : Env} {s s' : State} (h : flush_log env s = .ok s') :
    StaysMapped s s' := by
  unfold flush_log at h
  split at h
  · cases h
  · rename_i s1 h1
    exact stays_trans (flush_log_loop_stays _ _ _ _ h1) (flush_block_stays h)

/-- One iteration of the copy loop of `log_commit` on a home block that is mapped: it runs to
the end, and changes the window at the home block only. -/
theorem commit_entry_ok {env : Env} {sb : Super} (hR : Ready env sb) (s : State)
    (hL : LogAt env sb s) {i : Nat} (hi : i < sb.s_lognblocks)
    (hpos : 0 < log_blockno s i) (hbn : log_blockno s i < sb.s_nblocks)
    (hm : (s.cache (log_blockno s i)).isSome = true) :
    ∃ s2 s3 s4, load32 env s (u32 (s.log_header.blocknos + 4 * i)) = .ok (log_blockno s i, s2) ∧
      diskaddr env (log_blockno s i) = .ok (u32 (DISKMAP + log_blockno s i * BLKSIZE)) ∧
      memcpy_block env s2 (u32 (DISKMAP + log_blockno s i * BLKSIZE))
        (u32 (s2.log_header.log_entries + i * BLKSIZE)) = .ok s3 ∧
      flush_block env s3 (u32 (DISKMAP + log_blockno s i * BLKSIZE)) = .ok s4 ∧
      s4.log_header = s.log_header ∧
      mem s4 = Function.update (mem s) (log_blockno s i) (mem s (sb.s_logstart + 1 + i)) ∧
      StaysMapped s s4 := by
  have hlt := hL.bounds
  have hbs : beyond_super env (log_blockno s i) = false := by
    rw [beyond_super_eq hL.super_eq]
    simp only [decide_eq_false_iff_not, ge_iff_le, not_le]
    exact hbn
  have hb : log_blockno s i < 786432 := by
    have h2 := hR.window
    simp only [DISKSIZE, BLKSIZE, PGSIZE] at h2
    omega
  obtain ⟨s2, h2, hs2⟩ := load_blockno_ok s hL hR (show i < 1023 by omega)
  have hL2 := hL.of_same hs2.hlog
  obtain ⟨hwa, hba, _, _⟩ := addr_block (log_blockno s i) hb
  obtain ⟨hwe, hle⟩ := hL2.entry_ok hR hi
  have hm2 : (s2.cache (blockof (u32 (DISKMAP + log_blockno s i * BLKSIZE)))).isSome = true := by
    rw [hba]
    exact load32_stays h2 _ hm
  obtain ⟨s3, h3⟩ := memcpy_block_to_mapped s2 hR.reliable hwa hm2 hwe hle
  obtain ⟨_, _, _, _, l3, m3, _⟩ := memcpy_block_inv h3
  obtain ⟨_, eb⟩ := addr_entry sb.s_logstart i (by omega)
  rw [hba, hL2.hdr, eb, hs2.hmem] at m3
  obtain ⟨s4, h4⟩ := flush_block_ok s3 hR.reliable hwa
  obtain ⟨_, m4, l4, _, _, _⟩ := flush_block_inv h4
  refine ⟨s2, s3, s4, h2, diskaddr_ok hpos hbs, h3, h4, ?_, ?_, ?_⟩
  · rw [l4, l3, hs2.hlog]
  · rw [m4, m3]
  · exact stays_trans (load32_stays h2)
      (stays_trans (memcpy_block_stays h3).1 (flush_block_stays h4))

/-- The copy loop of `log_commit` runs to its end when every recorded block number is one that
`diskaddr` accepts, is not the header block, and is the number of a mapped block. -/
theorem commit_loop_ok {env : Env} {sb : Super} (hR : Ready env sb) {n : Nat}
    (hcap : n ≤ sb.s_lognblocks) :
    ∀ (len fuel i : Nat) (s : State), LogAt env sb s → log_n s = n →
      (∀ j, j < n → 0 < log_blockno s j ∧ log_blockno s j < sb.s_nblocks ∧
        log_blockno s j ≠ sb.s_logstart ∧ (s.cache (log_blockno s j)).isSome = true) →
      i + len = n → len ≤ fuel →
      ∃ s', commit_loop env (fuel + 1) i s = .ok s' ∧ s'.log_header = s.log_header ∧
        StaysMapped s s' := by
  intro len
  induction len with
  | zero =>
    intro fuel i s hL hn _ hi _
    obtain ⟨s1, h1, hs1⟩ := load_pnblocks_ok s hL hR
    refine ⟨s1, ?_, hs1.hlog, load32_stays h1⟩
    unfold commit_loop
    rw [h1]
    simp only []
    rw [if_neg (by omega)]
  | succ len ih =>
    intro fuel i s hL hn hb hi hf
    have hlt := hL.bounds
    obtain ⟨fuel, rfl⟩ : ∃ f, fuel = f + 1 := ⟨fuel - 1, by omega⟩
    obtain ⟨s1, h1, hs1⟩ := load_pnblocks_ok s hL hR
    have hL1 := hL.of_same hs1.hlog
    have hin : i < n := by omega
    have hbi : log_blockno s1 i = log_blockno s i := hs1.log_blockno i
    obtain ⟨p1, p2, p3, p4⟩ := hb i hin
    obtain ⟨s2, s3, s4, e2, e3, e4, e5, l4, m4, g4⟩ :=
      commit_entry_ok hR s1 hL1 (show i < sb.s_lognblocks by omega)
        (by rw [hbi]; exact p1) (by rw [hbi]; exact p2)
        (by rw [hbi]; exact load32_stays h1 _ p4)
    rw [hbi] at e2 e3 e4 e5 m4
    rw [hs1.hmem] at m4
    have l04 : s4.log_header = s.log_header := l4.trans hs1.hlog
    have hL4 := hL.of_same l04
    have hmL : mem s4 sb.s_logstart = mem s sb.s_logstart := by
      rw [m4, Function.update_noteq (fun hc => p3 hc.symm)]
    obtain ⟨f1, f2⟩ := header_frame hL l04 hmL
    have g04 : StaysMapped s s4 := stays_trans (load32_stays h1) g4
    obtain ⟨s', r1, r2, r3⟩ := ih fuel (i + 1) s4 hL4 (by rw [f1]; exact hn)
      (fun j hj => by
        rw [f2 j (by omega)]
        obtain ⟨q1, q2, q3, q4⟩ := hb j hj
        exact ⟨q1, q2, q3, g04 _ q4⟩) (by omega) (by omega)
    refine ⟨s', ?_, by rw [r2, l04], stays_trans g04 r3⟩
    unfold commit_loop
    rw [h1]
    simp only []
    rw [if_pos (by omega), e2]
    simp only []
    rw [e3]
    simp only []
    rw [e4]
    simp only []
    rw [e5]
    simp only []
    exact r1

/-- The function `log_commit` runs to completion on a log whose recorded block numbers are
accepted by `diskaddr`, differ from the header block and are mapped. -/
theorem log_commit_ok {env : Env} {sb : Super} (hR : Ready env sb) (s : State)
    (hL : LogAt env sb s) (hn : log_n s ≤ sb.s_lognblocks)
    (hb : ∀ j, j < log_n s → 0 < log_blockno s j ∧ log_blockno s j < sb.s_nblocks ∧
      log_blockno s j ≠ sb.s_logstart ∧ (s.cache (log_blockno s j)).isSome = true) :
    ∃ s', log_commit env s = .ok s' := by
  have hlt := hL.bounds
  obtain ⟨s1, h1, m1, l1, _⟩ := flush_log_run hR s hL hn
  have hL1 := hL.of_same l1
  obtain ⟨f1, f2⟩ := header_frame hL l1 (by rw [m1])
  have g1 := flush_log_stays h1
  obtain ⟨s2, h2, l2, _⟩ := commit_loop_ok hR hn (log_n s) 4294967295 0 s1 hL1 f1
    (fun j hj => by
      rw [f2 j (by omega)]
      obtain ⟨q1, q2, q3, q4⟩ := hb j hj
      exact ⟨q1, q2, q3, g1 _ q4⟩)
    (by omega) (by have := log_n_lt s; simp only [U32] at this; omega)
  have hL2 := hL1.of_same l2
  obtain ⟨hwp, hlp⟩ := hL2.pn_ok hR
  obtain ⟨s3, h3⟩ := store32_ok s2 0 hR.reliable hwp hlp
  obtain ⟨_, _, _, l3, _, _⟩ := store32_inv h3
  have hL3 := hL2.of_same l3
  obtain ⟨hwp3, _⟩ := hL3.pn_ok hR
  obtain ⟨s4, h4⟩ := flush_block_ok s3 hR.reliable hwp3
  refine ⟨s4, ?_⟩
  unfold log_commit
  rw [h1]
  simp only []
  have hfuel : LOOP_BOUND = 4294967295 + 1 := rfl
  rw [hfuel, h2]
  simp only []
  rw [h3]
  simp only []
  exact h4

/-- What a run of `log_write` calls that all return records: block numbers of the addresses
written, each of a block that is mapped afterwards. -/
theorem log_writes_tracked {env : Env} {sb : Super} (p : Nat → Prop) :
    ∀ (addrs : List Nat) (s s' : State), LogAt env sb s → LogInv sb s →
      (∀ k, k < log_n s → p (log_blockno s k) ∧ (s.cache (log_blockno s k)).isSome = true) →
      (∀ a, a ∈ addrs → p (blockof a)) →
      log_writes env s addrs = .ok s' →
      LogAt env sb s' ∧ LogInv sb s' ∧
        ∀ k, k < log_n s' → p (log_blockno s' k) ∧ (s'.cache (log_blockno s' k)).isSome = true := by
  intro addrs
  induction addrs with
  | nil =>
    intro s s' hL hI hp _ h
    unfold log_writes at h
    cases h
    exact ⟨hL, hI, hp⟩
  | cons a rest ih =>
    intro s s' hL hI hp ha h
    unfold log_writes at h
    split at h
    · cases h
    · rename_i s1 h1
      obtain ⟨hL1, hcase⟩ := log_write_spec hL hI.1 h1
      have hI1 := log_write_inv_preserved hL hI h1
      obtain ⟨g1, g2⟩ := log_write_stays h1
      have hroom : sb.s_lognblocks < 1024 := by
        have := hL.room
        simp only [BLKSIZE, PGSIZE] at this
        omega
      have hp1 : ∀ k, k < log_n s1 →
          p (log_blockno s1 k) ∧ (s1.cache (log_blockno s1 k)).isSome = true := by
        intro k hk
        rcases hcase with ⟨j, _, _, _, hn, hb, _⟩ | ⟨_, hlt, hn, hb, hbs, _⟩
        · rw [hn] at hk
          rw [hb k (by have := hI.1; omega)]
          exact ⟨(hp k hk).1, g1 _ (hp k hk).2⟩
        · rw [hn] at hk
          by_cases hkn : k = log_n s
          · rw [hkn, hb]
            exact ⟨ha a (List.mem_cons_self _ _), g2⟩
          · rw [hbs k (by omega) hkn]
            have hk' : k < log_n s := by omega
            exact ⟨(hp k hk').1, g1 _ (hp k hk').2⟩
      exact ih s1 s' hL1 hI1 hp1 (fun b hb => ha b (List.mem_cons_of_mem _ hb)) h

/-- C24, the block count: a block number at or above the total block count makes `log_commit`
fail. On the empty example log with block 2000 mapped (the device has 1024 blocks),
`log_write` of the address of block 2000 returns and records 2000, which `diskaddr` refuses:
the following `log_commit` panics. -/
theorem log_commit_fails_beyond_device :
    exampleSuper.s_nblocks = 1024 ∧ InWindow (DISKMAP + 2000 * BLKSIZE) ∧
    ∃ s1, log_writes exampleEnv
        { emptyLog with
          cache := fun b =>
            if b = 2000 then some { bytes := fun _ => 0, dirty := false, accessed := false }
            else none }
        [DISKMAP + 2000 * BLKSIZE] = .ok s1 ∧
      log_n s1 = 1 ∧ log_blockno s1 0 = 2000 ∧
      log_commit exampleEnv s1 = .error Fault.bad_block_number := by
  refine ⟨rfl, ⟨by decide, by decide⟩, ?_⟩
  have hev : returns_with
      (log_writes exampleEnv
        { emptyLog with
          cache := fun b =>
            if b = 2000 then some { bytes := fun _ => 0, dirty := false, accessed := false }
            else none }
        [DISKMAP + 2000 * BLKSIZE])
      (fun s1 => decide (log_n s1 = 1) && decide (log_blockno s1 0 = 2000) &&
        panics_with (log_commit exampleEnv s1) Fault.bad_block_number) = true := by decide
  obtain ⟨s1, h1, hp⟩ := ok_of_eval hev
  simp only [Bool.and_eq_true, decide_eq_true_eq] at hp
  exact ⟨s1, h1, hp.1.1, hp.1.2, err_of_eval hp.2⟩

/-- C24, amended. For a log laid out as `log_init` lays it out, whose region lies inside the
disk-map window and whose capacity `s_lognblocks` is below `BLKSIZE / 4`, in an environment
where the kernel and the driver report no error and the blocks of the log region exist and are
allocated: for every sequence of `log_write` calls that all return, starting from an empty log,
on addresses whose blocks are non-zero, below the total block count and other than the header
block of the log, every block number recorded in `blocknos[0..n)` is accepted by `diskaddr`
(it is non-zero and below the total block count), it is not the header block, and the
following `log_commit` runs to completion. The blocks may be payload slots of the log, and
need not be pairwise distinct. -/
theorem log_commit_after_log_writes {env : Env} {sb : Super} (hR : Ready env sb)
    (hsuper : env.super = some sb)
    (hfits : sb.s_logstart + sb.s_lognblocks < DISKSIZE / BLKSIZE)
    (hroom : sb.s_lognblocks < BLKSIZE / 4)
    (s s1 : State) (addrs : List Nat)
    (hdr : s.log_header = log_header_at (DISKMAP + sb.s_logstart * BLKSIZE))
    (h0 : log_n s = 0)
    (ha : ∀ a, a ∈ addrs → 0 < blockof a ∧ blockof a < sb.s_nblocks ∧
      blockof a ≠ sb.s_logstart)
    (hw : log_writes env s addrs = .ok s1) :
    (∀ i, i < log_n s1 → 0 < log_blockno s1 i ∧ log_blockno s1 i < sb.s_nblocks ∧
      log_blockno s1 i ≠ sb.s_logstart ∧
      ∃ a, diskaddr env (log_blockno s1 i) = .ok a) ∧
    ∃ s', log_commit env s1 = .ok s' := by
  have hL : LogAt env sb s := ⟨hsuper, hdr, hfits, hroom⟩
  obtain ⟨hL1, hI1, hp⟩ := log_writes_tracked
    (fun b => 0 < b ∧ b < sb.s_nblocks ∧ b ≠ sb.s_logstart)
    addrs s s1 hL (logInv_of_empty sb h0)
    (fun k hk => by rw [h0] at hk; omega) ha hw
  constructor
  · intro i hi
    obtain ⟨⟨h1, h2, h3⟩, _⟩ := hp i hi
    refine ⟨h1, h2, h3, _, diskaddr_ok h1 ?_⟩
    rw [beyond_super_eq hsuper]
    simp only [decide_eq_false_iff_not, ge_iff_le, not_le]
    exact h2
  · exact log_commit_ok hR s1 hL1 hI1.1
      (fun j hj => ⟨(hp j hj).1.1, (hp j hj).1.2.1, (hp j hj).1.2.2, (hp j hj).2⟩)

/-- Witness for C24: the blocks 5, 7, 3, 18 and 4, all of them payload slots of the example
log, then block 5 again, are logged on the empty example log, and the commit runs to
completion. -/
theorem log_commit_after_log_writes_witness :
    (exampleEnv.super = some exampleSuper ∧
      exampleSuper.s_logstart + exampleSuper.s_lognblocks < DISKSIZE / BLKSIZE ∧
      exampleSuper.s_lognblocks < BLKSIZE / 4) ∧
    ∃ s1, log_writes exampleEnv emptyLog
        [DISKMAP + 5 * BLKSIZE, DISKMAP + 7 * BLKSIZE, DISKMAP + 3 * BLKSIZE,
         DISKMAP + 18 * BLKSIZE, DISKMAP + 4 * BLKSIZE, DISKMAP + 5 * BLKSIZE] = .ok s1 ∧
      (∀ i, i < log_n s1 → 0 < log_blockno s1 i ∧
        log_blockno s1 i < exampleSuper.s_nblocks ∧
        log_blockno s1 i ≠ exampleSuper.s_logstart ∧
        ∃ a, diskaddr exampleEnv (log_blockno s1 i) = .ok a) ∧
      ∃ s', log_commit exampleEnv s1 = .ok s' := by
  refine ⟨⟨rfl, by decide, by decide⟩, ?_⟩
  have hev : returns_with (log_writes exampleEnv emptyLog
      [DISKMAP + 5 * BLKSIZE, DISKMAP + 7 * BLKSIZE, DISKMAP + 3 * BLKSIZE,
       DISKMAP + 18 * BLKSIZE, DISKMAP + 4 * BLKSIZE, DISKMAP + 5 * BLKSIZE])
      (fun _ => true) = true := by decide
  obtain ⟨s1, h1, _⟩ := ok_of_eval hev
  refine ⟨s1, h1, log_commit_after_log_writes exampleEnv_ready rfl (by decide) (by decide)
    emptyLog s1 _ rfl emptyLog_n ?_ h1⟩
  intro a hm
  simp only [List.mem_cons, List.mem_singleton, List.not_mem_nil, or_false] at hm
  rcases hm with rfl | rfl | rfl | rfl | rfl | rfl <;> decide

/-! ## One examination of a tracked block by `manage_eviction` -/

theorem remap_cache (s : State) (b : Nat) (sl : Slot) (h : s.cache b = some sl) :
    (page_remap s b).cache b = some { bytes := sl.bytes, dirty := false, accessed := false } ∧
    (∀ c, c ≠ b → (page_remap s b).cache c = s.cache c) ∧
    (page_remap s b).disk = s.disk := by
  unfold page_remap
  rw [h]
  refine ⟨Function.update_same _ _ _, ?_, rfl⟩
  intro c hc
  exact Function.update_noteq hc _ _

theorem evict_cache (s : State) (b : Nat) :
    (page_unmap (page_remap s b) b).cache b = none ∧
    (∀ c, c ≠ b → (page_unmap (page_remap s b) b).cache c = s.cache c) ∧
    (page_unmap (page_remap s b) b).disk = s.disk := by
  refine ⟨page_unmap_cache _ _, ?_, ?_⟩
  · intro c hc
    have h1 : (page_unmap (page_remap s b) b).cache c = (page_remap s b).cache c := by
      unfold page_unmap
      exact Function.update_noteq hc _ _
    rw [h1]
    unfold page_remap
    cases hb : s.cache b with
    | none => rfl
    | some sl => exact Function.update_noteq hc _ _
  · unfold page_unmap page_remap
    cases hb : s.cache b with
    | none => rfl
    | some sl => rfl

theorem evict_scan_clean {env : Env} (t : Tracked) (s : State) (i : Nat) (ds : Int) {va : Nat}
    (hi : i < t.curblock) (hh : over_half_threshold t.curblock = true)
    (hva : diskaddr env (t.memblocks i) = .ok va) (hd : va_is_dirty s va = false)
    (hm : (s.cache (blockof va)).isSome = true) (hr : 0 ≤ env.r_page_map va) :
    evict_scan env 1 i ds t s =
      if va_is_accessed s va = true then
        (Ending.running, ds, t, page_remap s (blockof va))
      else
        (Ending.running, ds,
          { memblocks := Function.update t.memblocks i (t.memblocks (t.curblock - 1)),
            curblock := t.curblock - 1 },
          page_unmap (page_remap s (blockof va)) (blockof va)) := by
  have hc : ¬ ((s.cache (blockof va)).isSome = false ∨ env.r_page_map va < 0) := by
    rw [hm]
    intro h
    rcases h with h | h
    · cases h
    · exact absurd h (not_lt.mpr hr)
  unfold evict_scan
  rw [if_pos ⟨hi, hh⟩, hva]
  simp only [hd, Bool.false_eq_true, if_false]
  rw [if_neg hc]
  split
  · rfl
  · rfl

theorem evict_scan_dirty {env : Env} (t : Tracked) (s : State) (i : Nat) (ds : Int) {va : Nat}
    (hi : i < t.curblock) (hh : over_half_threshold t.curblock = true)
    (hva : diskaddr env (t.memblocks i) = .ok va) (hd : va_is_dirty s va = true) :
    evict_scan env 1 i ds t s =
      if ds > (i : Int) then
        (Ending.running, ds - 1,
          { memblocks := swap_entries t.memblocks ds.toNat i, curblock := t.curblock }, s)
      else (Ending.returned, ds, t, s) := by
  unfold evict_scan
  rw [if_pos ⟨hi, hh⟩, hva]
  simp only [hd, if_true]
  split
  · rfl
  · rfl

/-- C21, counterexample: block 20 of `evictExample` is dirty and accessed. The call of
`manage_eviction` that adds block 64 to the 44 tracked blocks returns after one scan, which
examines block 20 first; after it the accessed flag of block 20 is still set. Already the one
examination of block 20 leaves the flag set. -/
theorem manage_eviction_dirty_keeps_accessed :
    va_is_dirty evictExample (DISKMAP + 20 * BLKSIZE) = true ∧
    va_is_accessed evictExample (DISKMAP + 20 * BLKSIZE) = true ∧
    diskaddr exampleEnv 20 = .ok (DISKMAP + 20 * BLKSIZE) ∧
    (manage_eviction exampleEnv 2 trackedExample evictExample 64).1 = Ending.returned ∧
    va_is_accessed (manage_eviction exampleEnv 2 trackedExample evictExample 64).2.2
      (DISKMAP + 20 * BLKSIZE) = true ∧
    va_is_accessed (evict_scan exampleEnv 1 0 43 trackedExample evictExample).2.2.2
      (DISKMAP + 20 * BLKSIZE) = true :=
  ⟨by decide, by decide, rfl, by decide, by decide, by decide⟩

/-- C21, amended: one examination by the scan of `manage_eviction` of the tracked block at
index `i`, at address `va`. If the block is neither accessed nor dirty (and is mapped, the
remap succeeding) it is unmapped and dropped from the tracked list: the last tracked block
takes its place and the count goes down by one. If it is accessed and not dirty it is given a
second chance: its accessed flag is cleared, it stays mapped with its bytes and stays tracked.
If it is dirty, accessed or not, nothing is remapped or unmapped: the whole cache state, so
also its accessed flag, is as before, and the number of tracked blocks is as before; when
`dirty_swap > i` the entries `memblocks[i]` and `memblocks[dirty_swap]` are exchanged, no
other entry changes and `dirty_swap` goes down by one, so that the block is tracked at index
`dirty_swap` if that index is below the number of tracked blocks; otherwise the scan ends with
the tracked list as it was. No other cache slot changes in any of the three cases. -/
theorem evict_scan_examines {env : Env} (t : Tracked) (s : State) (i : Nat) (ds : Int)
    {va : Nat} (hi : i < t.curblock) (hh : over_half_threshold t.curblock = true)
    (hva : diskaddr env (t.memblocks i) = .ok va) :
    (va_is_dirty s va = false → va_is_accessed s va = false →
      (s.cache (blockof va)).isSome = true → 0 ≤ env.r_page_map va →
      (evict_scan env 1 i ds t s).2.2.2.cache (blockof va) = none ∧
      (∀ c, c ≠ blockof va → (evict_scan env 1 i ds t s).2.2.2.cache c = s.cache c) ∧
      (evict_scan env 1 i ds t s).2.2.1.curblock = t.curblock - 1 ∧
      (evict_scan env 1 i ds t s).2.2.1.memblocks i = t.memblocks (t.curblock - 1)) ∧
    (va_is_dirty s va = false → va_is_accessed s va = true →
      ∀ sl, s.cache (blockof va) = some sl → 0 ≤ env.r_page_map va →
      (evict_scan env 1 i ds t s).2.2.2.cache (blockof va)
        = some { bytes := sl.bytes, dirty := false, accessed := false } ∧
      (∀ c, c ≠ blockof va → (evict_scan env 1 i ds t s).2.2.2.cache c = s.cache c) ∧
      (evict_scan env 1 i ds t s).2.2.1 = t) ∧
    (va_is_dirty s va = true →
      evict_scan env 1 i ds t s =
        (if ds > (i : Int) then
          (Ending.running, ds - 1,
            { memblocks := swap_entries t.memblocks ds.toNat i, curblock := t.curblock }, s)
        else (Ending.returned, ds, t, s)) ∧
      (evict_scan env 1 i ds t s).2.2.2 = s ∧
      (evict_scan env 1 i ds t s).2.2.1.curblock = t.curblock ∧
      (ds > (i : Int) →
        (evict_scan env 1 i ds t s).1 = Ending.running ∧
        (evict_scan env 1 i ds t s).2.1 = ds - 1 ∧
        (evict_scan env 1 i ds t s).2.2.1.memblocks ds.toNat = t.memblocks i ∧
        (evict_scan env 1 i ds t s).2.2.1.memblocks i = t.memblocks ds.toNat ∧
        (∀ j, j ≠ i → j ≠ ds.toNat →
          (evict_scan env 1 i ds t s).2.2.1.memblocks j = t.memblocks j) ∧
        (ds.toNat < t.curblock →
          ∃ j, j < (evict_scan env 1 i ds t s).2.2.1.curblock ∧
            (evict_scan env 1 i ds t s).2.2.1.memblocks j = t.memblocks i)) ∧
      (¬ ds > (i : Int) →
        (evict_scan env 1 i ds t s).1 = Ending.returned ∧
        (evict_scan env 1 i ds t s).2.1 = ds ∧
        (evict_scan env 1 i ds t s).2.2.1 = t)) := by
  refine ⟨?_, ?_, ?_⟩
  · intro hd hacc hm hr
    have hna : ¬ va_is_accessed s va = true := by rw [hacc]; decide
    rw [evict_scan_clean t s i ds hi hh hva hd hm hr, if_neg hna]
    obtain ⟨e1, e2, _⟩ := evict_cache s (blockof va)
    exact ⟨e1, e2, rfl, Function.update_same _ _ _⟩
  · intro hd hacc sl hsl hr
    have hm : (s.cache (blockof va)).isSome = true := by rw [hsl]; rfl
    rw [evict_scan_clean t s i ds hi hh hva hd hm hr, if_pos hacc]
    obtain ⟨e1, e2, _⟩ := remap_cache s (blockof va) sl hsl
    exact ⟨e1, e2, rfl⟩
  · intro hd
    refine ⟨evict_scan_dirty t s i ds hi hh hva hd, ?_⟩
    rw [evict_scan_dirty t s i ds hi hh hva hd]
    by_cases hgt : ds > (i : Int)
    · rw [if_pos hgt]
      have hne : ds.toNat ≠ i := by omega
      have hat : swap_entries t.memblocks ds.toNat i ds.toNat = t.memblocks i := by
        unfold swap_entries
        rw [Function.update_noteq hne, Function.update_same]
      refine ⟨rfl, rfl, fun _ => ⟨rfl, rfl, hat, ?_, ?_, ?_⟩, fun h => absurd hgt h⟩
      · exact Function.update_same _ _ _
      · intro j hj1 hj2
        show swap_entries t.memblocks ds.toNat i j = t.memblocks j
        unfold swap_entries
        rw [Function.update_noteq hj1, Function.update_noteq hj2]
      · intro hlt
        exact ⟨ds.toNat, hlt, hat⟩
    · rw [if_neg hgt]
      exact ⟨rfl, rfl, fun h => absurd h hgt, fun _ => ⟨rfl, rfl, rfl⟩⟩

/-- Witness for C21 with the 44 tracked blocks 20 to 63: block 21 of `evictExample`, clean and
not accessed, is unmapped and replaced in the list by the last block, 63; block 21 of
`dirtyExample`, clean and accessed, keeps its mapping and loses the accessed flag; the dirty
block 20 of `evictExample`, examined at index 0 with `dirty_swap = 43`, is left alone and
changes places with block 63 at index 43. -/
theorem evict_scan_examines_witness :
    ((evict_scan exampleEnv 1 1 43 trackedExample evictExample).2.2.2.cache
        (blockof (DISKMAP + 21 * BLKSIZE)) = none ∧
      (∀ c, c ≠ blockof (DISKMAP + 21 * BLKSIZE) →
        (evict_scan exampleEnv 1 1 43 trackedExample evictExample).2.2.2.cache c
          = evictExample.cache c) ∧
      (evict_scan exampleEnv 1 1 43 trackedExample evictExample).2.2.1.curblock
        = trackedExample.curblock - 1 ∧
      (evict_scan exampleEnv 1 1 43 trackedExample evictExample).2.2.1.memblocks 1
        = trackedExample.memblocks (trackedExample.curblock - 1)) ∧
    ((evict_scan exampleEnv 1 1 43 trackedExample dirtyExample).2.2.2.cache
        (blockof (DISKMAP + 21 * BLKSIZE))
        = some { bytes := fun _ => 0, dirty := false, accessed := false } ∧
      (∀ c, c ≠ blockof (DISKMAP + 21 * BLKSIZE) →
        (evict_scan exampleEnv 1 1 43 trackedExample dirtyExample).2.2.2.cache c
          = dirtyExample.cache c) ∧
      (evict_scan exampleEnv 1 1 43 trackedExample dirtyExample).2.2.1 = trackedExample) ∧
    ((evict_scan exampleEnv 1 0 43 trackedExample evictExample).2.2.2 = evictExample ∧
      (evict_scan exampleEnv 1 0 43 trackedExample evictExample).2.2.1.curblock = 44 ∧
      (evict_scan exampleEnv 1 0 43 trackedExample evictExample).1 = Ending.running ∧
      (evict_scan exampleEnv 1 0 43 trackedExample evictExample).2.1 = 42 ∧
      (evict_scan exampleEnv 1 0 43 trackedExample evictExample).2.2.1.memblocks 43 = 20 ∧
      (evict_scan exampleEnv 1 0 43 trackedExample evictExample).2.2.1.memblocks 0 = 63) := by
  have h1 := (@evict_scan_examines exampleEnv trackedExample evictExample 1 43
    (DISKMAP + 21 * BLKSIZE) (by decide) (by decide) rfl).1 (by decide) (by decide) (by decide)
    (by decide)
  have h2 := (@evict_scan_examines exampleEnv trackedExample dirtyExample 1 43
    (DISKMAP + 21 * BLKSIZE) (by decide) (by decide) rfl).2.1 (by decide) (by decide)
    { bytes := fun _ => 0, dirty := false, accessed := true } rfl (by decide)
  have h3 := (@evict_scan_examines exampleEnv trackedExample evictExample 0 43
    (DISKMAP + 20 * BLKSIZE) (by decide) (by decide) rfl).2.2 (by decide)
  have h4 := h3.2.2.2.1 (by decide)
  exact ⟨h1, h2, h3.2.1, h3.2.2.1, h4.1, h4.2.1, h4.2.2.1, h4.2.2.2.1⟩

/-- C21, the tracked list: a dirty block can leave the tracked blocks. In `strayExample`
blocks 20 and 63 are clean and accessed and block 22 is dirty. The call of `manage_eviction`
that adds block 64 to the 44 tracked blocks 20 to 63 drops blocks 21 and 64, so that 43 blocks
are tracked when block 22 is examined at index 2 with `dirty_swap = 44`: the exchange puts
block 22 at index 44. The call returns with 22 tracked blocks, block 22 not among them and
still mapped and dirty. -/
theorem manage_eviction_dirty_leaves_tracking :
    (manage_eviction exampleEnv 2 trackedExample strayExample 64).1 = Ending.returned ∧
    (manage_eviction exampleEnv 2 trackedExample strayExample 64).2.1.curblock = 22 ∧
    (∀ j, j < 22 →
      (manage_eviction exampleEnv 2 trackedExample strayExample 64).2.1.memblocks j ≠ 22) ∧
    (manage_eviction exampleEnv 2 trackedExample strayExample 64).2.1.memblocks 44 = 22 ∧
    va_is_dirty (manage_eviction exampleEnv 2 trackedExample strayExample 64).2.2
      (DISKMAP + 22 * BLKSIZE) = true := by
  refine ⟨by decide, by decide, by decide, by decide, by decide⟩

end JosFs

namespace JosKern

/-! ## The address check of the page system calls -/

theorem aligned_user_addr_false_iff (va : Nat) :
    ALIGNED_USER_ADDR va = false ↔ (UTOP ≤ va ∧ va % PGSIZE ≠ 0) := by
  unfold ALIGNED_USER_ADDR
  simp only [Bool.or_eq_false_iff, decide_eq_false_iff_not, not_lt]
  tauto

/-- C18: the page system calls accept a page-aligned address at or above `UTOP` and an
unaligned address below `UTOP`. In the example kernel `sys_page_alloc` at `UTOP` returns 0 and
installs a mapping there; `sys_page_alloc` and `sys_page_unmap` at the unaligned `0x800001`
return 0, the latter removing the page mapped at `0x800000`; `sys_page_map` to `UTOP` returns 0
and installs a mapping. The check `ALIGNED_USER_ADDR` rejects an address only when it is both
at or above `UTOP` and unaligned. -/
theorem page_syscalls_accept_bad_va :
    (sys_page_alloc examplePmap exampleKernel 0 UTOP (PTE_U ||| PTE_P)).1 = 0 ∧
    (exampleKernel.envs 0).env_pgdir (UTOP / PGSIZE) = none ∧
    ((sys_page_alloc examplePmap exampleKernel 0 UTOP (PTE_U ||| PTE_P)).2.envs 0).env_pgdir
      (UTOP / PGSIZE) = some { page := 7, perm := 5 } ∧
    (sys_page_alloc examplePmap exampleKernel 0 8388609 (PTE_U ||| PTE_P)).1 = 0 ∧
    (sys_page_unmap examplePmap exampleKernel 0 8388609).1 = 0 ∧
    (exampleKernel.envs 0).env_pgdir 2048 = some { page := 3, perm := 7 } ∧
    ((sys_page_unmap examplePmap exampleKernel 0 8388609).2.envs 0).env_pgdir 2048 = none ∧
    (sys_page_map examplePmap exampleKernel 0 8388608 0 UTOP (PTE_U ||| PTE_P)).1 = 0 ∧
    ((sys_page_map examplePmap exampleKernel 0 8388608 0 UTOP (PTE_U ||| PTE_P)).2.envs
      0).env_pgdir (UTOP / PGSIZE) = some { page := 3, perm := 5 } ∧
    (∀ va, ALIGNED_USER_ADDR va = false ↔ (UTOP ≤ va ∧ va % PGSIZE ≠ 0)) :=
  ⟨by decide, by decide, by decide, by decide, by decide, by decide, by decide, by decide,
   by decide, aligned_user_addr_false_iff⟩

/-! ## The permission check of the page system calls -/

/-- C19: the page system calls accept a permission word with only one of `PTE_U` and `PTE_P`
set. `VALID_USER_PERM` holds of `PTE_U | PTE_W`, of `PTE_U` and of `PTE_P`; in the example
kernel `sys_page_alloc` with `PTE_U | PTE_W` and `sys_page_map` with `PTE_U` return 0 and
install the mapping. A word with neither bit, or with a bit outside `PTE_SYSCALL`, is
refused with `-E_INVAL`. -/
theorem page_syscalls_accept_partial_perm :
    VALID_USER_PERM (PTE_U ||| PTE_W) = true ∧ VALID_USER_PERM PTE_U = true ∧
    VALID_USER_PERM PTE_P = true ∧
    (sys_page_alloc examplePmap exampleKernel 0 268435456 (PTE_U ||| PTE_W)).1 = 0 ∧
    ((sys_page_alloc examplePmap exampleKernel 0 268435456 (PTE_U ||| PTE_W)).2.envs
      0).env_pgdir 65536 = some { page := 7, perm := 7 } ∧
    (sys_page_map examplePmap exampleKernel 0 8388608 0 9437184 PTE_U).1 = 0 ∧
    ((sys_page_map examplePmap exampleKernel 0 8388608 0 9437184 PTE_U).2.envs 0).env_pgdir
      2304 = some { page := 3, perm := 5 } ∧
    (sys_page_alloc examplePmap exampleKernel 0 268435456 PTE_W).1 = -E_INVAL ∧
    (sys_page_alloc examplePmap exampleKernel 0 268435456 (PTE_U ||| PTE_P ||| 8)).1
      = -E_INVAL :=
  ⟨by decide, by decide, by decide, by decide, by decide, by decide, by decide, by decide,
   by decide⟩

/-! ## `sys_ipc_try_send` -/

theorem set_pgdir_env_id (k : Kernel) (e : Nat) (pgdir : Pgdir) (c : Nat) :
    ((set_pgdir k e pgdir).envs c).env_id = (k.envs c).env_id := by
  unfold set_pgdir
  by_cases hc : c = e
  · subst hc
    simp
  · simp [Function.update_noteq hc]

theorem set_pgdir_curenv (k : Kernel) (e : Nat) (pgdir : Pgdir) :
    (set_pgdir k e pgdir).curenv = k.curenv := rfl

theorem ipc_deliver_fields (k : Kernel) (recv value perm : Nat) :
    ((ipc_deliver k recv value perm).envs recv).env_ipc_recving = false ∧
    ((ipc_deliver k recv value perm).envs recv).env_ipc_from = (k.envs k.curenv).env_id ∧
    ((ipc_deliver k recv value perm).envs recv).env_ipc_value = value ∧
    ((ipc_deliver k recv value perm).envs recv).env_ipc_perm = perm ∧
    ((ipc_deliver k recv value perm).envs recv).reg_eax = 0 ∧
    ((ipc_deliver k recv value perm).envs recv).env_status = EnvStatus.ENV_RUNNABLE := by
  unfold ipc_deliver
  simp

/-- The two ways a call of `sys_ipc_try_send` ends: with one of the five error codes and the
kernel state untouched, or with 0 and the delivery made to the environment that `envid` names,
after the page insertion when a page is transferred. -/
theorem sys_ipc_try_send_cases (pm : Pmap) (k : Kernel) (envid value srcva perm : Nat) :
    ((sys_ipc_try_send pm k envid value srcva perm).2 = k ∧
      ((sys_ipc_try_send pm k envid value srcva perm).1 = -E_BAD_ENV ∨
       (sys_ipc_try_send pm k envid value srcva perm).1 = -E_IPC_NOT_RECV ∨
       (sys_ipc_try_send pm k envid value srcva perm).1 = -E_INVAL ∨
       (sys_ipc_try_send pm k envid value srcva perm).1 = -E_NO_MEM)) ∨
    ((sys_ipc_try_send pm k envid value srcva perm).1 = 0 ∧
      ∃ recv, pm.envid2env k envid false = some recv ∧
        (k.envs recv).env_ipc_recving = true ∧
        ((srcva < UTOP ∧ (k.envs recv).env_ipc_dstva < UTOP ∧
            ∃ pgdir, (sys_ipc_try_send pm k envid value srcva perm).2
              = ipc_deliver (set_pgdir k recv pgdir) recv value perm) ∨
         (¬ (srcva < UTOP ∧ (k.envs recv).env_ipc_dstva < UTOP) ∧
            (sys_ipc_try_send pm k envid value srcva perm).2
              = ipc_deliver k recv value 0))) := by
  unfold sys_ipc_try_send
  cases he : pm.envid2env k envid false with
  | none => exact Or.inl ⟨rfl, Or.inl rfl⟩
  | some recv =>
    simp only
    by_cases hr : (k.envs recv).env_ipc_recving = false
    · rw [if_pos hr]
      exact Or.inl ⟨rfl, Or.inr (Or.inl rfl)⟩
    rw [if_neg hr]
    have hr2 : (k.envs recv).env_ipc_recving = true := by simpa using hr
    by_cases hp : srcva < UTOP ∧ (k.envs recv).env_ipc_dstva < UTOP
    · rw [if_pos hp]
      by_cases ha : ALIGNED_USER_ADDR srcva = false
      · rw [if_pos ha]
        exact Or.inl ⟨rfl, Or.inr (Or.inr (Or.inl rfl))⟩
      rw [if_neg ha]
      by_cases hv : VALID_USER_PERM perm = false
      · rw [if_pos hv]
        exact Or.inl ⟨rfl, Or.inr (Or.inr (Or.inl rfl))⟩
      rw [if_neg hv]
      cases hl : pm.page_lookup (k.envs k.curenv).env_pgdir srcva with
      | none => exact Or.inl ⟨rfl, Or.inr (Or.inr (Or.inl rfl))⟩
      | some pte =>
        simp only
        by_cases hw : perm &&& PTE_W ≠ 0 ∧ pte.perm &&& PTE_W = 0
        · rw [if_pos hw]
          exact Or.inl ⟨rfl, Or.inr (Or.inr (Or.inl rfl))⟩
        rw [if_neg hw]
        cases hi : pm.page_insert (k.envs recv).env_pgdir pte.page
            (k.envs recv).env_ipc_dstva perm with
        | none => exact Or.inl ⟨rfl, Or.inr (Or.inr (Or.inr rfl))⟩
        | some pgdir =>
          exact Or.inr ⟨rfl, recv, rfl, hr2, Or.inl ⟨hp.1, hp.2, pgdir, rfl⟩⟩
    · rw [if_neg hp]
      exact Or.inr ⟨rfl, recv, rfl, hr2, Or.inr ⟨hp, rfl⟩⟩

/-- C20: a call of `sys_ipc_try_send` returns a negative error code or 0. When it returns a
negative code the kernel state is the one it was called in, so in every environment the fields
`env_ipc_recving`, `env_ipc_from`, `env_ipc_value`, `env_ipc_perm`, the saved `eax` and
`env_status` are unchanged. When it returns 0, `envid` names a receiving environment, and that
environment has `env_ipc_recving` false, `env_ipc_from` the sender's id, `env_ipc_value` the
value sent, `env_ipc_perm` equal to `perm` when a page was transferred (both `srcva` and the
receiver's `env_ipc_dstva` below `UTOP`) and 0 otherwise, saved `eax` 0 and status
`ENV_RUNNABLE`. -/
theorem sys_ipc_try_send_atomic (pm : Pmap) (k : Kernel) (envid value srcva perm : Nat) :
    ((sys_ipc_try_send pm k envid value srcva perm).1 < 0 ∨
      (sys_ipc_try_send pm k envid value srcva perm).1 = 0) ∧
    ((sys_ipc_try_send pm k envid value srcva perm).1 < 0 →
      (sys_ipc_try_send pm k envid value srcva perm).2 = k ∧
      ∀ e, ((sys_ipc_try_send pm k envid value srcva perm).2.envs e).env_ipc_recving
            = (k.envs e).env_ipc_recving ∧
          ((sys_ipc_try_send pm k envid value srcva perm).2.envs e).env_ipc_from
            = (k.envs e).env_ipc_from ∧
          ((sys_ipc_try_send pm k envid value srcva perm).2.envs e).env_ipc_value
            = (k.envs e).env_ipc_value ∧
          ((sys_ipc_try_send pm k envid value srcva perm).2.envs e).env_ipc_perm
            = (k.envs e).env_ipc_perm ∧
          ((sys_ipc_try_send pm k envid value srcva perm).2.envs e).reg_eax
            = (k.envs e).reg_eax ∧
          ((sys_ipc_try_send pm k envid value srcva perm).2.envs e).env_status
            = (k.envs e).env_status) ∧
    ((sys_ipc_try_send pm k envid value srcva perm).1 = 0 →
      ∃ recv, pm.envid2env k envid false = some recv ∧
        (k.envs recv).env_ipc_recving = true ∧
        ((sys_ipc_try_send pm k envid value srcva perm).2.envs recv).env_ipc_recving = false ∧
        ((sys_ipc_try_send pm k envid value srcva perm).2.envs recv).env_ipc_from
          = (k.envs k.curenv).env_id ∧
        ((sys_ipc_try_send pm k envid value srcva perm).2.envs recv).env_ipc_value = value ∧
        ((sys_ipc_try_send pm k envid value srcva perm).2.envs recv).env_ipc_perm
          = (if srcva < UTOP ∧ (k.envs recv).env_ipc_dstva < UTOP then perm else 0) ∧
        ((sys_ipc_try_send pm k envid value srcva perm).2.envs recv).reg_eax = 0 ∧
        ((sys_ipc_try_send pm k envid value srcva perm).2.envs recv).env_status
          = EnvStatus.ENV_RUNNABLE) := by
  rcases sys_ipc_try_send_cases pm k envid value srcva perm with ⟨hk, hc⟩ | ⟨h0, recv, he, hr, hd⟩
  · have hneg : (sys_ipc_try_send pm k envid value srcva perm).1 < 0 := by
      rcases hc with h | h | h | h <;> rw [h] <;> decide
    refine ⟨Or.inl hneg, ?_, ?_⟩
    · intro _
      refine ⟨hk, ?_⟩
      intro e
      rw [hk]
      exact ⟨rfl, rfl, rfl, rfl, rfl, rfl⟩
    · intro h0
      rw [h0] at hneg
      exact absurd hneg (by decide)
  · refine ⟨Or.inr h0, ?_, ?_⟩
    · intro hneg
      rw [h0] at hneg
      exact absurd hneg (by decide)
    · intro _
      refine ⟨recv, he, hr, ?_⟩
      rcases hd with ⟨h1, h2, pgdir, hs⟩ | ⟨hn, hs⟩
      · rw [hs, if_pos ⟨h1, h2⟩]
        obtain ⟨f1, f2, f3, f4, f5, f6⟩ :=
          ipc_deliver_fields (set_pgdir k recv pgdir) recv value perm
        rw [set_pgdir_curenv, set_pgdir_env_id] at f2
        exact ⟨f1, f2, f3, f4, f5, f6⟩
      · rw [hs, if_neg hn]
        exact ipc_deliver_fields k recv value 0

/-- Witness for C20 in the example kernel: a send with a page to the receiving environment
`0x1001` returns 0 and delivers; a send to the running environment `0x1000` returns
`-E_IPC_NOT_RECV` and leaves the kernel state alone. -/
theorem sys_ipc_try_send_atomic_witness :
    (∃ recv, examplePmap.envid2env exampleKernel 4097 false = some recv ∧
      (exampleKernel.envs recv).env_ipc_recving = true ∧
      ((sys_ipc_try_send examplePmap exampleKernel 4097 42 8388608 5).2.envs
        recv).env_ipc_recving = false ∧
      ((sys_ipc_try_send examplePmap exampleKernel 4097 42 8388608 5).2.envs recv).env_ipc_from
        = (exampleKernel.envs exampleKernel.curenv).env_id ∧
      ((sys_ipc_try_send examplePmap exampleKernel 4097 42 8388608 5).2.envs
        recv).env_ipc_value = 42 ∧
      ((sys_ipc_try_send examplePmap exampleKernel 4097 42 8388608 5).2.envs recv).env_ipc_perm
        = (if 8388608 < UTOP ∧ (exampleKernel.envs recv).env_ipc_dstva < UTOP then 5 else 0) ∧
      ((sys_ipc_try_send examplePmap exampleKernel 4097 42 8388608 5).2.envs recv).reg_eax
        = 0 ∧
      ((sys_ipc_try_send examplePmap exampleKernel 4097 42 8388608 5).2.envs recv).env_status
        = EnvStatus.ENV_RUNNABLE) ∧
    (sys_ipc_try_send examplePmap exampleKernel 4096 42 8388608 5).1 = -E_IPC_NOT_RECV ∧
    (sys_ipc_try_send examplePmap exampleKernel 4096 42 8388608 5).2 = exampleKernel :=
  ⟨(sys_ipc_try_send_atomic examplePmap exampleKernel 4097 42 8388608 5).2.2 (by decide),
   by decide,
   ((sys_ipc_try_send_atomic examplePmap exampleKernel 4096 42 8388608 5).2.1 (by decide)).1⟩

/-! ## `duppage` -/

theorem cow_perm_and (w m a c : Nat) (ha : PTE_SYSCALL &&& (not32 PTE_W &&& m) = a)
    (hc : PTE_COW &&& m = c) : cow_perm w &&& m = (w &&& a) ||| c := by
  unfold cow_perm
  rw [Nat.and_distrib_right, Nat.and_assoc, Nat.and_assoc, ha, hc]

theorem or_ne_zero_right (a c : Nat) (hc : c ≠ 0) : a ||| c ≠ 0 := by
  intro h
  apply hc
  apply Nat.eq_of_testBit_eq
  intro i
  have := congrArg (fun n => n.testBit i) h
  simp only [Nat.testBit_or, Nat.zero_testBit, Bool.or_eq_false_iff] at this
  rw [this.2, Nat.zero_testBit]

theorem cow_perm_w (w : Nat) : cow_perm w &&& PTE_W = 0 := by
  rw [cow_perm_and w PTE_W 0 0 (by decide) (by decide)]
  simp

theorem cow_perm_cow (w : Nat) : cow_perm w &&& PTE_COW ≠ 0 := by
  rw [cow_perm_and w PTE_COW PTE_COW PTE_COW (by decide) (by decide)]
  exact or_ne_zero_right _ _ (by decide)

theorem cow_perm_outside (w : Nat) : cow_perm w &&& not32 PTE_SYSCALL = 0 := by
  rw [cow_perm_and w (not32 PTE_SYSCALL) 0 0 (by decide) (by decide)]
  simp

theorem cow_perm_p (w : Nat) (h : w &&& PTE_P ≠ 0) : cow_perm w &&& PTE_P ≠ 0 := by
  rw [cow_perm_and w PTE_P PTE_P 0 (by decide) (by decide), Nat.or_zero]
  exact h

theorem sys_perm_and (w m a : Nat) (ha : PTE_SYSCALL &&& m = a) :
    (w &&& PTE_SYSCALL) &&& m = w &&& a := by
  rw [Nat.and_assoc, ha]

theorem or_p_and (x m c : Nat) (hc : PTE_P &&& m = c) :
    (x ||| PTE_P) &&& m = (x &&& m) ||| c := by
  rw [Nat.and_distrib_right, hc]

theorem valid_of_bits {perm : Nat} (h1 : perm &&& not32 PTE_SYSCALL = 0)
    (h2 : perm &&& PTE_P ≠ 0) : VALID_USER_PERM perm = true := by
  unfold VALID_USER_PERM
  simp only [h1, decide_True, Bool.true_and, Bool.or_eq_true, decide_eq_true_eq]
  exact Or.inr h2

theorem valid_cow_perm {w : Nat} (h : w &&& PTE_P ≠ 0) : VALID_USER_PERM (cow_perm w) = true :=
  valid_of_bits (cow_perm_outside w) (cow_perm_p w h)

theorem valid_sys_perm {w : Nat} (h : w &&& PTE_P ≠ 0) :
    VALID_USER_PERM (w &&& PTE_SYSCALL) = true := by
  apply valid_of_bits
  · rw [sys_perm_and w (not32 PTE_SYSCALL) 0 (by decide)]
    simp
  · rw [sys_perm_and w PTE_P PTE_P (by decide)]
    exact h

theorem set_pgdir_same (k : Kernel) (e : Nat) (pgdir : Pgdir) :
    ((set_pgdir k e pgdir).envs e).env_pgdir = pgdir := by
  unfold set_pgdir
  simp

theorem set_pgdir_other (k : Kernel) (e : Nat) (pgdir : Pgdir) {c : Nat} (hc : c ≠ e) :
    (set_pgdir k e pgdir).envs c = k.envs c := by
  unfold set_pgdir
  exact Function.update_noteq hc _ _

theorem aligned_of_page {va : Nat} (h : va % PGSIZE = 0) : ALIGNED_USER_ADDR va = true := by
  unfold ALIGNED_USER_ADDR
  simp [h]

/-- A call of `sys_page_map` whose checks all pass: its result is decided by `page_insert`. -/
theorem sys_page_map_eq {pm : Pmap} (hpm : PagesAsMaps pm) {k : Kernel}
    {srcenvid srcva dstenvid dstva perm se de : Nat} {pte : Pte}
    (h1 : pm.envid2env k srcenvid true = some se) (h2 : pm.envid2env k dstenvid true = some de)
    (ha : srcva % PGSIZE = 0) (hb : dstva % PGSIZE = 0) (hv : VALID_USER_PERM perm = true)
    (hl : (k.envs se).env_pgdir (srcva / PGSIZE) = some pte) (hw : perm &&& PTE_W = 0) :
    sys_page_map pm k srcenvid srcva dstenvid dstva perm
      = (match pm.page_insert (k.envs de).env_pgdir pte.page dstva perm with
        | none => (-E_NO_MEM, k)
        | some pgdir => (0, set_pgdir k de pgdir)) := by
  unfold sys_page_map
  rw [h1, h2]
  simp only
  have hal : ¬ (ALIGNED_USER_ADDR srcva = false ∨ ALIGNED_USER_ADDR dstva = false) := by
    rw [aligned_of_page ha, aligned_of_page hb]
    simp
  have hvv : ¬ VALID_USER_PERM perm = false := by rw [hv]; simp
  rw [if_neg hal, if_neg hvv, hpm.lookup, hl]
  simp only
  have hww : ¬ (perm &&& PTE_W ≠ 0 ∧ pte.perm &&& PTE_W = 0) := fun h => h.1 hw
  rw [if_neg hww]

theorem sys_page_map_some {pm : Pmap} (hpm : PagesAsMaps pm) {k : Kernel}
    {srcenvid srcva dstenvid dstva perm se de : Nat} {pte : Pte} {pgdir : Pgdir}
    (h1 : pm.envid2env k srcenvid true = some se) (h2 : pm.envid2env k dstenvid true = some de)
    (ha : srcva % PGSIZE = 0) (hb : dstva % PGSIZE = 0) (hv : VALID_USER_PERM perm = true)
    (hl : (k.envs se).env_pgdir (srcva / PGSIZE) = some pte) (hw : perm &&& PTE_W = 0)
    (hi : pm.page_insert (k.envs de).env_pgdir pte.page dstva perm = some pgdir) :
    sys_page_map pm k srcenvid srcva dstenvid dstva perm
      = (0, set_pgdir k de (Function.update (k.envs de).env_pgdir (dstva / PGSIZE)
              (some { page := pte.page, perm := perm ||| PTE_P }))) := by
  rw [sys_page_map_eq hpm h1 h2 ha hb hv hl hw, hi, hpm.insert _ _ _ _ _ hi]

theorem sys_page_map_none {pm : Pmap} (hpm : PagesAsMaps pm) {k : Kernel}
    {srcenvid srcva dstenvid dstva perm se de : Nat} {pte : Pte}
    (h1 : pm.envid2env k srcenvid true = some se) (h2 : pm.envid2env k dstenvid true = some de)
    (ha : srcva % PGSIZE = 0) (hb : dstva % PGSIZE = 0) (hv : VALID_USER_PERM perm = true)
    (hl : (k.envs se).env_pgdir (srcva / PGSIZE) = some pte) (hw : perm &&& PTE_W = 0)
    (hi : pm.page_insert (k.envs de).env_pgdir pte.page dstva perm = none) :
    sys_page_map pm k srcenvid srcva dstenvid dstva perm = (-E_NO_MEM, k) := by
  rw [sys_page_map_eq hpm h1 h2 ha hb hv hl hw, hi]

/-! ### The read of the page-table entry -/

theorem shl_or (a b : Nat) : 2 ^ 22 * a ||| 2 ^ 22 * b = 2 ^ 22 * (a ||| b) := by
  have e : ∀ x : Nat, 2 ^ 22 * x = x <<< 22 := fun x => by rw [Nat.shiftLeft_eq, Nat.mul_comm]
  rw [e, e, e]
  apply Nat.eq_of_testBit_eq
  intro i
  simp only [Nat.testBit_or, Nat.testBit_shiftLeft]
  cases decide (22 ≤ i) <;> simp

set_option maxRecDepth 20000 in
theorem or_957 : ∀ hi, hi < 1024 → 957 ||| hi < 958 → 957 ||| hi = 957 := by
  decide

theorem uvpt_or_split (y : Nat) :
    UVPT ||| y = 2 ^ 22 * (957 ||| y / 4194304) + y % 4194304 := by
  have hlo : y % 4194304 < 2 ^ 22 := by
    have : (2 : Nat) ^ 22 = 4194304 := by norm_num
    rw [this]
    exact Nat.mod_lt _ (by norm_num)
  have hy : y = 2 ^ 22 * (y / 4194304) ||| y % 4194304 := by
    rw [← Nat.mul_add_lt_is_or hlo]
    have : (2 : Nat) ^ 22 = 4194304 := by norm_num
    rw [this]
    exact (Nat.div_add_mod y 4194304).symm
  have e : UVPT = 2 ^ 22 * 957 := by norm_num
  rw [Nat.mul_add_lt_is_or hlo]
  conv_lhs => rw [hy, e, ← Nat.or_assoc, shl_or]

/-- Inside the window, `*pte` is the entry of page `pn mod 2^20`. -/
theorem read_in_window (pn : Nat) (h : UVPT ||| ((pn * 4) % 4294967296) < UVPT + PTSIZE) :
    ((UVPT ||| ((pn * 4) % 4294967296)) - UVPT) / 4 = pn % 1048576 := by
  rw [uvpt_or_split] at h ⊢
  have hhi : (pn * 4) % 4294967296 / 4194304 < 1024 := by omega
  have hc : 957 ||| (pn * 4) % 4294967296 / 4194304 < 958 := by
    have : (2 : Nat) ^ 22 = 4194304 := by norm_num
    rw [this] at h
    simp only [UVPT, PTSIZE] at h
    omega
  rw [or_957 _ hhi hc]
  simp only [UVPT]
  omega

/-- For a page number, which is below `2^20`, the read is inside the window. -/
theorem read_small {pn : Nat} (h : pn < 1048576) :
    UVPT ||| ((pn * 4) % 4294967296) < UVPT + PTSIZE := by
  rw [uvpt_or_split]
  have h0 : (pn * 4) % 4294967296 / 4194304 = 0 := by omega
  rw [h0]
  simp only [UVPT, PTSIZE]
  have : (957 ||| 0 : Nat) = 957 := by decide
  rw [this]
  omega

theorem read_pte_eq (k : Kernel) {pn : Nat}
    (h : UVPT ||| ((pn * 4) % 4294967296) < UVPT + PTSIZE) :
    read_pte k pn = some (uvpt k (pn % 1048576)) := by
  unfold read_pte
  rw [if_pos h, read_in_window pn h]

theorem read_pte_fault (k : Kernel) {pn : Nat}
    (h : ¬ UVPT ||| ((pn * 4) % 4294967296) < UVPT + PTSIZE) : read_pte k pn = none := by
  unfold read_pte
  rw [if_neg h]

theorem page_va_facts (pn : Nat) :
    (pn * PGSIZE) % 4294967296 / PGSIZE = pn % 1048576 ∧
      ((pn * PGSIZE) % 4294967296) % PGSIZE = 0 ∧
      ((pn * PGSIZE) % 4294967296 = UXSTACKTOP - PGSIZE
        ↔ pn % 1048576 = (UXSTACKTOP - PGSIZE) / PGSIZE) := by
  simp only [PGSIZE, JosFs.PGSIZE, UXSTACKTOP, UTOP]
  omega

theorem uvpt_eq {k : Kernel} {pn : Nat} {pte : Pte}
    (h : (k.envs k.curenv).env_pgdir pn = some pte) : uvpt k pn = pte.perm := by
  unfold uvpt
  rw [h]

/-! ### The three runs of `duppage` -/

/-- The run of `duppage` on a present page that is writable or copy-on-write: the child's
mapping is attempted first, the parent's only after it succeeded. -/
theorem duppage_cow {pm : Pmap} (hpm : PagesAsMaps pm) {k : Kernel} {envid child pn : Nat}
    {pte : Pte} (hself : ∀ k1, pm.envid2env k1 0 true = some k1.curenv)
    (hchild : ∀ k1, pm.envid2env k1 envid true = some child) (hne : child ≠ k.curenv)
    (hwin : UVPT ||| ((pn * 4) % 4294967296) < UVPT + PTSIZE)
    (hx : pn % 1048576 ≠ (UXSTACKTOP - PGSIZE) / PGSIZE)
    (hpte : (k.envs k.curenv).env_pgdir (pn % 1048576) = some pte)
    (hP : pte.perm &&& PTE_P ≠ 0)
    (hc : pte.perm &&& PTE_W ≠ 0 ∨ pte.perm &&& PTE_COW ≠ 0) :
    duppage pm k envid pn =
      (match pm.page_insert (k.envs child).env_pgdir pte.page ((pn * PGSIZE) % 4294967296)
          (cow_perm pte.perm) with
        | none => some (-E_NO_MEM, k)
        | some _ =>
          match pm.page_insert (k.envs k.curenv).env_pgdir pte.page
              ((pn * PGSIZE) % 4294967296) (cow_perm pte.perm) with
          | none =>
            some (-E_NO_MEM,
              set_pgdir k child (Function.update (k.envs child).env_pgdir (pn % 1048576)
                (some { page := pte.page, perm := cow_perm pte.perm ||| PTE_P })))
          | some _ =>
            some (0,
              set_pgdir
                (set_pgdir k child (Function.update (k.envs child).env_pgdir (pn % 1048576)
                  (some { page := pte.page, perm := cow_perm pte.perm ||| PTE_P })))
                k.curenv
                (Function.update (k.envs k.curenv).env_pgdir (pn % 1048576)
                  (some { page := pte.page, perm := cow_perm pte.perm ||| PTE_P })))) := by
  obtain ⟨hq, hal, hxs⟩ := page_va_facts pn
  have hx2 : ¬ (pn * PGSIZE) % 4294967296 = UXSTACKTOP - PGSIZE := fun h => hx (hxs.mp h)
  have hl : (k.envs k.curenv).env_pgdir ((pn * PGSIZE) % 4294967296 / PGSIZE) = some pte := by
    rw [hq]; exact hpte
  unfold duppage
  simp only
  rw [if_neg hx2, read_pte_eq k hwin]
  simp only
  rw [uvpt_eq hpte, if_pos hc]
  cases hi1 : pm.page_insert (k.envs child).env_pgdir pte.page ((pn * PGSIZE) % 4294967296)
      (cow_perm pte.perm) with
  | none =>
    rw [sys_page_map_none hpm (hself k) (hchild k) hal hal (valid_cow_perm hP) hl
      (cow_perm_w pte.perm) hi1]
    simp only
    rw [if_pos (by decide)]
  | some pg1 =>
    have e1 := sys_page_map_some hpm (hself k) (hchild k) hal hal (valid_cow_perm hP) hl
      (cow_perm_w pte.perm) hi1
    rw [hq] at e1
    rw [e1]
    simp only [lt_self_iff_false, if_false]
    have hk1 : ((set_pgdir k child (Function.update (k.envs child).env_pgdir (pn % 1048576)
        (some { page := pte.page, perm := cow_perm pte.perm ||| PTE_P }))).envs k.curenv)
        = k.envs k.curenv := set_pgdir_other _ _ _ (Ne.symm hne)
    have hl1 : ((set_pgdir k child (Function.update (k.envs child).env_pgdir (pn % 1048576)
        (some { page := pte.page, perm := cow_perm pte.perm ||| PTE_P }))).envs
          (set_pgdir k child (Function.update (k.envs child).env_pgdir (pn % 1048576)
            (some { page := pte.page, perm := cow_perm pte.perm ||| PTE_P }))).curenv).env_pgdir
        ((pn * PGSIZE) % 4294967296 / PGSIZE) = some pte := by
      show ((set_pgdir k child _).envs k.curenv).env_pgdir _ = some pte
      rw [hk1]
      exact hl
    have e2 := sys_page_map_eq hpm
      (hself (set_pgdir k child (Function.update (k.envs child).env_pgdir (pn % 1048576)
        (some { page := pte.page, perm := cow_perm pte.perm ||| PTE_P }))))
      (hself (set_pgdir k child (Function.update (k.envs child).env_pgdir (pn % 1048576)
        (some { page := pte.page, perm := cow_perm pte.perm ||| PTE_P }))))
      hal hal (valid_cow_perm hP) hl1 (cow_perm_w pte.perm)
    have e3 : (set_pgdir k child (Function.update (k.envs child).env_pgdir (pn % 1048576)
        (some { page := pte.page, perm := cow_perm pte.perm ||| PTE_P }))).curenv
        = k.curenv := rfl
    rw [e3, hk1] at e2
    rw [e2]
    cases hi2 : pm.page_insert (k.envs k.curenv).env_pgdir pte.page
        ((pn * PGSIZE) % 4294967296) (cow_perm pte.perm) with
    | none =>
      simp only
      rw [if_pos (by decide)]
    | some pg2 =>
      simp only [lt_self_iff_false, if_false]
      rw [hpm.insert _ _ _ _ _ hi2, hq]

/-- The run of `duppage` on a present page that is neither writable nor copy-on-write. -/
theorem duppage_plain {pm : Pmap} (hpm : PagesAsMaps pm) {k : Kernel} {envid child pn : Nat}
    {pte : Pte} (hself : ∀ k1, pm.envid2env k1 0 true = some k1.curenv)
    (hchild : ∀ k1, pm.envid2env k1 envid true = some child)
    (hwin : UVPT ||| ((pn * 4) % 4294967296) < UVPT + PTSIZE)
    (hx : pn % 1048576 ≠ (UXSTACKTOP - PGSIZE) / PGSIZE)
    (hpte : (k.envs k.curenv).env_pgdir (pn % 1048576) = some pte)
    (hP : pte.perm &&& PTE_P ≠ 0)
    (hc : ¬ (pte.perm &&& PTE_W ≠ 0 ∨ pte.perm &&& PTE_COW ≠ 0)) :
    duppage pm k envid pn =
      (match pm.page_insert (k.envs child).env_pgdir pte.page ((pn * PGSIZE) % 4294967296)
          (pte.perm &&& PTE_SYSCALL) with
        | none => some (-E_NO_MEM, k)
        | some _ =>
          some (0, set_pgdir k child (Function.update (k.envs child).env_pgdir (pn % 1048576)
            (some { page := pte.page, perm := (pte.perm &&& PTE_SYSCALL) ||| PTE_P })))) := by
  obtain ⟨hq, hal, hxs⟩ := page_va_facts pn
  have hx2 : ¬ (pn * PGSIZE) % 4294967296 = UXSTACKTOP - PGSIZE := fun h => hx (hxs.mp h)
  have hl : (k.envs k.curenv).env_pgdir ((pn * PGSIZE) % 4294967296 / PGSIZE) = some pte := by
    rw [hq]; exact hpte
  have hw : (pte.perm &&& PTE_SYSCALL) &&& PTE_W = 0 := by
    rw [sys_perm_and pte.perm PTE_W PTE_W (by decide)]
    by_contra h
    exact hc (Or.inl h)
  unfold duppage
  simp only
  rw [if_neg hx2, read_pte_eq k hwin]
  simp only
  rw [uvpt_eq hpte, if_neg hc]
  cases hi1 : pm.page_insert (k.envs child).env_pgdir pte.page ((pn * PGSIZE) % 4294967296)
      (pte.perm &&& PTE_SYSCALL) with
  | none =>
    rw [sys_page_map_none hpm (hself k) (hchild k) hal hal (valid_sys_perm hP) hl hw hi1]
    simp only
    rw [if_pos (by decide)]
  | some pg1 =>
    have e1 := sys_page_map_some hpm (hself k) (hchild k) hal hal (valid_sys_perm hP) hl hw hi1
    rw [hq] at e1
    rw [e1]
    simp only [lt_self_iff_false, if_false]

/-- The run of `duppage` on the page of the user exception stack: one call of
`sys_page_alloc`, and no read of the parent's entry. -/
theorem duppage_xstack (pm : Pmap) (k : Kernel) (envid : Nat) {pn : Nat}
    (hx : pn % 1048576 = (UXSTACKTOP - PGSIZE) / PGSIZE) :
    duppage pm k envid pn
      = some (sys_page_alloc pm k envid (UXSTACKTOP - PGSIZE) (PTE_W ||| PTE_U)) := by
  obtain ⟨_, _, hxs⟩ := page_va_facts pn
  unfold duppage
  simp only
  rw [if_pos (hxs.mpr hx)]

theorem duppage_fault (pm : Pmap) (k : Kernel) (envid : Nat) {pn : Nat}
    (hx : pn % 1048576 ≠ (UXSTACKTOP - PGSIZE) / PGSIZE)
    (hwin : ¬ UVPT ||| ((pn * 4) % 4294967296) < UVPT + PTSIZE) :
    duppage pm k envid pn = none := by
  obtain ⟨_, _, hxs⟩ := page_va_facts pn
  have hx2 : ¬ (pn * PGSIZE) % 4294967296 = UXSTACKTOP - PGSIZE := fun h => hx (hxs.mp h)
  unfold duppage
  simp only
  rw [if_neg hx2, read_pte_fault k hwin]

theorem sys_page_alloc_run {pm : Pmap} (hpm : PagesAsMaps pm) {k : Kernel}
    {envid child fresh : Nat} {pg : Pgdir}
    (hchild : pm.envid2env k envid true = some child) (hf : pm.page_alloc k = some fresh)
    (hi : pm.page_insert (k.envs child).env_pgdir fresh (UXSTACKTOP - PGSIZE)
      (PTE_W ||| PTE_U) = some pg) :
    sys_page_alloc pm k envid (UXSTACKTOP - PGSIZE) (PTE_W ||| PTE_U)
      = (0, set_pgdir k child (Function.update (k.envs child).env_pgdir
              ((UXSTACKTOP - PGSIZE) / PGSIZE)
              (some { page := fresh, perm := (PTE_W ||| PTE_U) ||| PTE_P }))) := by
  unfold sys_page_alloc
  rw [hchild]
  simp only
  rw [if_neg (by decide), if_neg (by decide), hf]
  simp only
  rw [hi, hpm.insert _ _ _ _ _ hi]

theorem set_pgdir_frame (k : Kernel) (e p : Nat) (v : Option Pte) (base : Pgdir)
    (hbase : base = (k.envs e).env_pgdir) {q : Nat} (hq : q ≠ p) (c : Nat) :
    ((set_pgdir k e (Function.update base p v)).envs c).env_pgdir q
      = (k.envs c).env_pgdir q := by
  by_cases hc : c = e
  · rw [hc, set_pgdir_same, Function.update_noteq hq, hbase]
  · rw [set_pgdir_other _ _ _ hc]

/-- C22: `duppage` run by the parent for a child other than itself, `page_lookup` and
`page_insert` acting on page tables as maps. The read of `*pte` is inside the `UVPT` window for
every page number (below `2^20`); in general, when it is inside, `duppage` works on page
`pn mod 2^20`, and when it is outside, the read faults. For a page other than the user
exception stack page whose entry is present:
if the entry has `PTE_W` or `PTE_COW` set, the page is mapped into the child first and into
the parent second, both with permission `(pte & PTE_SYSCALL)` with `PTE_W` cleared and
`PTE_COW` set: when the child's insertion fails the call returns `-E_NO_MEM` with nothing
changed; when it succeeds and the parent's fails, the call returns `-E_NO_MEM` with the child
already mapping the page and the parent untouched; when both succeed it returns 0, neither
mapping is writable and both are copy-on-write;
otherwise the page is mapped into the child with permission `pte & PTE_SYSCALL` and the parent
is untouched. No mapping of another page changes.
For the user exception stack page the call is one `sys_page_alloc` of a fresh page with
`PTE_W | PTE_U` in the child, so without `PTE_COW`; the parent's entry is not read and no other
environment changes. -/
theorem duppage_spec {pm : Pmap} (hpm : PagesAsMaps pm) {k : Kernel} {envid child : Nat}
    (hself : ∀ k1, pm.envid2env k1 0 true = some k1.curenv)
    (hchild : ∀ k1, pm.envid2env k1 envid true = some child) (hne : child ≠ k.curenv) :
    (∀ pn, pn < 1048576 →
      pn % 1048576 = pn ∧ UVPT ||| ((pn * 4) % 4294967296) < UVPT + PTSIZE) ∧
    (∀ pn, pn % 1048576 ≠ (UXSTACKTOP - PGSIZE) / PGSIZE →
      ¬ UVPT ||| ((pn * 4) % 4294967296) < UVPT + PTSIZE → duppage pm k envid pn = none) ∧
    (∀ pn pte, UVPT ||| ((pn * 4) % 4294967296) < UVPT + PTSIZE →
      pn % 1048576 ≠ (UXSTACKTOP - PGSIZE) / PGSIZE →
      (k.envs k.curenv).env_pgdir (pn % 1048576) = some pte → pte.perm &&& PTE_P ≠ 0 →
      (pte.perm &&& PTE_W ≠ 0 ∨ pte.perm &&& PTE_COW ≠ 0) →
      (pm.page_insert (k.envs child).env_pgdir pte.page ((pn * PGSIZE) % 4294967296)
          (cow_perm pte.perm) = none →
        duppage pm k envid pn = some (-E_NO_MEM, k)) ∧
      (∀ pg1, pm.page_insert (k.envs child).env_pgdir pte.page ((pn * PGSIZE) % 4294967296)
          (cow_perm pte.perm) = some pg1 →
        pm.page_insert (k.envs k.curenv).env_pgdir pte.page ((pn * PGSIZE) % 4294967296)
          (cow_perm pte.perm) = none →
        ∃ k1, duppage pm k envid pn = some (-E_NO_MEM, k1) ∧
          (k1.envs child).env_pgdir (pn % 1048576)
            = some { page := pte.page, perm := cow_perm pte.perm ||| PTE_P } ∧
          k1.envs k.curenv = k.envs k.curenv ∧
          (∀ e q, q ≠ pn % 1048576 → (k1.envs e).env_pgdir q = (k.envs e).env_pgdir q)) ∧
      (∀ pg1 pg2,
        pm.page_insert (k.envs child).env_pgdir pte.page ((pn * PGSIZE) % 4294967296)
          (cow_perm pte.perm) = some pg1 →
        pm.page_insert (k.envs k.curenv).env_pgdir pte.page ((pn * PGSIZE) % 4294967296)
          (cow_perm pte.perm) = some pg2 →
        ∃ k2, duppage pm k envid pn = some (0, k2) ∧
          (k2.envs child).env_pgdir (pn % 1048576)
            = some { page := pte.page, perm := cow_perm pte.perm ||| PTE_P } ∧
          (k2.envs k.curenv).env_pgdir (pn % 1048576)
            = some { page := pte.page, perm := cow_perm pte.perm ||| PTE_P } ∧
          (∀ e q, q ≠ pn % 1048576 → (k2.envs e).env_pgdir q = (k.envs e).env_pgdir q) ∧
          (∀ e, e ≠ child → e ≠ k.curenv → k2.envs e = k.envs e)) ∧
      cow_perm pte.perm = ((pte.perm &&& PTE_SYSCALL) &&& not32 PTE_W) ||| PTE_COW ∧
      (cow_perm pte.perm ||| PTE_P) &&& PTE_W = 0 ∧
      (cow_perm pte.perm ||| PTE_P) &&& PTE_COW ≠ 0) ∧
    (∀ pn pte, UVPT ||| ((pn * 4) % 4294967296) < UVPT + PTSIZE →
      pn % 1048576 ≠ (UXSTACKTOP - PGSIZE) / PGSIZE →
      (k.envs k.curenv).env_pgdir (pn % 1048576) = some pte → pte.perm &&& PTE_P ≠ 0 →
      ¬ (pte.perm &&& PTE_W ≠ 0 ∨ pte.perm &&& PTE_COW ≠ 0) →
      (pm.page_insert (k.envs child).env_pgdir pte.page ((pn * PGSIZE) % 4294967296)
          (pte.perm &&& PTE_SYSCALL) = none →
        duppage pm k envid pn = some (-E_NO_MEM, k)) ∧
      (∀ pg1, pm.page_insert (k.envs child).env_pgdir pte.page ((pn * PGSIZE) % 4294967296)
          (pte.perm &&& PTE_SYSCALL) = some pg1 →
        ∃ k1, duppage pm k envid pn = some (0, k1) ∧
          (k1.envs child).env_pgdir (pn % 1048576)
            = some { page := pte.page, perm := (pte.perm &&& PTE_SYSCALL) ||| PTE_P } ∧
          k1.envs k.curenv = k.envs k.curenv ∧
          (∀ e q, q ≠ pn % 1048576 → (k1.envs e).env_pgdir q = (k.envs e).env_pgdir q) ∧
          (∀ e, e ≠ child → k1.envs e = k.envs e))) ∧
    (∀ pn, pn % 1048576 = (UXSTACKTOP - PGSIZE) / PGSIZE →
      duppage pm k envid pn
        = some (sys_page_alloc pm k envid (UXSTACKTOP - PGSIZE) (PTE_W ||| PTE_U)) ∧
      (∀ fresh pg, pm.page_alloc k = some fresh →
        pm.page_insert (k.envs child).env_pgdir fresh (UXSTACKTOP - PGSIZE)
          (PTE_W ||| PTE_U) = some pg →
        ∃ k1, duppage pm k envid pn = some (0, k1) ∧
          (k1.envs child).env_pgdir ((UXSTACKTOP - PGSIZE) / PGSIZE)
            = some { page := fresh, perm := (PTE_W ||| PTE_U) ||| PTE_P } ∧
          ((PTE_W ||| PTE_U) ||| PTE_P) &&& PTE_COW = 0 ∧
          (∀ e, e ≠ child → k1.envs e = k.envs e))) := by
  refine ⟨?_, ?_, ?_, ?_, ?_⟩
  · intro pn hpn
    exact ⟨Nat.mod_eq_of_lt hpn, read_small hpn⟩
  · intro pn hx hwin
    exact duppage_fault pm k envid hx hwin
  · intro pn pte hwin hx hpte hP hc
    have hrun := duppage_cow hpm hself hchild hne hwin hx hpte hP hc
    refine ⟨?_, ?_, ?_, rfl, ?_, ?_⟩
    · intro hi1
      rw [hrun, hi1]
    · intro pg1 hi1 hi2
      rw [hrun, hi1]
      simp only
      rw [hi2]
      refine ⟨_, rfl, ?_, set_pgdir_other _ _ _ (Ne.symm hne), ?_⟩
      · rw [set_pgdir_same, Function.update_same]
      · intro e q hq
        exact set_pgdir_frame k child _ _ _ rfl hq e
    · intro pg1 pg2 hi1 hi2
      rw [hrun, hi1]
      simp only
      rw [hi2]
      refine ⟨_, rfl, ?_, ?_, ?_, ?_⟩
      · rw [set_pgdir_other _ _ _ hne, set_pgdir_same, Function.update_same]
      · rw [set_pgdir_same, Function.update_same]
      · intro e q hq
        rw [set_pgdir_frame _ k.curenv _ _ _
          (by rw [set_pgdir_other _ _ _ (Ne.symm hne)]) hq e]
        exact set_pgdir_frame k child _ _ _ rfl hq e
      · intro e he1 he2
        rw [set_pgdir_other _ _ _ he2, set_pgdir_other _ _ _ he1]
    · rw [or_p_and _ PTE_W 0 (by decide), cow_perm_w, Nat.or_zero]
    · rw [or_p_and _ PTE_COW 0 (by decide), Nat.or_zero]
      exact cow_perm_cow _
  · intro pn pte hwin hx hpte hP hc
    have hrun := duppage_plain hpm hself hchild hwin hx hpte hP hc
    refine ⟨?_, ?_⟩
    · intro hi1
      rw [hrun, hi1]
    · intro pg1 hi1
      rw [hrun, hi1]
      refine ⟨_, rfl, ?_, set_pgdir_other _ _ _ (Ne.symm hne), ?_, ?_⟩
      · rw [set_pgdir_same, Function.update_same]
      · intro e q hq
        exact set_pgdir_frame k child _ _ _ rfl hq e
      · intro e he
        exact set_pgdir_other _ _ _ he
  · intro pn hx
    refine ⟨duppage_xstack pm k envid hx, ?_⟩
    intro fresh pg hf hi
    rw [duppage_xstack pm k envid hx, sys_page_alloc_run hpm (hchild k) hf hi]
    refine ⟨_, rfl, ?_, by decide, ?_⟩
    · rw [set_pgdir_same, Function.update_same]
    · intro e he
      exact set_pgdir_other _ _ _ he

theorem examplePmap_maps : PagesAsMaps examplePmap :=
  ⟨fun _ _ => rfl, fun _ _ _ _ _ h => (Option.some.inj h).symm⟩

theorem tightPmap_maps : PagesAsMaps tightPmap := by
  refine ⟨fun _ _ => rfl, ?_⟩
  intro pgdir page va perm pgdir1 h
  have h2 : (if (pgdir 2048).isSome = true then none
      else some (Function.update pgdir (va / PGSIZE)
        (some { page := page, perm := perm ||| PTE_P }))) = some pgdir1 := h
  by_cases hc : (pgdir 2048).isSome = true
  · rw [if_pos hc] at h2
    exact absurd h2 (by simp)
  · rw [if_neg hc] at h2
    exact (Option.some.inj h2).symm

/-- Witness for C22 in `forkKernel`, the child being slot 1 (`envid` `0x1001`). With
`examplePmap`: the writable page 2048 ends up mapped copy-on-write and not writable
(`PTE_P | PTE_U | PTE_COW`) in child and parent; the read-only page 2049 is mapped read-only in
the child and the parent is untouched, also when asked for as page number `2^20 + 2049`
(1050625); page
number `2^21` makes the read of `*pte` fault; for the exception stack page the child gets the
fresh page 7 with `PTE_P | PTE_W | PTE_U`. With `tightPmap`, where the parent's insertion fails:
the call on page 2048 returns `-E_NO_MEM` when the child already maps the page copy-on-write
and the parent still maps it writable. -/
theorem duppage_spec_witness :
    (PagesAsMaps examplePmap ∧ PagesAsMaps tightPmap) ∧
    (∃ k2, duppage examplePmap forkKernel 4097 2048 = some (0, k2) ∧
      (k2.envs 1).env_pgdir 2048 = some { page := 3, perm := 2053 } ∧
      (k2.envs 0).env_pgdir 2048 = some { page := 3, perm := 2053 }) ∧
    (∃ k1, duppage tightPmap forkKernel 4097 2048 = some (-E_NO_MEM, k1) ∧
      (k1.envs 1).env_pgdir 2048 = some { page := 3, perm := 2053 } ∧
      (k1.envs 0).env_pgdir 2048 = some { page := 3, perm := 7 }) ∧
    (∃ k1, duppage examplePmap forkKernel 4097 2049 = some (0, k1) ∧
      (k1.envs 1).env_pgdir 2049 = some { page := 4, perm := 5 } ∧
      k1.envs 0 = forkKernel.envs 0) ∧
    (∃ k1, duppage examplePmap forkKernel 4097 1050625 = some (0, k1) ∧
      (k1.envs 1).env_pgdir 2049 = some { page := 4, perm := 5 } ∧
      k1.envs 0 = forkKernel.envs 0) ∧
    duppage examplePmap forkKernel 4097 2097152 = none ∧
    (∃ k1, duppage examplePmap forkKernel 4097 ((UXSTACKTOP - PGSIZE) / PGSIZE) = some (0, k1) ∧
      (k1.envs 1).env_pgdir ((UXSTACKTOP - PGSIZE) / PGSIZE)
        = some { page := 7, perm := 7 } ∧
      k1.envs 0 = forkKernel.envs 0) := by
  have H := @duppage_spec examplePmap examplePmap_maps forkKernel 4097 1 (fun _ => rfl)
    (fun _ => rfl) (by decide)
  have T := @duppage_spec tightPmap tightPmap_maps forkKernel 4097 1 (fun _ => rfl)
    (fun _ => rfl) (by decide)
  refine ⟨⟨examplePmap_maps, tightPmap_maps⟩, ?_, ?_, ?_, ?_, ?_, ?_⟩
  · obtain ⟨k2, h, hc, hp, _⟩ :=
      (H.2.2.1 2048 { page := 3, perm := 7 } (by decide) (by decide) rfl (by decide)
        (by decide)).2.2.1 _ _ rfl rfl
    exact ⟨k2, h, hc, hp⟩
  · obtain ⟨k1, h, hc, hp, _⟩ :=
      (T.2.2.1 2048 { page := 3, perm := 7 } (by decide) (by decide) rfl (by decide)
        (by decide)).2.1 _ rfl rfl
    exact ⟨k1, h, hc, (congrArg (fun e => e.env_pgdir 2048) hp).trans rfl⟩
  · obtain ⟨k1, h, hc, hp, _⟩ :=
      (H.2.2.2.1 2049 { page := 4, perm := 5 } (by decide) (by decide) rfl (by decide)
        (by decide)).2 _ rfl
    exact ⟨k1, h, hc, hp⟩
  · obtain ⟨k1, h, hc, hp, _⟩ :=
      (H.2.2.2.1 1050625 { page := 4, perm := 5 } (by decide) (by decide) rfl
        (by decide) (by decide)).2 _ rfl
    exact ⟨k1, h, hc, hp⟩
  · exact H.2.1 2097152 (by decide) (by decide)
  · obtain ⟨k1, h, hc, _, hp⟩ :=
      (H.2.2.2.2 ((UXSTACKTOP - PGSIZE) / PGSIZE) (by decide)).2 7 _ rfl rfl
    exact ⟨k1, h, hc, hp 0 (by decide)⟩

end JosKern
